import Mathlib

/-!
# runnergunner: the batched streaming merge of Salmon / RNA-see tab files

A shallow embedding of `runnergunner.cpp` and the properties proved about it.

Conventions of the embedding

* A `std::string` is the list of its characters (`Str`); a path is the string it was
  built from, compared character by character.
* A file system maps paths to raw file contents.  A stream opened on a file delivers
  the lines `std::getline` would deliver (`getlines`).
* Every way the program stops early (`exit(1)`, an uncaught exception, undefined
  behaviour on an iterator) is a `MergeError`; the text sent to the output stream up
  to that point is kept next to it.
* The while loop of `_mergeFilesBatch` and the recursion of `_mergeFiles` carry a bound
  on their number of steps; `mergeLoop_fuel_enough` and `mergeLoop_fuel_more` show that
  the bound used for the while loop is never reached when the batch is not empty, and
  `mergeLoop_empty_batch` that no bound is enough when it is empty.
* `fileSystemMaxFilesOpen` is a mutable global in the source; here it is the explicit
  parameter `maxOpen` of `_mergeFiles`.
-/

namespace RunnerGunner

/-- A std::string, as the list of its characters. -/
abbrev Str := List Char

/-- The enum class FileType. -/
inductive FileType where
  | Salmon
  | Tab
  | Either
  deriving DecidableEq

/-- The struct DataColumn: a run name and the index of its field in a split line. -/
structure DataColumn where
  runname : Str := "none".toList
  colnum : Nat := 0
  deriving DecidableEq

/-- The struct InputFileData, without its stream and buffer, which are modelled by
`Reader` below. -/
structure InputFileData where
  path : Str := "none".toList
  filetype : FileType := FileType.Salmon
  columns : List DataColumn := []
  deriving DecidableEq

/-- The enum class RunnerOutput. -/
inductive RunnerOutput where
  | normal
  | none
  | printruns
  | printgenes
  deriving DecidableEq

/-! ## Splitting a line -/

/-- The for loop of splitLineOnChar.  The first argument is what lies between `_Ptr` and
`_End`, `cur` is what lies between `_Beg` and `_Ptr`. -/
def splitLoop (delimiter : Char) : Str → Str → List Str → List Str
  | [], cur, tokens => tokens ++ [cur]
  | c :: rest, cur, tokens =>
    if c = delimiter then splitLoop delimiter rest [] (tokens ++ [cur])
    else splitLoop delimiter rest (cur ++ [c]) tokens

/-- The function splitLineOnChar: the token vector is cleared, then filled.  The size hint
only reserves capacity. -/
def splitLineOnChar (instring : Str) (delimiter : Char) (tokens : List Str) (sizehint : Nat) :
    List Str :=
  let cleared : List Str := (tokens.take 0).take sizehint
  splitLoop delimiter instring [] cleared

/-- The function splitLineOnTabs. -/
def splitLineOnTabs (line : Str) (tokens : List Str) (sizehint : Nat) : List Str :=
  splitLineOnChar line '\t' tokens sizehint

/-! ## Paths and the file system -/

/-- The last component of a path (std::filesystem::path::filename, with '/' as the
directory separator). -/
def filename (p : Str) : Str :=
  (p.reverse.takeWhile (fun c => c ≠ '/')).reverse

/-- The stem of a path (std::filesystem::path::stem): the file name without its last
extension.  The names "." and "..", names without a dot, and names whose only dot comes
first are their own stem. -/
def stem (p : Str) : Str :=
  let f := filename p
  if f = ['.'] ∨ f = ['.', '.'] then f
  else
    let ext := f.reverse.takeWhile (fun c => c ≠ '.')
    match f.reverse.drop ext.length with
    | [] => f
    | _ :: base => if base = [] then f else base.reverse

/-- What `out << p` writes for a path `p`: the stream inserter of std::filesystem::path goes
through std::quoted, so the text is put between double quotes, and a double quote or
backslash inside it gets a backslash in front.  Character 34 is the double quote and
character 92 the backslash. -/
def quoted (s : Str) : Str :=
  [Char.ofNat 34] ++
    (s.map (fun c =>
      if c = Char.ofNat 34 ∨ c = Char.ofNat 92 then [Char.ofNat 92, c] else [c])).flatten ++
    [Char.ofNat 34]

/-- A file system: raw contents by path (the first binding of a path is the current one),
the paths on which opening an output stream fails, and the paths that exist without being
a file a stream can read (a directory, a file without read permission).  A path is looked
up as it is spelled: two spellings of the path of one file are two entries. -/
structure FileSystem where
  files : List (Str × Str) := []
  unwritable : List Str := []
  unreadable : List Str := []
  deriving DecidableEq

/-- The content of the file at a path, when there is one that can be opened. -/
def FileSystem.content (fs : FileSystem) (p : Str) : Option Str :=
  fs.files.lookup p

/-- The file system after a file is created or replaced. -/
def FileSystem.write (fs : FileSystem) (p : Str) (c : Str) : FileSystem :=
  FileSystem.mk ((p, c) :: fs.files) fs.unwritable fs.unreadable

/-- Whether a path exists (std::filesystem::exists): it is a file with a content, or one of
the paths that exist without one. -/
def FileSystem.pathExists (fs : FileSystem) (p : Str) : Bool :=
  (fs.content p).isSome || decide (p ∈ fs.unreadable)

/-- The loop behind `getlines`; `cur` is the line being read. -/
def getlinesLoop : Str → Str → List Str
  | [], cur => if cur = [] then [] else [cur]
  | c :: rest, cur =>
    if c = '\n' then cur :: getlinesLoop rest [] else getlinesLoop rest (cur ++ [c])

/-- The lines successive calls of std::getline deliver from a content, until the call
that fails: a last line need not be terminated, and after a final newline there is no
further (empty) line. -/
def getlines (content : Str) : List Str :=
  getlinesLoop content []

/-- An input file of a batch together with the lines its stream has yet to deliver. -/
structure Reader where
  file : InputFileData
  lines : List Str
  deriving DecidableEq

/-! ## Failures -/

/-- The ways the program stops early. -/
inductive MergeError where
  /-- "Insufficient good files to combine." -/
  | insufficientFiles
  /-- "Trying to combine too many files". -/
  | tooManyFiles
  /-- "Output file already exists". -/
  | outputExists
  /-- "Trying to merge multiple copies of the same input file". -/
  | duplicateInput
  /-- "File ... failed to open." -/
  | openFailed (path : Str)
  /-- The throw after the output stream failed to open. -/
  | outputOpenFailed
  /-- "File ... ended prematurely." printed where getline fails on a file that is not the
  first of its row. -/
  | endedPrematurely (path : Str)
  /-- The same message, printed by the row-length guard of a Tab file. -/
  | rowTooShort (path : Str)
  /-- "Gene name mismatch in file ... Expected gene ... but read gene ...". -/
  | geneMismatch (path : Str) (expected : Str) (actual : Str)
  /-- The std::out_of_range thrown by `vector::at`, which nothing catches. -/
  | outOfRange
  /-- A past-the-end iterator was dereferenced (undefined behaviour). -/
  | badIterator
  deriving DecidableEq

/-! ## _mergeFilesBatch -/

/-- Lines 236-246: on a data row the first file sets the gene name (and writes it, except
in the printruns and none modes); every other file must repeat it.  Returns the gene
name and the output. -/
def geneStep (specialmode : RunnerOutput) (header firstfileofline : Bool) (genename : Str)
    (file : InputFileData) (split : List Str) (out : Str) : Except (MergeError × Str) (Str × Str) :=
  if header then Except.ok (genename, out)
  else
    match split[0]? with
    | Option.none => Except.error (MergeError.outOfRange, out)
    | some g =>
      if firstfileofline then
        if specialmode ≠ RunnerOutput.printruns ∧ specialmode ≠ RunnerOutput.none then
          Except.ok (g, out ++ g)
        else Except.ok (g, out)
      else if genename ≠ g then
        Except.error (MergeError.geneMismatch file.path genename g, out)
      else Except.ok (genename, out)

/-- Lines 250-266: what a Salmon file contributes to the output. -/
def salmonCells (specialmode : RunnerOutput) (header : Bool) (file : InputFileData)
    (split : List Str) (out : Str) : Except (MergeError × Str) Str :=
  if specialmode ≠ RunnerOutput.printgenes ∧ specialmode ≠ RunnerOutput.none then
    if header then
      if specialmode = RunnerOutput.printruns then
        Except.ok (out ++ quoted (stem file.path) ++ ['\n'])
      else Except.ok (out ++ ['\t'] ++ quoted (stem file.path))
    else if specialmode ≠ RunnerOutput.printruns then
      match split[3]? with
      | some cell => Except.ok (out ++ ['\t'] ++ cell)
      | Option.none => Except.error (MergeError.outOfRange, out ++ ['\t'])
    else Except.ok out
  else Except.ok out

/-- Lines 272-283: the loop over the retained columns of a Tab file. -/
def tabCells (specialmode : RunnerOutput) (header : Bool) (split : List Str) :
    List DataColumn → Str → Except (MergeError × Str) Str
  | [], out => Except.ok out
  | col :: cols, out =>
    if specialmode ≠ RunnerOutput.printgenes ∧ specialmode ≠ RunnerOutput.none then
      if specialmode = RunnerOutput.printruns then
        if header then
          match split[col.colnum]? with
          | some cell => tabCells specialmode header split cols (out ++ cell ++ ['\n'])
          | Option.none => Except.error (MergeError.outOfRange, out)
        else tabCells specialmode header split cols out
      else
        match split[col.colnum]? with
        | some cell => tabCells specialmode header split cols (out ++ ['\t'] ++ cell)
        | Option.none => Except.error (MergeError.outOfRange, out ++ ['\t'])
    else tabCells specialmode header split cols out

/-- Lines 250-285: the copy of the non-gene data of one line, by file type.  For a Tab
file the row-length guard comes first. -/
def copyCells (specialmode : RunnerOutput) (header : Bool) (file : InputFileData)
    (split : List Str) (out : Str) : Except (MergeError × Str) Str :=
  match file.filetype with
  | FileType.Salmon => salmonCells specialmode header file split out
  | FileType.Tab =>
    match file.columns.getLast? with
    | Option.none => Except.error (MergeError.rowTooShort file.path, out)
    | some last =>
      if split.length < last.colnum then Except.error (MergeError.rowTooShort file.path, out)
      else tabCells specialmode header split file.columns out
  | FileType.Either => Except.ok out

/-- Lines 232-286: everything done with one line read from one file.  Returns the gene
name of the row and the output. -/
def fileStep (specialmode : RunnerOutput) (header firstfileofline : Bool) (genename : Str)
    (file : InputFileData) (fileLine : Str) (out : Str) : Except (MergeError × Str) (Str × Str) :=
  let split :=
    if file.filetype = FileType.Salmon then splitLineOnTabs fileLine [] 5
    else splitLineOnTabs fileLine [] file.columns.length
  match geneStep specialmode header firstfileofline genename file split out with
  | Except.error e => Except.error e
  | Except.ok (g, out1) =>
    match copyCells specialmode header file split out1 with
    | Except.error e => Except.error e
    | Except.ok out2 => Except.ok (g, out2)

/-- How one pass of the for loop over the files of the batch ends. -/
inductive RowResult where
  /-- The first file had no line left: `eof = true; break`. -/
  | eof (out : Str)
  /-- Every file delivered a line and passed its checks. -/
  | row (readers : List Reader) (out : Str)
  /-- The program stopped. -/
  | abort (e : MergeError) (out : Str)
  deriving DecidableEq

/-- Lines 220-287: the for loop over the files of the batch, for one row.  `done` holds the
files already read in this row, advanced by one line. -/
def rowLoop (specialmode : RunnerOutput) (header : Bool) :
    Bool → Str → List Reader → List Reader → Str → RowResult
  | _, _, [], done, out => RowResult.row done out
  | firstfileofline, genename, r :: rest, done, out =>
    match r.lines with
    | [] =>
      if !firstfileofline then RowResult.abort (MergeError.endedPrematurely r.file.path) out
      else RowResult.eof out
    | fileLine :: more =>
      match fileStep specialmode header firstfileofline genename r.file fileLine out with
      | Except.error (e, out1) => RowResult.abort e out1
      | Except.ok (g, out1) =>
        rowLoop specialmode header false g rest (done ++ [Reader.mk r.file more]) out1

/-- How the while loop ends. -/
inductive Outcome where
  | done (out : Str)
  | abort (e : MergeError) (out : Str)
  | outOfFuel
  deriving DecidableEq

/-- Lines 217-294: the while loop, with a bound on the number of its iterations.  The row
terminator is written after a row that was not cut short by the end of the first file,
when the row is not the header or the mode is normal. -/
def mergeLoop (specialmode : RunnerOutput) : Nat → Bool → List Reader → Str → Outcome
  | 0, _, _, _ => Outcome.outOfFuel
  | fuel + 1, header, readers, out =>
    match rowLoop specialmode header true [] readers [] out with
    | RowResult.abort e out1 => Outcome.abort e out1
    | RowResult.eof out1 => Outcome.done out1
    | RowResult.row readers1 out1 =>
      if !header ∨ specialmode = RunnerOutput.normal then
        mergeLoop specialmode fuel false readers1 (out1 ++ ['\n'])
      else mergeLoop specialmode fuel false readers1 out1

/-- The file system once the output stream is open: the output file is created or
truncated, except in the none mode, where no output stream is opened. -/
def openOutput (fs : FileSystem) (outFilePath : Str) (specialmode : RunnerOutput) : FileSystem :=
  if specialmode ≠ RunnerOutput.none then fs.write outFilePath [] else fs

/-- The streams of a batch: each file with the lines it will deliver.  The lines are those
of the file system after the output stream was opened, because no input is read before. -/
def batchReaders (fs : FileSystem) (outFilePath : Str) (specialmode : RunnerOutput)
    (batch : List InputFileData) : List Reader :=
  batch.map (fun f =>
    Reader.mk f (getlines (((openOutput fs outFilePath specialmode).content f.path).getD [])))

/-- A number of iterations the while loop cannot exceed when the batch is not empty: every
iteration but the last takes a line from the first file. -/
def loopBound (readers : List Reader) : Nat :=
  match readers with
  | [] => 0
  | r :: _ => r.lines.length + 1

/-- The text that reaches the output file: in the none mode the output stream is never
opened, and what is inserted into it is lost. -/
def written (specialmode : RunnerOutput) (out : Str) : Str :=
  if specialmode = RunnerOutput.none then [] else out

/-- How _mergeFilesBatch ends. -/
inductive BatchResult where
  /-- Normal completion, with the text written and the file system left behind. -/
  | done (out : Str) (fs : FileSystem)
  /-- The program stopped, with the text sent to the output stream so far. -/
  | abort (e : MergeError) (out : Str)
  /-- The while loop never ends (an empty batch). -/
  | diverges
  deriving DecidableEq

/-- The function _mergeFilesBatch (lines 169-303). -/
def _mergeFilesBatch (fs : FileSystem) (batch : List InputFileData) (outFilePath : Str)
    (_filetype : FileType) (specialmode : RunnerOutput) : BatchResult :=
  match batch.find? (fun f => (fs.content f.path).isNone) with
  | some f => BatchResult.abort (MergeError.openFailed f.path) []
  | Option.none =>
    if specialmode ≠ RunnerOutput.none ∧ outFilePath ∈ fs.unwritable then
      BatchResult.abort MergeError.outputOpenFailed []
    else
      let readers := batchReaders fs outFilePath specialmode batch
      let out0 : Str := if specialmode = RunnerOutput.normal then "RNA-see TPM data file".toList else []
      match mergeLoop specialmode (loopBound readers) true readers out0 with
      | Outcome.done out =>
        BatchResult.done (written specialmode out)
          (if specialmode ≠ RunnerOutput.none then fs.write outFilePath out else fs)
      | Outcome.abort e out => BatchResult.abort e (written specialmode out)
      | Outcome.outOfFuel => BatchResult.diverges

/-! ## _mergeFiles -/

/-- One call of _mergeFilesBatch made by _mergeFiles. -/
structure BatchCall where
  batch : List InputFileData
  outFilePath : Str
  specialmode : RunnerOutput
  deriving DecidableEq

/-- How _mergeFiles ends. -/
inductive MergeStatus where
  /-- Normal completion, with the file system left behind. -/
  | done (fs : FileSystem)
  /-- The program stopped. -/
  | abort (e : MergeError)
  /-- A call of _mergeFilesBatch never ends. -/
  | diverges
  /-- The bound on the depth of the recursion was reached. -/
  | outOfFuel
  deriving DecidableEq

/-- A run of _mergeFiles: the calls of _mergeFilesBatch it made, in order (a call that
stopped the program included), and how it ended. -/
structure MergeRun where
  calls : List BatchCall
  status : MergeStatus
  deriving DecidableEq

/-- The elements of a relative path that does not start with a separator, as the iteration
over a std::filesystem::path gives them; `cur` is the element being read.  A run of
separators counts as one, and a separator at the end is followed by an empty element. -/
def pathPieces : Str → Str → List Str
  | [], cur => [cur]
  | c :: rest, cur =>
    if c = '/' then
      if cur = [] then pathPieces rest [] else cur :: pathPieces rest []
    else pathPieces rest (cur ++ [c])

/-- A path as std::filesystem::path compares it (path::compare, which the ordering of a
std::set of paths uses), on a POSIX system, where the root name is empty: whether the path
has a root directory, and the elements of its relative path.  Two paths are equal when
these are the same, so d/a and d//a are equal, and d/a, ./d/a and d/a/ are not. -/
def pathKey (p : Str) : Bool × List Str :=
  let r := p.dropWhile (fun c => decide (c = '/'))
  (decide (p.head? = some '/'), if r = [] then [] else pathPieces r [])

/-- Lines 336-344: the walk that looks for a path already in the set `filesAdded`, a set of
std::filesystem::path values. -/
def hasDuplicatePath : List InputFileData → List (Bool × List Str) → Bool
  | [], _ => false
  | file :: rest, filesAdded =>
    if pathKey file.path ∈ filesAdded then true
    else hasDuplicatePath rest (pathKey file.path :: filesAdded)

/-- Lines 358-360: `while (start_range++ <= end_range) filebatch.push_back(*start_range);`
with iterators as positions in `infiles`.  The comparison reads the position before the
increment, the element pushed is the one at the position after it; reading the
past-the-end position is the failure `badIterator`.  The loop cannot run more than
`infiles.length` times without that failure, which is the bound it is called with. -/
def fillBatch (infiles : List InputFileData) (end_range : Int) :
    Nat → Nat → List InputFileData → Except MergeError (List InputFileData)
  | 0, _, _ => Except.error MergeError.badIterator
  | fuel + 1, start_range, filebatch =>
    if (start_range : Int) ≤ end_range then
      match infiles[start_range + 1]? with
      | some file => fillBatch infiles end_range fuel (start_range + 1) (filebatch ++ [file])
      | Option.none => Except.error MergeError.badIterator
    else Except.ok filebatch

/-- Lines 352-360: the files put in batch `i` out of `batches`. -/
def filebatch (maxOpen : Nat) (infiles : List InputFileData) (batches i : Nat) :
    Except MergeError (List InputFileData) :=
  let start_range := i * maxOpen
  let end_range : Int :=
    if (i : Int) < (batches : Int) - 1 then (((i + 1) * maxOpen : Nat) : Int) - 1
    else (infiles.length : Int) - 1
  fillBatch infiles end_range (infiles.length + 1) start_range []

/-- The name of the temporary file of batch `i` (line 361). -/
def batchfile (outfile : Str) (i : Nat) : Str :=
  outfile ++ "_temp_batch".toList ++ (Nat.repr i).toList

/-- What the for loop over the batches has built when it ends normally. -/
structure BatchLoopState where
  fs : FileSystem
  batchtempfiles : List InputFileData
  calls : List BatchCall
  deriving DecidableEq

/-- Lines 351-366: the for loop over the batches, from batch `i` on, `todo` batches being
left.  `recurse` is the recursive call of _mergeFiles on a batch and its temporary file. -/
def batchLoop (recurse : FileSystem → List InputFileData → Str → MergeRun) (maxOpen : Nat)
    (infiles : List InputFileData) (outfile : Str) (batches : Nat) :
    Nat → Nat → BatchLoopState → Except MergeRun BatchLoopState
  | 0, _, st => Except.ok st
  | todo + 1, i, st =>
    match filebatch maxOpen infiles batches i with
    | Except.error e => Except.error (MergeRun.mk st.calls (MergeStatus.abort e))
    | Except.ok fb =>
      let temp : InputFileData := InputFileData.mk (batchfile outfile i) FileType.Tab []
      let run := recurse st.fs fb (batchfile outfile i)
      match run.status with
      | MergeStatus.done fs1 =>
        batchLoop recurse maxOpen infiles outfile batches todo (i + 1)
          (BatchLoopState.mk fs1 (st.batchtempfiles ++ [temp]) (st.calls ++ run.calls))
      | other => Except.error (MergeRun.mk (st.calls ++ run.calls) other)

/-- The call of _mergeFilesBatch as a run of _mergeFiles. -/
def batchRun (calls : List BatchCall) (fs : FileSystem) (batch : List InputFileData)
    (outfile : Str) (filetype : FileType) (specialmode : RunnerOutput) : MergeRun :=
  MergeRun.mk (calls ++ [BatchCall.mk batch outfile specialmode])
    (match _mergeFilesBatch fs batch outfile filetype specialmode with
     | BatchResult.done _ fs1 => MergeStatus.done fs1
     | BatchResult.abort e _ => MergeStatus.abort e
     | BatchResult.diverges => MergeStatus.diverges)

/-- Line 347: the number of batches, `((int)numfiles / fileSystemMaxFilesOpen) + 1`.  The
ceiling is positive wherever _mergeFiles gets there, since a ceiling of 0 makes
`maxCombine` 0 and stops the program before. -/
def batchCount (maxOpen numfiles : Nat) : Nat :=
  numfiles / maxOpen + 1

/-- The function _mergeFiles (lines 306-372), with the open-file ceiling `maxOpen` (the
global fileSystemMaxFilesOpen, an unsigned int whose square is taken modulo 2^32) and a
bound on the depth of its recursion.  The number of files is at most `maxCombine`, below
2^32, when `batches` is computed, so that the conversions there are exact. -/
def _mergeFiles (maxOpen : Nat) :
    Nat → FileSystem → List InputFileData → Str → Bool → FileType → RunnerOutput → MergeRun
  | 0, _, _, _, _, _, _ => MergeRun.mk [] MergeStatus.outOfFuel
  | depth + 1, fs, infiles, outfile, overwrite, filetype, specialmode =>
    let numfiles := infiles.length
    if numfiles < 1 then MergeRun.mk [] (MergeStatus.abort MergeError.insufficientFiles)
    else
      let maxCombine := (maxOpen * maxOpen) % 4294967296
      if numfiles > maxCombine then MergeRun.mk [] (MergeStatus.abort MergeError.tooManyFiles)
      else if fs.pathExists outfile = true ∧ overwrite = false then
        MergeRun.mk [] (MergeStatus.abort MergeError.outputExists)
      else if hasDuplicatePath infiles [] then
        MergeRun.mk [] (MergeStatus.abort MergeError.duplicateInput)
      else
        let batches := batchCount maxOpen numfiles
        if batches > 1 then
          match batchLoop
              (fun fs1 fb bf => _mergeFiles maxOpen depth fs1 fb bf overwrite filetype specialmode)
              maxOpen infiles outfile batches batches 0 (BatchLoopState.mk fs [] []) with
          | Except.error run => run
          | Except.ok st => batchRun st.calls st.fs st.batchtempfiles outfile filetype specialmode
        else batchRun [] fs infiles outfile filetype specialmode

/-! ## _removeRuns -/

/-- Lines 375-380: the set of removals built from the removal vector. -/
def removalSet : List Str → List Str → List Str
  | [], removals => removals
  | run :: rest, removals =>
    if run ∈ removals then removalSet rest removals else removalSet rest (run :: removals)

/-- The state of the walk of _removeRuns over the columns of a file. -/
structure ColumnWalk where
  removals : List Str
  newcolumns : List DataColumn
  runsum : Nat
  deriving DecidableEq

/-- Lines 386-395: the loop over the columns of one file. -/
def removeColumns (removedups : Bool) : List DataColumn → ColumnWalk → ColumnWalk
  | [], w => w
  | col :: rest, w =>
    if col.runname ∉ w.removals then
      removeColumns removedups rest
        (ColumnWalk.mk (if removedups then col.runname :: w.removals else w.removals)
          (w.newcolumns ++ [col]) (w.runsum + 1))
    else removeColumns removedups rest w

/-- The state of the walk of _removeRuns over the files. -/
structure FileWalk where
  removals : List Str
  newfiles : List InputFileData
  runsum : Nat
  deriving DecidableEq

/-- Lines 384-398: the loop over the files. -/
def removeFiles (removedups : Bool) : List InputFileData → FileWalk → FileWalk
  | [], w => w
  | file :: rest, w =>
    let cw := removeColumns removedups file.columns (ColumnWalk.mk w.removals [] w.runsum)
    if cw.newcolumns.length ≠ 0 then
      removeFiles removedups rest
        (FileWalk.mk cw.removals
          (w.newfiles ++ [InputFileData.mk file.path file.filetype cw.newcolumns]) cw.runsum)
    else removeFiles removedups rest (FileWalk.mk cw.removals w.newfiles cw.runsum)

/-- The function _removeRuns (lines 374-401): the file list it leaves in `files` and the
number it returns (an int in the source, taken as exact). -/
def _removeRuns (files : List InputFileData) (removalvec : List Str) (removedups : Bool) :
    List InputFileData × Nat :=
  let w := removeFiles removedups files (FileWalk.mk (removalSet removalvec []) [] 0)
  (w.newfiles, w.runsum)

/-! ## Reading lines as fields; the tables of the spec -/

/-- The fields of a line: its pieces between tabs. -/
def fields (line : Str) : List Str :=
  splitLineOnTabs line [] 0

/-- Field `i` of a line (empty when the line has no such field). -/
def field (line : Str) (i : Nat) : Str :=
  (fields line).getD i []

/-- A reader after one of its lines was read. -/
def advance (r : Reader) : Reader :=
  Reader.mk r.file r.lines.tail

/-- Following the spec: what a file adds to a data row of the merged table.  For a Salmon
file a tab and field 3 of its line; for a Tab file a tab and the field at each retained
column index, in column order. -/
def specCells (file : InputFileData) (line : Str) : Str :=
  if file.filetype = FileType.Salmon then '\t' :: field line 3
  else (file.columns.map (fun c => '\t' :: field line c.colnum)).flatten

/-- Following the spec: the merged line made from line `k` of every file.  The gene name,
which is field 0 of the first file, then the cells of each file in batch order. -/
def specLine (readers : List Reader) (k : Nat) : Str :=
  (match readers with
    | [] => []
    | r0 :: _ => field (r0.lines.getD k []) 0) ++
  (readers.map (fun r => specCells r.file (r.lines.getD k []))).flatten

/-- What a file adds to the header line in the normal mode: for a Salmon file a tab and
the quoted stem of its path, for a Tab file a tab and the header cell at each retained
column index. -/
def headerCells (file : InputFileData) (line : Str) : Str :=
  if file.filetype = FileType.Salmon then '\t' :: quoted (stem file.path)
  else (file.columns.map (fun c => '\t' :: field line c.colnum)).flatten

/-- The header line written in the normal mode, without its newline. -/
def headerLine (readers : List Reader) : Str :=
  "RNA-see TPM data file".toList ++
    (readers.map (fun r => headerCells r.file (r.lines.getD 0 []))).flatten

/-- The readers of a batch that is not empty, whose files are validated (Salmon, or Tab with
at least one column) and have `n` lines left, with the same field 0 in every row, every
line satisfying the condition `P` of its file. -/
def Aligned (P : InputFileData → Str → Prop) (rs : List Reader) (n : Nat) : Prop :=
  rs ≠ [] ∧
  (∀ r ∈ rs, r.file.filetype = FileType.Salmon ∨
    (r.file.filetype = FileType.Tab ∧ r.file.columns ≠ [])) ∧
  (∃ genes : List Str, genes.length = n ∧ ∀ r ∈ rs, r.lines.map (fun l => field l 0) = genes) ∧
  (∀ r ∈ rs, ∀ l ∈ r.lines, P r.file l)

/-- The fields the normal mode reads in a line: four fields for a Salmon file, a field at
each retained column index for a Tab file. -/
def HasCells (file : InputFileData) (line : Str) : Prop :=
  (file.filetype = FileType.Salmon → 4 ≤ (fields line).length) ∧
  (file.filetype = FileType.Tab → ∀ c ∈ file.columns, c.colnum < (fields line).length)

/-- The fields the row-length guard of a Tab file asks for. -/
def HasTabCells (file : InputFileData) (line : Str) : Prop :=
  file.filetype = FileType.Tab → ∀ c ∈ file.columns, c.colnum < (fields line).length

/-- Following the spec: the merged table of a batch with `R` data rows.  The header line,
then one line per data row (line 0 of a file is its header), each ended by a newline. -/
def specTable (readers : List Reader) (R : Nat) : Str :=
  headerLine readers ++ ['\n'] ++
    ((List.range R).map (fun k => specLine readers (k + 1) ++ ['\n'])).flatten

/-- Following the spec: the gene name of line `k`, which is field 0 of that line in the
first file. -/
def specGene (readers : List Reader) (k : Nat) : Str :=
  match readers with
  | [] => []
  | r0 :: _ => field (r0.lines.getD k []) 0

/-- Following the spec: the gene list of a batch with `R` data rows, one gene name per
line (line 0 of a file is its header). -/
def specGeneList (readers : List Reader) (R : Nat) : Str :=
  ((List.range R).map (fun k => specGene readers (k + 1) ++ ['\n'])).flatten

/-! ## The run filter of the spec -/

/-- Following the spec: a column is kept exactly when its run name is not in the removal
list and, if the dedup flag is set, no column earlier in the walk has the same run name.
`earlier` lists the run names of the columns earlier in the walk, kept or not. -/
def specKeeps (removalvec : List Str) (removedups : Bool) (earlier : List Str)
    (col : DataColumn) : Bool :=
  decide (col.runname ∉ removalvec) && (!removedups || decide (col.runname ∉ earlier))

/-- Following the spec: the columns of a file that are kept, in their original order. -/
def specColumns (removalvec : List Str) (removedups : Bool) :
    List Str → List DataColumn → List DataColumn
  | _, [] => []
  | earlier, col :: rest =>
    if specKeeps removalvec removedups earlier col then
      col :: specColumns removalvec removedups (earlier ++ [col.runname]) rest
    else specColumns removalvec removedups (earlier ++ [col.runname]) rest

/-- Following the spec: the files that keep at least one column, in their original order,
each with its kept columns. -/
def specFiles (removalvec : List Str) (removedups : Bool) :
    List Str → List InputFileData → List InputFileData
  | _, [] => []
  | earlier, file :: rest =>
    if specColumns removalvec removedups earlier file.columns = [] then
      specFiles removalvec removedups (earlier ++ file.columns.map (fun c => c.runname)) rest
    else
      InputFileData.mk file.path file.filetype
          (specColumns removalvec removedups earlier file.columns) ::
        specFiles removalvec removedups (earlier ++ file.columns.map (fun c => c.runname)) rest

/-! ## Results without their output -/

/-- Whether a call of _mergeFilesBatch completed. -/
def BatchResult.completed : BatchResult → Bool
  | BatchResult.done _ _ => true
  | _ => false

/-- The failure a call of _mergeFilesBatch stopped on, if it did. -/
def BatchResult.failure : BatchResult → Option MergeError
  | BatchResult.abort e _ => some e
  | _ => Option.none

/-- A result of the for loop over the files, without the output. -/
def RowResult.shape : RowResult → RowResult
  | RowResult.eof _ => RowResult.eof []
  | RowResult.row rs _ => RowResult.row rs []
  | RowResult.abort e _ => RowResult.abort e []

/-- A result of the while loop, without the output. -/
def Outcome.shape : Outcome → Outcome
  | Outcome.done _ => Outcome.done []
  | Outcome.abort e _ => Outcome.abort e []
  | Outcome.outOfFuel => Outcome.outOfFuel

/-! ## Example inputs -/

/-- A Tab file with the runs r1 and r2. -/
def exTab : InputFileData :=
  InputFileData.mk "d/a.rnatab".toList FileType.Tab
    [DataColumn.mk "r1".toList 1, DataColumn.mk "r2".toList 2]

/-- A Salmon file. -/
def exSalmon : InputFileData :=
  InputFileData.mk "d/b.sf".toList FileType.Salmon [DataColumn.mk "TPM".toList 3]

/-- A Tab file with the single run r3. -/
def exTab3 : InputFileData :=
  InputFileData.mk "d/c.rnatab".toList FileType.Tab [DataColumn.mk "r3".toList 1]

/-- A file system where the three example files have the data rows g1 and g2. -/
def exFs : FileSystem :=
  FileSystem.mk
    [("d/a.rnatab".toList, "RNA-see TPM data file\tr1\tr2\ng1\t1\t2\ng2\t3\t4\n".toList),
     ("d/b.sf".toList,
       "Name\tLength\tEffectiveLength\tTPM\tNumReads\ng1\t9\t8\t7.5\t6\ng2\t9\t8\t8.5\t6\n".toList),
     ("d/c.rnatab".toList, "RNA-see TPM data file\tr3\ng1\t5\ng2\t6\n".toList)]
    [] []

/-- A file system where d/a.rnatab has the data rows g1 and g2, and d/c.rnatab the data
rows g1, g2 and g3. -/
def exFsUneven : FileSystem :=
  FileSystem.mk
    [("d/a.rnatab".toList, "RNA-see TPM data file\tr1\tr2\ng1\t1\t2\ng2\t3\t4\n".toList),
     ("d/c.rnatab".toList, "RNA-see TPM data file\tr3\ng1\t5\ng2\t6\ng3\t7\n".toList)]
    [] []

/-- A file system where the only data row of d/a.rnatab is cut after its gene name g1,
and the only data row of d/c.rnatab is for the gene g2. -/
def exFsCutRow : FileSystem :=
  FileSystem.mk
    [("d/a.rnatab".toList, "RNA-see TPM data file\tr1\tr2\ng1\n".toList),
     ("d/c.rnatab".toList, "RNA-see TPM data file\tr3\ng2\t5\n".toList)]
    [] []

/-- A file system where the only data row of the Salmon file d/b.sf has three fields. -/
def exFsShortSalmon : FileSystem :=
  FileSystem.mk
    [("d/b.sf".toList, "Name\tLength\tEffectiveLength\tTPM\tNumReads\ng1\t9\t8\n".toList)]
    [] []

/-- A Tab file whose single run is named X. -/
def exRunX1 : InputFileData :=
  InputFileData.mk "d/x1.rnatab".toList FileType.Tab [DataColumn.mk "X".toList 1]

/-- Another Tab file with a run named X, after a run named Y. -/
def exRunX2 : InputFileData :=
  InputFileData.mk "d/x2.rnatab".toList FileType.Tab
    [DataColumn.mk "Y".toList 1, DataColumn.mk "X".toList 2]

/-! ## The validation of the input files -/

/-- The extension of a path (std::filesystem::path::extension): what `stem` leaves out of
the file name, from its last dot on.  The names "." and "..", names without a dot, and
names whose only dot comes first have no extension. -/
def extension (p : Str) : Str :=
  let f := filename p
  if f = ['.'] ∨ f = ['.', '.'] then []
  else
    let ext := f.reverse.takeWhile (fun c => c ≠ '.')
    match f.reverse.drop ext.length with
    | [] => []
    | _ :: base => if base = [] then [] else '.' :: ext.reverse

/-- How a check of one file ends: the int it returns and the file, whose columns it may
have set.  An exception thrown by `vector::at` would be the error. -/
abbrev CheckResult := Except MergeError (Nat × InputFileData)

/-- The function _checkSalmonFile (lines 74-103). -/
def _checkSalmonFile (fs : FileSystem) (file : InputFileData) : CheckResult :=
  match fs.content file.path with
  | Option.none => Except.ok (0, file)
  | some content =>
    match getlines content with
    | [] => Except.ok (0, file)
    | line :: _ =>
      let linesplit := splitLineOnTabs line [] 5
      if linesplit.length ≠ 5 then Except.ok (0, file)
      else
        match linesplit[3]? with
        | Option.none => Except.error MergeError.outOfRange
        | some cell =>
          if cell ≠ "TPM".toList then Except.ok (0, file)
          else Except.ok (1, InputFileData.mk file.path file.filetype [DataColumn.mk cell 3])

/-- Line 124: `for (size_t i = 1; i < numcols; ++i) file.columns.push_back({ linesplit.at(i), i })`,
from `i` on.  The loop makes fewer than `numcols` pushes, so `numcols` bounds its steps. -/
def tabColumnsLoop (linesplit : List Str) (numcols : Nat) :
    Nat → Nat → List DataColumn → Except MergeError (List DataColumn)
  | 0, _, columns => Except.ok columns
  | fuel + 1, i, columns =>
    if i < numcols then
      match linesplit[i]? with
      | Option.none => Except.error MergeError.outOfRange
      | some cell => tabColumnsLoop linesplit numcols fuel (i + 1) (columns ++ [DataColumn.mk cell i])
    else Except.ok columns

/-- The function _checkTabFile (lines 105-136).  The count it returns is the number of
columns, an int in the source, taken as exact. -/
def _checkTabFile (fs : FileSystem) (file : InputFileData) : CheckResult :=
  match fs.content file.path with
  | Option.none => Except.ok (0, file)
  | some content =>
    match getlines content with
    | [] => Except.ok (0, file)
    | line :: _ =>
      let linesplit := splitLineOnTabs line [] 10
      let numcols := linesplit.length
      if numcols < 2 then Except.ok (0, file)
      else
        match linesplit[0]? with
        | Option.none => Except.error MergeError.outOfRange
        | some cell =>
          if cell ≠ "RNA-see TPM data file".toList then Except.ok (0, file)
          else
            match tabColumnsLoop linesplit numcols numcols 1 [] with
            | Except.error e => Except.error e
            | Except.ok columns =>
              Except.ok (columns.length, InputFileData.mk file.path file.filetype columns)

/-- The state of one pass of the for loop of _checkFiles: the runs added by the file, the
file data, and the validated list. -/
structure CheckStep where
  addedruns : Nat
  filedata : InputFileData
  invfiles : List InputFileData
  deriving DecidableEq

/-- Lines 144-153: the Salmon branch of one pass of the loop of _checkFiles. -/
def salmonBranch (fs : FileSystem) (filetype : FileType) (file : Str) (st : CheckStep) :
    Except MergeError CheckStep :=
  if (filetype = FileType.Salmon ∨ filetype = FileType.Either) ∧ extension file = ".sf".toList then
    match _checkSalmonFile fs st.filedata with
    | Except.error e => Except.error e
    | Except.ok (addedruns, filedata) =>
      if addedruns ≠ 0 then
        Except.ok (CheckStep.mk addedruns
          (InputFileData.mk filedata.path FileType.Salmon filedata.columns)
          (st.invfiles ++ [InputFileData.mk filedata.path FileType.Salmon filedata.columns]))
      else Except.ok (CheckStep.mk addedruns filedata st.invfiles)
  else Except.ok st

/-- Lines 154-163: the Tab branch of one pass of the loop of _checkFiles. -/
def tabBranch (fs : FileSystem) (filetype : FileType) (file : Str) (st : CheckStep) :
    Except MergeError CheckStep :=
  if (filetype = FileType.Tab ∨ filetype = FileType.Either) ∧ extension file = ".rnatab".toList then
    match _checkTabFile fs st.filedata with
    | Except.error e => Except.error e
    | Except.ok (addedruns, filedata) =>
      if addedruns ≠ 0 then
        Except.ok (CheckStep.mk addedruns
          (InputFileData.mk filedata.path FileType.Tab filedata.columns)
          (st.invfiles ++ [InputFileData.mk filedata.path FileType.Tab filedata.columns]))
      else Except.ok (CheckStep.mk addedruns filedata st.invfiles)
  else Except.ok st

/-- Lines 140-165: the for loop of _checkFiles over the candidate paths. -/
def checkFilesLoop (fs : FileSystem) (filetype : FileType) :
    List Str → Nat → List InputFileData → Except MergeError (Nat × List InputFileData)
  | [], runsum, invfiles => Except.ok (runsum, invfiles)
  | file :: rest, runsum, invfiles =>
    match salmonBranch fs filetype file
        (CheckStep.mk 0 (InputFileData.mk file FileType.Salmon []) invfiles) with
    | Except.error e => Except.error e
    | Except.ok st1 =>
      match tabBranch fs filetype file st1 with
      | Except.error e => Except.error e
      | Except.ok st2 => checkFilesLoop fs filetype rest (runsum + st2.addedruns) st2.invfiles

/-- The function _checkFiles (lines 138-167): the run count it returns (an int in the
source, taken as exact) and the validated list it leaves in `invfiles`. -/
def _checkFiles (fs : FileSystem) (files : List Str) (invfiles : List InputFileData)
    (filetype : FileType) : Except MergeError (Nat × List InputFileData) :=
  checkFilesLoop fs filetype files 0 invfiles

/-! ## The two parts of _mergeFiles -/

/-- Lines 308-344 of _mergeFiles on their own: the failure of the pre-merge checks, in the
order in which they are made, if one fails. -/
def premergeFailure (maxOpen : Nat) (fs : FileSystem) (infiles : List InputFileData)
    (outfile : Str) (overwrite : Bool) : Option MergeError :=
  if infiles.length < 1 then some MergeError.insufficientFiles
  else if infiles.length > (maxOpen * maxOpen) % 4294967296 then some MergeError.tooManyFiles
  else if fs.pathExists outfile = true ∧ overwrite = false then some MergeError.outputExists
  else if hasDuplicatePath infiles [] then some MergeError.duplicateInput
  else Option.none

/-- Lines 346-371 of _mergeFiles on their own: the batching, which is what _mergeFiles does
once the pre-merge checks are passed.  `depth` bounds the recursive calls. -/
def batching (maxOpen depth : Nat) (fs : FileSystem) (infiles : List InputFileData)
    (outfile : Str) (overwrite : Bool) (filetype : FileType) (specialmode : RunnerOutput) :
    MergeRun :=
  let batches := batchCount maxOpen infiles.length
  if batches > 1 then
    match batchLoop
        (fun fs1 fb bf => _mergeFiles maxOpen depth fs1 fb bf overwrite filetype specialmode)
        maxOpen infiles outfile batches batches 0 (BatchLoopState.mk fs [] []) with
    | Except.error run => run
    | Except.ok st => batchRun st.calls st.fs st.batchtempfiles outfile filetype specialmode
  else batchRun [] fs infiles outfile filetype specialmode

/-! ## The validation of the spec -/

/-- Following the spec: the columns of a Tab file whose header is `h`, one per field index
from 1 on, named by the header cell at that index. -/
def specTabColumns (h : Str) : List DataColumn :=
  (List.range ((fields h).length - 1)).map (fun k => DataColumn.mk (field h (k + 1)) (k + 1))

/-- A file system with the Tab file of the spec's example, whose header is
"RNA-see TPM data file", "runs1", "runs2", and a Salmon file. -/
def exFsHeaders : FileSystem :=
  FileSystem.mk
    [("d/t.rnatab".toList, "RNA-see TPM data file\truns1\truns2\ng1\t1\t2\n".toList),
     ("d/s.sf".toList, "Name\tLength\tEffectiveLength\tTPM\tNumReads\ng1\t9\t8\t7.5\t6\n".toList),
     ("d/s.txt".toList, "Name\tLength\tEffectiveLength\tTPM\tNumReads\ng1\t9\t8\t7.5\t6\n".toList)]
    [] []

/-- Following the spec: what a candidate path adds to the validated list under a dialect
restriction.  A path with the extension ".sf" (restriction Salmon or Either) whose header
passes the Salmon check is accepted as a Salmon file, a path with the extension ".rnatab"
(restriction Tab or Either) whose header passes the Tab check is accepted as a Tab file,
and nothing else is accepted. -/
def specAccept (fs : FileSystem) (filetype : FileType) (p : Str) : Option InputFileData :=
  match (fs.content p).map getlines with
  | some (h :: _) =>
    if extension p = ".sf".toList ∧ (filetype = FileType.Salmon ∨ filetype = FileType.Either) then
      if (fields h).length = 5 ∧ field h 3 = "TPM".toList then
        some (InputFileData.mk p FileType.Salmon [DataColumn.mk "TPM".toList 3])
      else Option.none
    else if extension p = ".rnatab".toList ∧
        (filetype = FileType.Tab ∨ filetype = FileType.Either) then
      if 2 ≤ (fields h).length ∧ field h 0 = "RNA-see TPM data file".toList then
        some (InputFileData.mk p FileType.Tab (specTabColumns h))
      else Option.none
    else Option.none
  | _ => Option.none

/-- The total number of columns of a file list. -/
def totalColumns (files : List InputFileData) : Nat :=
  (files.map (fun f => f.columns.length)).sum

/-- Following the spec: every file of the walk with the columns it keeps, the files left
without a column included. -/
def specNarrow (removalvec : List Str) (removedups : Bool) :
    List Str → List InputFileData → List InputFileData
  | _, [] => []
  | earlier, file :: rest =>
    InputFileData.mk file.path file.filetype
        (specColumns removalvec removedups earlier file.columns) ::
      specNarrow removalvec removedups (earlier ++ file.columns.map (fun c => c.runname)) rest

/-- Following the spec: the number of columns of one file that are dropped, a column being
dropped when it is not kept. -/
def specDroppedIn (removalvec : List Str) (removedups : Bool) : List Str → List DataColumn → Nat
  | _, [] => 0
  | earlier, col :: rest =>
    (if specKeeps removalvec removedups earlier col then 0 else 1) +
      specDroppedIn removalvec removedups (earlier ++ [col.runname]) rest

/-- Following the spec: the number of columns of the walk that are dropped. -/
def specDropped (removalvec : List Str) (removedups : Bool) :
    List Str → List InputFileData → Nat
  | _, [] => 0
  | earlier, file :: rest =>
    specDroppedIn removalvec removedups earlier file.columns +
      specDropped removalvec removedups (earlier ++ file.columns.map (fun c => c.runname)) rest


/-- A file system where the only data row of d/c.rnatab is its gene name g1 alone. -/
def exFsBareRow : FileSystem :=
  FileSystem.mk [("d/c.rnatab".toList, "RNA-see TPM data file\tr3\ng1\n".toList)] [] []

/-- A file system where the only data row of d/a.rnatab is for the gene g1 and the only
data row of d/c.rnatab is for the gene g2, both rows being complete. -/
def exFsMismatch : FileSystem :=
  FileSystem.mk
    [("d/a.rnatab".toList, "RNA-see TPM data file\tr1\tr2\ng1\t1\t2\n".toList),
     ("d/c.rnatab".toList, "RNA-see TPM data file\tr3\ng2\t5\n".toList)]
    [] []

/-- The while loop of _mergeFilesBatch (lines 217-294) once `k` of its iterations have each
read a line from every file, passed every check and written the row: the streams and the
output at that point.  There is none when an iteration before stopped the program or
met the end of the first file.  `header` tells whether the first of these rows is the
header row. -/
def rowsDone (specialmode : RunnerOutput) :
    Nat → Bool → List Reader → Str → Option (List Reader × Str)
  | 0, _, readers, out => some (readers, out)
  | k + 1, header, readers, out =>
    match rowLoop specialmode header true [] readers [] out with
    | RowResult.row readers1 out1 =>
      if !header ∨ specialmode = RunnerOutput.normal then
        rowsDone specialmode k false readers1 (out1 ++ ['\n'])
      else rowsDone specialmode k false readers1 out1
    | _ => Option.none

/-- The output `out1` continues the output `out` on the same line: what was added to `out`
holds no newline, so no row terminator and no later row. -/
def SameLine (out out1 : Str) : Prop :=
  ∃ w, out1 = out ++ w ∧ '\n' ∉ w
/-! ## Reading a line as fields -/

theorem splitLoop_ne_nil (d : Char) (s cur : Str) (tokens : List Str) :
    splitLoop d s cur tokens ≠ [] := by
  induction s generalizing cur tokens with
  | nil => simp [splitLoop]
  | cons c rest ih =>
    unfold splitLoop
    split
    · exact ih _ _
    · exact ih _ _

theorem splitLineOnTabs_eq_fields (line : Str) (tokens : List Str) (sizehint : Nat) :
    splitLineOnTabs line tokens sizehint = fields line := by
  simp [splitLineOnTabs, splitLineOnChar, fields]

theorem fields_ne_nil (line : Str) : fields line ≠ [] := by
  unfold fields splitLineOnTabs splitLineOnChar
  exact splitLoop_ne_nil _ _ _ _

theorem fields_get_zero (line : Str) : (fields line)[0]? = some (field line 0) := by
  unfold field
  cases h : fields line with
  | nil => exact absurd h (fields_ne_nil line)
  | cons a l => simp

theorem fields_get_of_lt (line : Str) (i : Nat) (h : i < (fields line).length) :
    (fields line)[i]? = some (field line i) := by
  unfold field
  simp [List.getD, List.getElem?_eq_getElem h]

/-! ## One row of the merge -/

theorem rowLoop_rest (specialmode : RunnerOutput) (header : Bool) (g : Str) (txt : Reader → Str) :
    ∀ (rs done : List Reader) (out : Str),
      (∀ r ∈ rs, ∃ l more, r.lines = l :: more ∧
        ∀ o, fileStep specialmode header false g r.file l o = Except.ok (g, o ++ txt r)) →
      rowLoop specialmode header false g rs done out
        = RowResult.row (done ++ rs.map advance) (out ++ (rs.map txt).flatten) := by
  intro rs
  induction rs with
  | nil => intro done out _; simp [rowLoop]
  | cons r rest ih =>
    intro done out h
    obtain ⟨l, more, hl, hstep⟩ := h r (List.mem_cons_self _ _)
    have hrest : ∀ r ∈ rest, ∃ l more, r.lines = l :: more ∧
        ∀ o, fileStep specialmode header false g r.file l o = Except.ok (g, o ++ txt r) :=
      fun x hx => h x (List.mem_cons_of_mem _ hx)
    rw [rowLoop, hl]
    simp only [hstep]
    rw [ih _ _ hrest]
    simp [advance, hl, List.append_assoc]

theorem rowLoop_first (specialmode : RunnerOutput) (header : Bool) (g t0 : Str)
    (txt : Reader → Str) (r0 : Reader) (rest : List Reader) (l0 : Str) (more0 : List Str)
    (out : Str) (h0 : r0.lines = l0 :: more0)
    (hfirst : fileStep specialmode header true [] r0.file l0 out = Except.ok (g, out ++ t0))
    (hrest : ∀ r ∈ rest, ∃ l more, r.lines = l :: more ∧
        ∀ o, fileStep specialmode header false g r.file l o = Except.ok (g, o ++ txt r)) :
    rowLoop specialmode header true [] (r0 :: rest) [] out
      = RowResult.row ((r0 :: rest).map advance) (out ++ t0 ++ (rest.map txt).flatten) := by
  rw [rowLoop, h0]
  simp only [hfirst]
  rw [rowLoop_rest specialmode header g txt rest _ _ hrest]
  simp [advance, h0]

/-! ## The bounds on the loops -/

theorem rowLoop_row (specialmode : RunnerOutput) (header : Bool) :
    ∀ (rs : List Reader) (first : Bool) (g : Str) (done : List Reader) (out : Str)
      (rs1 : List Reader) (out1 : Str),
      rowLoop specialmode header first g rs done out = RowResult.row rs1 out1 →
      rs1 = done ++ rs.map advance ∧ ∀ r ∈ rs, r.lines ≠ [] := by
  intro rs
  induction rs with
  | nil =>
    intro first g done out rs1 out1 h
    simp only [rowLoop, RowResult.row.injEq] at h
    simp [h.1]
  | cons r rest ih =>
    intro first g done out rs1 out1 h
    rw [rowLoop] at h
    cases hl : r.lines with
    | nil =>
      rw [hl] at h
      cases first <;> simp at h
    | cons l more =>
      rw [hl] at h
      simp only at h
      cases hs : fileStep specialmode header first g r.file l out with
      | error e =>
        obtain ⟨e1, o1⟩ := e
        simp [hs] at h
      | ok p =>
        obtain ⟨g1, o1⟩ := p
        simp only [hs] at h
        obtain ⟨h1, h2⟩ := ih false g1 _ o1 rs1 out1 h
        refine ⟨?_, ?_⟩
        · simp [h1, advance, hl]
        · intro x hx
          rcases List.mem_cons.mp hx with hx1 | hx1
          · subst hx1
            simp [hl]
          · exact h2 x hx1

/-- With a batch that is not empty the while loop ends within `loopBound` iterations. -/
theorem mergeLoop_fuel_enough (specialmode : RunnerOutput) :
    ∀ (fuel : Nat) (header : Bool) (rs : List Reader) (out : Str),
      rs ≠ [] → loopBound rs ≤ fuel →
      mergeLoop specialmode fuel header rs out ≠ Outcome.outOfFuel := by
  intro fuel
  induction fuel with
  | zero =>
    intro header rs out hne hb
    cases rs with
    | nil => exact absurd rfl hne
    | cons r rest => simp [loopBound] at hb
  | succ f ih =>
    intro header rs out hne hb
    rw [mergeLoop]
    cases hr : rowLoop specialmode header true [] rs [] out with
    | eof o1 => simp
    | abort e o1 => simp
    | row rs1 o1 =>
      obtain ⟨h1, h2⟩ := rowLoop_row specialmode header rs true [] [] out rs1 o1 hr
      simp only [List.nil_append] at h1
      subst h1
      have hne1 : rs.map advance ≠ [] := by simpa using hne
      have hb1 : loopBound (rs.map advance) ≤ f := by
        cases rs with
        | nil => exact absurd rfl hne
        | cons r rest =>
          have hpos : 0 < r.lines.length := List.length_pos.mpr (h2 r (List.mem_cons_self _ _))
          simp only [loopBound, List.map_cons, advance, List.length_tail] at hb ⊢
          omega
      simp only
      split
      · exact ih false _ _ hne1 hb1
      · exact ih false _ _ hne1 hb1

/-- More iterations than the while loop needs change nothing. -/
theorem mergeLoop_fuel_more (specialmode : RunnerOutput) (k : Nat) :
    ∀ (fuel : Nat) (header : Bool) (rs : List Reader) (out : Str),
      mergeLoop specialmode fuel header rs out ≠ Outcome.outOfFuel →
      mergeLoop specialmode (fuel + k) header rs out = mergeLoop specialmode fuel header rs out := by
  intro fuel
  induction fuel with
  | zero => intro header rs out h; simp [mergeLoop] at h
  | succ f ih =>
    intro header rs out h
    rw [Nat.add_right_comm, mergeLoop, mergeLoop]
    rw [mergeLoop] at h
    cases hr : rowLoop specialmode header true [] rs [] out with
    | eof o1 => rfl
    | abort e o1 => rfl
    | row rs1 o1 =>
      rw [hr] at h
      simp only at h ⊢
      split
      · rename_i hc
        rw [if_pos hc] at h
        exact ih false _ _ h
      · rename_i hc
        rw [if_neg hc] at h
        exact ih false _ _ h

/-- With an empty batch the while loop never ends: no number of iterations is enough. -/
theorem mergeLoop_empty_batch (specialmode : RunnerOutput) :
    ∀ (fuel : Nat) (header : Bool) (out : Str),
      mergeLoop specialmode fuel header [] out = Outcome.outOfFuel := by
  intro fuel
  induction fuel with
  | zero => intro header out; rfl
  | succ f ih =>
    intro header out
    rw [mergeLoop]
    simp only [rowLoop]
    split <;> exact ih false _

/-- A call of _mergeFilesBatch on a batch that is not empty returns or stops. -/
theorem mergeFilesBatch_terminates (fs : FileSystem) (batch : List InputFileData)
    (outFilePath : Str) (filetype : FileType) (specialmode : RunnerOutput) (hne : batch ≠ []) :
    _mergeFilesBatch fs batch outFilePath filetype specialmode ≠ BatchResult.diverges := by
  unfold _mergeFilesBatch
  cases batch.find? (fun f => (fs.content f.path).isNone) with
  | some f => simp
  | none =>
    simp only
    split
    · simp
    · have hrs : batchReaders fs outFilePath specialmode batch ≠ [] := by
        simpa [batchReaders] using hne
      have := mergeLoop_fuel_enough specialmode
        (loopBound (batchReaders fs outFilePath specialmode batch)) true
        (batchReaders fs outFilePath specialmode batch)
        (if specialmode = RunnerOutput.normal then "RNA-see TPM data file".toList else [])
        hrs (Nat.le_refl _)
      revert this
      generalize mergeLoop specialmode _ true _ _ = r
      cases r <;> simp

/-- The bound `infiles.length + 1` on the loop that fills a batch is never reached: any
larger bound gives the same batch. -/
theorem fillBatch_fuel_more (infiles : List InputFileData) (end_range : Int) (k : Nat) :
    ∀ (fuel start_range : Nat) (fb : List InputFileData),
      0 < fuel → infiles.length ≤ start_range + fuel →
      fillBatch infiles end_range (fuel + k) start_range fb
        = fillBatch infiles end_range fuel start_range fb := by
  intro fuel
  induction fuel with
  | zero => intro s fb h; omega
  | succ f ih =>
    intro s fb _ hlen
    rw [Nat.add_right_comm, fillBatch, fillBatch]
    split
    · cases hget : infiles[s + 1]? with
      | none => rfl
      | some file =>
        have hlt : s + 1 < infiles.length := by
          rcases List.getElem?_eq_some_iff.mp hget with ⟨h, _⟩
          exact h
        exact ih (s + 1) _ (by omega) (by omega)
    · rfl

/-! ## The rows of a well-formed batch -/

theorem advance_getD (rs : List Reader) (f : Reader → Str → Str) (k : Nat) :
    (rs.map advance).map (fun r => f r (r.lines.getD k [])) =
      rs.map (fun r => f (advance r) (r.lines.getD (k + 1) [])) := by
  simp only [List.map_map]
  apply List.map_congr_left
  intro r _
  cases h : r.lines <;> simp [advance, h]

theorem mergeLoop_rows (specialmode : RunnerOutput) (rowAt : List Reader → Nat → Str)
    (Inv : List Reader → Nat → Prop)
    (hshift : ∀ rs k, rowAt (rs.map advance) k = rowAt rs (k + 1))
    (hend : ∀ rs, Inv rs 0 → ∃ r0 rest, rs = r0 :: rest ∧ r0.lines = [])
    (hrow : ∀ rs n out, Inv rs (n + 1) →
      rowLoop specialmode false true [] rs [] out
          = RowResult.row (rs.map advance) (out ++ rowAt rs 0) ∧
        Inv (rs.map advance) n) :
    ∀ (n : Nat) (rs : List Reader) (out : Str) (fuel : Nat), n < fuel → Inv rs n →
      mergeLoop specialmode fuel false rs out
        = Outcome.done (out ++ ((List.range n).map (fun k => rowAt rs k ++ ['\n'])).flatten) := by
  intro n
  induction n with
  | zero =>
    intro rs out fuel hf hinv
    obtain ⟨r0, rest, hrs, h0⟩ := hend rs hinv
    cases fuel with
    | zero => omega
    | succ f =>
      subst hrs
      simp [mergeLoop, rowLoop, h0]
  | succ n ih =>
    intro rs out fuel hf hinv
    cases fuel with
    | zero => omega
    | succ f =>
      obtain ⟨hr, hinv1⟩ := hrow rs n out hinv
      rw [mergeLoop, hr]
      simp only [Bool.not_false, true_or, if_true]
      rw [ih _ _ f (by omega) hinv1]
      rw [List.range_succ_eq_map]
      simp [hshift, List.append_assoc, Function.comp_def]

/-! ## The normal mode on well-formed lines -/

theorem tabCells_normal (header : Bool) (line : Str) :
    ∀ (cols : List DataColumn) (out : Str),
      (∀ c ∈ cols, c.colnum < (fields line).length) →
      tabCells RunnerOutput.normal header (fields line) cols out
        = Except.ok (out ++ (cols.map (fun c => '\t' :: field line c.colnum)).flatten) := by
  intro cols
  induction cols with
  | nil => intro out _; simp [tabCells]
  | cons c cs ih =>
    intro out h
    have hc := h c (List.mem_cons_self _ _)
    rw [tabCells]
    simp only [fields_get_of_lt line c.colnum hc]
    simp only [ne_eq, reduceCtorEq, not_false_eq_true, and_self, if_true, if_false]
    rw [ih _ (fun x hx => h x (List.mem_cons_of_mem _ hx))]
    simp [List.append_assoc]

theorem getLast?_mem_of_ne_nil {α : Type} (l : List α) (h : l ≠ []) :
    ∃ x, l.getLast? = some x ∧ x ∈ l :=
  ⟨l.getLast h, List.getLast?_eq_getLast l h, List.getLast_mem h⟩

theorem copyCells_tab_normal (header : Bool) (file : InputFileData) (line out : Str)
    (ht : file.filetype = FileType.Tab) (hcols : file.columns ≠ [])
    (h : ∀ c ∈ file.columns, c.colnum < (fields line).length) :
    copyCells RunnerOutput.normal header file (fields line) out
      = Except.ok (out ++ (file.columns.map (fun c => '\t' :: field line c.colnum)).flatten) := by
  obtain ⟨last, hlast, hmem⟩ := getLast?_mem_of_ne_nil file.columns hcols
  have hlt := h last hmem
  unfold copyCells
  rw [ht]
  simp only [hlast]
  rw [if_neg (by omega)]
  exact tabCells_normal header line _ _ h

theorem copyCells_normal_data (file : InputFileData) (line out : Str)
    (hval : file.filetype = FileType.Salmon ∨ (file.filetype = FileType.Tab ∧ file.columns ≠ []))
    (hs : file.filetype = FileType.Salmon → 4 ≤ (fields line).length)
    (ht : file.filetype = FileType.Tab → ∀ c ∈ file.columns, c.colnum < (fields line).length) :
    copyCells RunnerOutput.normal false file (fields line) out
      = Except.ok (out ++ specCells file line) := by
  rcases hval with hsal | ⟨htab, hcols⟩
  · have h3 := fields_get_of_lt line 3 (by have := hs hsal; omega)
    unfold copyCells
    rw [hsal]
    simp [salmonCells, specCells, hsal, h3]
  · rw [copyCells_tab_normal false file line out htab hcols (ht htab)]
    simp [specCells, htab]

theorem copyCells_normal_header (file : InputFileData) (line out : Str)
    (hval : file.filetype = FileType.Salmon ∨ (file.filetype = FileType.Tab ∧ file.columns ≠ []))
    (ht : file.filetype = FileType.Tab → ∀ c ∈ file.columns, c.colnum < (fields line).length) :
    copyCells RunnerOutput.normal true file (fields line) out
      = Except.ok (out ++ headerCells file line) := by
  rcases hval with hsal | ⟨htab, hcols⟩
  · unfold copyCells
    rw [hsal]
    simp [salmonCells, headerCells, hsal]
  · rw [copyCells_tab_normal true file line out htab hcols (ht htab)]
    simp [headerCells, htab]

theorem fileStep_split (specialmode : RunnerOutput) (header first : Bool) (g : Str)
    (file : InputFileData) (line out : Str) :
    fileStep specialmode header first g file line out =
      match geneStep specialmode header first g file (fields line) out with
      | Except.error e => Except.error e
      | Except.ok (g1, out1) =>
        match copyCells specialmode header file (fields line) out1 with
        | Except.error e => Except.error e
        | Except.ok out2 => Except.ok (g1, out2) := by
  unfold fileStep
  simp only [splitLineOnTabs_eq_fields, ite_self]

theorem fileStep_normal_header (first : Bool) (g : Str) (file : InputFileData) (line out : Str)
    (hval : file.filetype = FileType.Salmon ∨ (file.filetype = FileType.Tab ∧ file.columns ≠ []))
    (ht : file.filetype = FileType.Tab → ∀ c ∈ file.columns, c.colnum < (fields line).length) :
    fileStep RunnerOutput.normal true first g file line out
      = Except.ok (g, out ++ headerCells file line) := by
  rw [fileStep_split]
  simp [geneStep, copyCells_normal_header file line out hval ht]

theorem fileStep_normal_first (g : Str) (file : InputFileData) (line out : Str)
    (hval : file.filetype = FileType.Salmon ∨ (file.filetype = FileType.Tab ∧ file.columns ≠ []))
    (hs : file.filetype = FileType.Salmon → 4 ≤ (fields line).length)
    (ht : file.filetype = FileType.Tab → ∀ c ∈ file.columns, c.colnum < (fields line).length) :
    fileStep RunnerOutput.normal false true g file line out
      = Except.ok (field line 0, out ++ (field line 0 ++ specCells file line)) := by
  rw [fileStep_split]
  simp [geneStep, fields_get_zero, copyCells_normal_data file line _ hval hs ht]

theorem fileStep_normal_rest (file : InputFileData) (line out : Str)
    (hval : file.filetype = FileType.Salmon ∨ (file.filetype = FileType.Tab ∧ file.columns ≠ []))
    (hs : file.filetype = FileType.Salmon → 4 ≤ (fields line).length)
    (ht : file.filetype = FileType.Tab → ∀ c ∈ file.columns, c.colnum < (fields line).length) :
    fileStep RunnerOutput.normal false false (field line 0) file line out
      = Except.ok (field line 0, out ++ specCells file line) := by
  rw [fileStep_split]
  simp [geneStep, fields_get_zero, copyCells_normal_data file line _ hval hs ht]

theorem tail_getD {α : Type} (l : List α) (k : Nat) (d : α) : l.tail.getD k d = l.getD (k + 1) d := by
  cases l <;> simp

theorem specLine_advance (rs : List Reader) (k : Nat) :
    specLine (rs.map advance) k = specLine rs (k + 1) := by
  cases rs with
  | nil => simp [specLine]
  | cons r0 rest =>
    simp only [specLine, List.map_cons, List.map_map]
    congr 1
    · simp [advance, tail_getD]
    · congr 1
      simp [advance, tail_getD, Function.comp_def]

theorem Aligned.zero_end (P : InputFileData → Str → Prop) (rs : List Reader)
    (h : Aligned P rs 0) : ∃ r0 rest, rs = r0 :: rest ∧ r0.lines = [] := by
  obtain ⟨hne, _, ⟨genes, hlen, hg⟩, _⟩ := h
  cases rs with
  | nil => exact absurd rfl hne
  | cons r0 rest =>
    refine ⟨r0, rest, rfl, ?_⟩
    have h0 := hg r0 (List.mem_cons_self _ _)
    have : genes = [] := List.length_eq_zero.mp hlen
    rw [this] at h0
    simpa using h0

theorem Aligned.advance (P : InputFileData → Str → Prop) (rs : List Reader) (n : Nat)
    (h : Aligned P rs (n + 1)) : Aligned P (rs.map advance) n := by
  obtain ⟨hne, hval, ⟨genes, hlen, hg⟩, hP⟩ := h
  refine ⟨by simpa using hne, ?_, ⟨genes.tail, by simp [hlen], ?_⟩, ?_⟩
  · intro r hr
    obtain ⟨r1, hr1, rfl⟩ := List.mem_map.mp hr
    exact hval r1 hr1
  · intro r hr
    obtain ⟨r1, hr1, rfl⟩ := List.mem_map.mp hr
    have := hg r1 hr1
    simp only [RunnerGunner.advance]
    rw [← this]
    simp [List.map_tail]
  · intro r hr l hl
    obtain ⟨r1, hr1, rfl⟩ := List.mem_map.mp hr
    exact hP r1 hr1 l (List.mem_of_mem_tail hl)

theorem Aligned.head_line (P : InputFileData → Str → Prop) (rs : List Reader) (n : Nat)
    (h : Aligned P rs (n + 1)) :
    ∃ g : Str, ∀ r ∈ rs, ∃ l more, r.lines = l :: more ∧ field l 0 = g ∧ P r.file l ∧
      (r.file.filetype = FileType.Salmon ∨
        (r.file.filetype = FileType.Tab ∧ r.file.columns ≠ [])) := by
  obtain ⟨_, hval, ⟨genes, hlen, hg⟩, hP⟩ := h
  cases genes with
  | nil => simp at hlen
  | cons g gs =>
    refine ⟨g, ?_⟩
    intro r hr
    have h1 := hg r hr
    cases hl : r.lines with
    | nil => rw [hl] at h1; simp at h1
    | cons l more =>
      rw [hl] at h1
      simp only [List.map_cons, List.cons.injEq] at h1
      exact ⟨l, more, rfl, h1.1, hP r hr l (by rw [hl]; exact List.mem_cons_self _ _), hval r hr⟩

theorem rowLoop_normal_data (rs : List Reader) (n : Nat) (out : Str)
    (h : Aligned HasCells rs (n + 1)) :
    rowLoop RunnerOutput.normal false true [] rs [] out
      = RowResult.row (rs.map advance) (out ++ specLine rs 0) := by
  obtain ⟨g, hg⟩ := Aligned.head_line HasCells rs n h
  cases rs with
  | nil => exact absurd rfl h.1
  | cons r0 rest =>
    obtain ⟨l0, more0, hl0, hg0, hP0, hv0⟩ := hg r0 (List.mem_cons_self _ _)
    have hfirst := fileStep_normal_first [] r0.file l0 out hv0 hP0.1 hP0.2
    rw [hg0] at hfirst
    have hrest : ∀ r ∈ rest, ∃ l more, r.lines = l :: more ∧
        ∀ o, fileStep RunnerOutput.normal false false g r.file l o
          = Except.ok (g, o ++ (fun r => specCells r.file (r.lines.getD 0 [])) r) := by
      intro r hr
      obtain ⟨l, more, hl, hgl, hP, hv⟩ := hg r (List.mem_cons_of_mem _ hr)
      refine ⟨l, more, hl, ?_⟩
      intro o
      have := fileStep_normal_rest r.file l o hv hP.1 hP.2
      rw [hgl] at this
      simp [this, hl]
    rw [rowLoop_first RunnerOutput.normal false g _ _ r0 rest l0 more0 out hl0 hfirst hrest]
    simp [specLine, hl0, hg0, List.append_assoc]

theorem mergeLoop_normal_data (n : Nat) (rs : List Reader) (out : Str) (fuel : Nat)
    (hf : n < fuel) (h : Aligned HasCells rs n) :
    mergeLoop RunnerOutput.normal fuel false rs out
      = Outcome.done (out ++ ((List.range n).map (fun k => specLine rs k ++ ['\n'])).flatten) :=
  mergeLoop_rows RunnerOutput.normal specLine (Aligned HasCells) specLine_advance
    (Aligned.zero_end HasCells)
    (fun rs n out hinv => ⟨rowLoop_normal_data rs n out hinv, Aligned.advance HasCells rs n hinv⟩)
    n rs out fuel hf h

theorem rowLoop_normal_header (rs : List Reader) (out : Str) (hne : rs ≠ [])
    (hval : ∀ r ∈ rs, r.file.filetype = FileType.Salmon ∨
      (r.file.filetype = FileType.Tab ∧ r.file.columns ≠ []))
    (hline : ∀ r ∈ rs, r.lines ≠ [])
    (htab : ∀ r ∈ rs, ∀ l ∈ r.lines, HasTabCells r.file l) :
    rowLoop RunnerOutput.normal true true [] rs [] out
      = RowResult.row (rs.map advance)
          (out ++ (rs.map (fun r => headerCells r.file (r.lines.getD 0 []))).flatten) := by
  have key : ∀ r ∈ rs, ∃ l more, r.lines = l :: more ∧
      ∀ (first : Bool) (o : Str), fileStep RunnerOutput.normal true first [] r.file l o
        = Except.ok ([], o ++ (fun r => headerCells r.file (r.lines.getD 0 [])) r) := by
    intro r hr
    cases hl : r.lines with
    | nil => exact absurd hl (hline r hr)
    | cons l more =>
      refine ⟨l, more, rfl, ?_⟩
      intro first o
      have := fileStep_normal_header first [] r.file l o (hval r hr)
        (htab r hr l (by rw [hl]; exact List.mem_cons_self _ _))
      simp [this, hl]
  cases rs with
  | nil => exact absurd rfl hne
  | cons r0 rest =>
    obtain ⟨l0, more0, hl0, h0⟩ := key r0 (List.mem_cons_self _ _)
    have hrest : ∀ r ∈ rest, ∃ l more, r.lines = l :: more ∧
        ∀ o, fileStep RunnerOutput.normal true false [] r.file l o
          = Except.ok ([], o ++ (fun r => headerCells r.file (r.lines.getD 0 [])) r) := by
      intro r hr
      obtain ⟨l, more, hl, h⟩ := key r (List.mem_cons_of_mem _ hr)
      exact ⟨l, more, hl, h false⟩
    rw [rowLoop_first RunnerOutput.normal true [] _ _ r0 rest l0 more0 out hl0 (h0 true out) hrest]
    simp [List.append_assoc]

theorem aligned_of_rows (P : InputFileData → Str → Prop) (rs : List Reader) (genes : List Str)
    (hne : rs ≠ [])
    (hval : ∀ r ∈ rs, r.file.filetype = FileType.Salmon ∨
      (r.file.filetype = FileType.Tab ∧ r.file.columns ≠ []))
    (hrows : ∀ r ∈ rs, r.lines ≠ [] ∧ (r.lines.drop 1).map (fun l => field l 0) = genes)
    (hP : ∀ r ∈ rs, ∀ l ∈ r.lines, P r.file l) :
    Aligned P (rs.map advance) genes.length := by
  refine ⟨by simpa using hne, ?_, ⟨genes, rfl, ?_⟩, ?_⟩
  · intro r hr
    obtain ⟨r1, hr1, rfl⟩ := List.mem_map.mp hr
    exact hval r1 hr1
  · intro r hr
    obtain ⟨r1, hr1, rfl⟩ := List.mem_map.mp hr
    have := (hrows r1 hr1).2
    simpa [advance] using this
  · intro r hr l hl
    obtain ⟨r1, hr1, rfl⟩ := List.mem_map.mp hr
    exact hP r1 hr1 l (List.mem_of_mem_tail hl)

theorem mergeLoop_normal_table (rs : List Reader) (genes : List Str) (fuel : Nat)
    (hf : genes.length + 1 < fuel) (hne : rs ≠ [])
    (hval : ∀ r ∈ rs, r.file.filetype = FileType.Salmon ∨
      (r.file.filetype = FileType.Tab ∧ r.file.columns ≠ []))
    (hrows : ∀ r ∈ rs, r.lines ≠ [] ∧ (r.lines.drop 1).map (fun l => field l 0) = genes)
    (hP : ∀ r ∈ rs, ∀ l ∈ r.lines, HasCells r.file l) :
    mergeLoop RunnerOutput.normal fuel true rs "RNA-see TPM data file".toList
      = Outcome.done (specTable rs genes.length) := by
  cases fuel with
  | zero => omega
  | succ f =>
    rw [mergeLoop, rowLoop_normal_header rs _ hne hval (fun r hr => (hrows r hr).1)
      (fun r hr l hl => (hP r hr l hl).2)]
    simp only [or_true, if_true]
    rw [mergeLoop_normal_data genes.length _ _ f (by omega)
      (aligned_of_rows HasCells rs genes hne hval hrows hP)]
    simp [specTable, headerLine, specLine_advance, List.append_assoc]

theorem batchReaders_file (fs : FileSystem) (outFilePath : Str) (specialmode : RunnerOutput)
    (batch : List InputFileData) :
    ∀ r ∈ batchReaders fs outFilePath specialmode batch, r.file ∈ batch := by
  intro r hr
  obtain ⟨f, hf, rfl⟩ := List.mem_map.mp hr
  exact hf

theorem find_unopened_none (fs : FileSystem) (batch : List InputFileData)
    (hopen : ∀ f ∈ batch, (fs.content f.path).isSome) :
    batch.find? (fun f => (fs.content f.path).isNone) = Option.none := by
  rw [List.find?_eq_none]
  intro f hf
  have := hopen f hf
  cases h : fs.content f.path <;> simp_all

theorem loopBound_of_rows (rs : List Reader) (genes : List Str) (hne : rs ≠ [])
    (hrows : ∀ r ∈ rs, r.lines ≠ [] ∧ (r.lines.drop 1).map (fun l => field l 0) = genes) :
    loopBound rs = genes.length + 2 := by
  cases rs with
  | nil => exact absurd rfl hne
  | cons r0 rest =>
    obtain ⟨h1, h2⟩ := hrows r0 (List.mem_cons_self _ _)
    have := congrArg List.length h2
    simp only [List.length_map, List.length_drop] at this
    have hpos : 0 < r0.lines.length := List.length_pos.mpr h1
    simp only [loopBound]
    omega

/-- C1. In the normal mode, a batch of at least one validated file, every file having a
header line and the same data rows count with the same field 0 in every row, every
Salmon line having four fields and every Tab line a field at each retained column index,
is merged into the header line followed by exactly one newline-terminated line per data
row: the gene name of the row (field 0 of the first file), then for each file in batch
order a tab and field 3 (Salmon) or a tab and the field at each retained column index in
column order (Tab).  The merge completes and leaves that text in the output file. -/
theorem mergeFilesBatch_normal_rows (fs : FileSystem) (batch : List InputFileData)
    (outFilePath : Str) (filetype : FileType) (genes : List Str)
    (hne : batch ≠ [])
    (hopen : ∀ f ∈ batch, (fs.content f.path).isSome)
    (hw : outFilePath ∉ fs.unwritable)
    (hval : ∀ f ∈ batch, f.filetype = FileType.Salmon ∨
      (f.filetype = FileType.Tab ∧ f.columns ≠ []))
    (hrows : ∀ r ∈ batchReaders fs outFilePath RunnerOutput.normal batch,
      r.lines ≠ [] ∧ (r.lines.drop 1).map (fun l => field l 0) = genes)
    (hsalmon : ∀ r ∈ batchReaders fs outFilePath RunnerOutput.normal batch,
      r.file.filetype = FileType.Salmon → ∀ l ∈ r.lines, 4 ≤ (fields l).length)
    (htab : ∀ r ∈ batchReaders fs outFilePath RunnerOutput.normal batch,
      r.file.filetype = FileType.Tab →
        ∀ l ∈ r.lines, ∀ c ∈ r.file.columns, c.colnum < (fields l).length) :
    _mergeFilesBatch fs batch outFilePath filetype RunnerOutput.normal
      = BatchResult.done
          (specTable (batchReaders fs outFilePath RunnerOutput.normal batch) genes.length)
          (fs.write outFilePath
            (specTable (batchReaders fs outFilePath RunnerOutput.normal batch) genes.length)) := by
  have hrs : batchReaders fs outFilePath RunnerOutput.normal batch ≠ [] := by
    simpa [batchReaders] using hne
  have hvalr : ∀ r ∈ batchReaders fs outFilePath RunnerOutput.normal batch,
      r.file.filetype = FileType.Salmon ∨
        (r.file.filetype = FileType.Tab ∧ r.file.columns ≠ []) :=
    fun r hr => hval r.file (batchReaders_file fs outFilePath _ batch r hr)
  have hloop := mergeLoop_normal_table _ genes
    (loopBound (batchReaders fs outFilePath RunnerOutput.normal batch))
    (by rw [loopBound_of_rows _ genes hrs hrows]; omega) hrs hvalr hrows
    (fun r hr l hl => ⟨fun hs => hsalmon r hr hs l hl, fun ht => htab r hr ht l hl⟩)
  unfold _mergeFilesBatch
  rw [find_unopened_none fs batch hopen]
  simp only [hw, and_false, if_false, if_true]
  rw [hloop]
  simp [written]

/-- C1 at a batch made of a Tab file and a Salmon file with two data rows each. -/
theorem mergeFilesBatch_normal_rows_witness :
    _mergeFilesBatch exFs [exTab, exSalmon] "o".toList FileType.Either RunnerOutput.normal
      = BatchResult.done
          "RNA-see TPM data file\tr1\tr2\t\"b\"\ng1\t1\t2\t7.5\ng2\t3\t4\t8.5\n".toList
          (exFs.write "o".toList
            "RNA-see TPM data file\tr1\tr2\t\"b\"\ng1\t1\t2\t7.5\ng2\t3\t4\t8.5\n".toList) :=
  (mergeFilesBatch_normal_rows exFs [exTab, exSalmon] "o".toList FileType.Either
    ["g1".toList, "g2".toList] (by decide) (by decide) (by decide) (by decide) (by decide)
    (by decide) (by decide)).trans (by decide)

/-! ## The printgenes mode on well-formed lines -/

theorem tabCells_quiet (specialmode : RunnerOutput) (header : Bool) (split : List Str)
    (hm : specialmode = RunnerOutput.printgenes ∨ specialmode = RunnerOutput.none) :
    ∀ (cols : List DataColumn) (out : Str),
      tabCells specialmode header split cols out = Except.ok out := by
  intro cols
  induction cols with
  | nil => intro out; simp [tabCells]
  | cons c cs ih =>
    intro out
    rw [tabCells]
    rcases hm with h | h <;> subst h <;> simp [ih]

theorem copyCells_printgenes (header : Bool) (file : InputFileData) (line out : Str)
    (hval : file.filetype = FileType.Salmon ∨ (file.filetype = FileType.Tab ∧ file.columns ≠ []))
    (ht : HasTabCells file line) :
    copyCells RunnerOutput.printgenes header file (fields line) out = Except.ok out := by
  rcases hval with hsal | ⟨htab, hcols⟩
  · unfold copyCells
    rw [hsal]
    simp [salmonCells]
  · obtain ⟨last, hlast, hmem⟩ := getLast?_mem_of_ne_nil file.columns hcols
    have hlt := ht htab last hmem
    unfold copyCells
    rw [htab]
    simp only [hlast]
    rw [if_neg (by omega)]
    exact tabCells_quiet _ header _ (Or.inl rfl) _ _

theorem specGene_advance (rs : List Reader) (k : Nat) :
    specGene (rs.map advance) k = specGene rs (k + 1) := by
  cases rs with
  | nil => simp [specGene]
  | cons r0 rest => simp [specGene, advance, tail_getD]

theorem rowLoop_printgenes_data (rs : List Reader) (n : Nat) (out : Str)
    (h : Aligned HasTabCells rs (n + 1)) :
    rowLoop RunnerOutput.printgenes false true [] rs [] out
      = RowResult.row (rs.map advance) (out ++ specGene rs 0) := by
  obtain ⟨g, hg⟩ := Aligned.head_line HasTabCells rs n h
  cases rs with
  | nil => exact absurd rfl h.1
  | cons r0 rest =>
    obtain ⟨l0, more0, hl0, hg0, hP0, hv0⟩ := hg r0 (List.mem_cons_self _ _)
    have hfirst : fileStep RunnerOutput.printgenes false true [] r0.file l0 out
        = Except.ok (g, out ++ g) := by
      rw [fileStep_split]
      simp [geneStep, fields_get_zero, copyCells_printgenes false r0.file l0 _ hv0 hP0, hg0]
    have hrest : ∀ r ∈ rest, ∃ l more, r.lines = l :: more ∧
        ∀ o, fileStep RunnerOutput.printgenes false false g r.file l o
          = Except.ok (g, o ++ (fun _ => []) r) := by
      intro r hr
      obtain ⟨l, more, hl, hgl, hP, hv⟩ := hg r (List.mem_cons_of_mem _ hr)
      refine ⟨l, more, hl, ?_⟩
      intro o
      rw [fileStep_split]
      simp [geneStep, fields_get_zero, copyCells_printgenes false r.file l _ hv hP, hgl]
    rw [rowLoop_first RunnerOutput.printgenes false g g _ r0 rest l0 more0 out hl0 hfirst hrest]
    simp [specGene, hl0, hg0]

theorem rowLoop_printgenes_header (rs : List Reader) (out : Str) (hne : rs ≠ [])
    (hval : ∀ r ∈ rs, r.file.filetype = FileType.Salmon ∨
      (r.file.filetype = FileType.Tab ∧ r.file.columns ≠ []))
    (hline : ∀ r ∈ rs, r.lines ≠ [])
    (htab : ∀ r ∈ rs, ∀ l ∈ r.lines, HasTabCells r.file l) :
    rowLoop RunnerOutput.printgenes true true [] rs [] out
      = RowResult.row (rs.map advance) out := by
  have key : ∀ r ∈ rs, ∃ l more, r.lines = l :: more ∧
      ∀ (first : Bool) (o : Str), fileStep RunnerOutput.printgenes true first [] r.file l o
        = Except.ok ([], o ++ (fun _ => []) r) := by
    intro r hr
    cases hl : r.lines with
    | nil => exact absurd hl (hline r hr)
    | cons l more =>
      refine ⟨l, more, rfl, ?_⟩
      intro first o
      rw [fileStep_split]
      simp [geneStep, copyCells_printgenes true r.file l _ (hval r hr)
        (htab r hr l (by rw [hl]; exact List.mem_cons_self _ _))]
  cases rs with
  | nil => exact absurd rfl hne
  | cons r0 rest =>
    obtain ⟨l0, more0, hl0, h0⟩ := key r0 (List.mem_cons_self _ _)
    have hrest : ∀ r ∈ rest, ∃ l more, r.lines = l :: more ∧
        ∀ o, fileStep RunnerOutput.printgenes true false [] r.file l o
          = Except.ok ([], o ++ (fun _ => []) r) := by
      intro r hr
      obtain ⟨l, more, hl, h⟩ := key r (List.mem_cons_of_mem _ hr)
      exact ⟨l, more, hl, h false⟩
    rw [rowLoop_first RunnerOutput.printgenes true [] [] _ r0 rest l0 more0 out hl0
      (by simpa using h0 true out) hrest]
    simp

theorem mergeLoop_printgenes_list (rs : List Reader) (genes : List Str) (fuel : Nat)
    (hf : genes.length + 1 < fuel) (hne : rs ≠ [])
    (hval : ∀ r ∈ rs, r.file.filetype = FileType.Salmon ∨
      (r.file.filetype = FileType.Tab ∧ r.file.columns ≠ []))
    (hrows : ∀ r ∈ rs, r.lines ≠ [] ∧ (r.lines.drop 1).map (fun l => field l 0) = genes)
    (hP : ∀ r ∈ rs, ∀ l ∈ r.lines, HasTabCells r.file l) :
    mergeLoop RunnerOutput.printgenes fuel true rs []
      = Outcome.done (specGeneList rs genes.length) := by
  cases fuel with
  | zero => omega
  | succ f =>
    rw [mergeLoop, rowLoop_printgenes_header rs _ hne hval (fun r hr => (hrows r hr).1) hP]
    simp only [Bool.not_true, Bool.false_eq_true, reduceCtorEq, or_self, if_false]
    rw [mergeLoop_rows RunnerOutput.printgenes specGene (Aligned HasTabCells) specGene_advance
      (Aligned.zero_end HasTabCells)
      (fun rs n out hinv =>
        ⟨rowLoop_printgenes_data rs n out hinv, Aligned.advance HasTabCells rs n hinv⟩)
      genes.length _ _ f (by omega) (aligned_of_rows HasTabCells rs genes hne hval hrows hP)]
    simp [specGeneList, specGene_advance]

/-- C10. In the printgenes mode, a row-aligned, well-formed batch of validated files with
R data rows is merged into exactly R newline-terminated lines, line r being field 0 of
data row r of the first file; no header row and no run value is written.  The merge
completes and leaves that text in the output file. -/
theorem mergeFilesBatch_printgenes_list (fs : FileSystem) (batch : List InputFileData)
    (outFilePath : Str) (filetype : FileType) (genes : List Str)
    (hne : batch ≠ [])
    (hopen : ∀ f ∈ batch, (fs.content f.path).isSome)
    (hw : outFilePath ∉ fs.unwritable)
    (hval : ∀ f ∈ batch, f.filetype = FileType.Salmon ∨
      (f.filetype = FileType.Tab ∧ f.columns ≠ []))
    (hrows : ∀ r ∈ batchReaders fs outFilePath RunnerOutput.printgenes batch,
      r.lines ≠ [] ∧ (r.lines.drop 1).map (fun l => field l 0) = genes)
    (htab : ∀ r ∈ batchReaders fs outFilePath RunnerOutput.printgenes batch,
      r.file.filetype = FileType.Tab →
        ∀ l ∈ r.lines, ∀ c ∈ r.file.columns, c.colnum < (fields l).length) :
    _mergeFilesBatch fs batch outFilePath filetype RunnerOutput.printgenes
      = BatchResult.done
          (specGeneList (batchReaders fs outFilePath RunnerOutput.printgenes batch) genes.length)
          (fs.write outFilePath
            (specGeneList (batchReaders fs outFilePath RunnerOutput.printgenes batch)
              genes.length)) := by
  have hrs : batchReaders fs outFilePath RunnerOutput.printgenes batch ≠ [] := by
    simpa [batchReaders] using hne
  have hvalr : ∀ r ∈ batchReaders fs outFilePath RunnerOutput.printgenes batch,
      r.file.filetype = FileType.Salmon ∨
        (r.file.filetype = FileType.Tab ∧ r.file.columns ≠ []) :=
    fun r hr => hval r.file (batchReaders_file fs outFilePath _ batch r hr)
  have hloop := mergeLoop_printgenes_list _ genes
    (loopBound (batchReaders fs outFilePath RunnerOutput.printgenes batch))
    (by rw [loopBound_of_rows _ genes hrs hrows]; omega) hrs hvalr hrows
    (fun r hr l hl ht => htab r hr ht l hl)
  unfold _mergeFilesBatch
  rw [find_unopened_none fs batch hopen]
  simp only [hw, and_false, if_false, reduceCtorEq]
  rw [hloop]
  simp [written]

/-- C10 at a batch made of a Tab file and a Salmon file with two data rows each. -/
theorem mergeFilesBatch_printgenes_list_witness :
    _mergeFilesBatch exFs [exTab, exSalmon] "o".toList FileType.Either RunnerOutput.printgenes
      = BatchResult.done "g1\ng2\n".toList (exFs.write "o".toList "g1\ng2\n".toList) :=
  (mergeFilesBatch_printgenes_list exFs [exTab, exSalmon] "o".toList FileType.Either
    ["g1".toList, "g2".toList] (by decide) (by decide) (by decide) (by decide) (by decide)
    (by decide)).trans (by decide)

/-! ## A gene mismatch in a data row -/

theorem geneStep_data (specialmode : RunnerOutput) (first : Bool) (g : Str)
    (file : InputFileData) (line out : Str) :
    geneStep specialmode false first g file (fields line) out =
      if first then
        if specialmode ≠ RunnerOutput.printruns ∧ specialmode ≠ RunnerOutput.none then
          Except.ok (field line 0, out ++ field line 0)
        else Except.ok (field line 0, out)
      else if g ≠ field line 0 then
        Except.error (MergeError.geneMismatch file.path g (field line 0), out)
      else Except.ok (g, out) := by
  simp [geneStep, fields_get_zero]

theorem fileStep_ok_gene (specialmode : RunnerOutput) (header first : Bool) (g : Str)
    (file : InputFileData) (line out : Str) (g1 out1 : Str)
    (h : fileStep specialmode header first g file line out = Except.ok (g1, out1)) :
    ∃ o, geneStep specialmode header first g file (fields line) out = Except.ok (g1, o) := by
  rw [fileStep_split] at h
  cases hg : geneStep specialmode header first g file (fields line) out with
  | error e => simp [hg] at h
  | ok p =>
    obtain ⟨g2, o2⟩ := p
    simp only [hg] at h
    cases hc : copyCells specialmode header file (fields line) o2 with
    | error e => simp [hc] at h
    | ok o3 =>
      simp only [hc, Except.ok.injEq, Prod.mk.injEq] at h
      exact ⟨o2, by rw [h.1]⟩

theorem fileStep_data_gene (specialmode : RunnerOutput) (first : Bool) (g : Str)
    (file : InputFileData) (line out : Str) (g1 out1 : Str)
    (h : fileStep specialmode false first g file line out = Except.ok (g1, out1)) :
    g1 = if first then field line 0 else g := by
  obtain ⟨o, ho⟩ := fileStep_ok_gene specialmode false first g file line out g1 out1 h
  rw [geneStep_data] at ho
  cases first
  · simp only [Bool.false_eq_true, if_false] at ho ⊢
    split at ho
    · simp at ho
    · simp only [Except.ok.injEq, Prod.mk.injEq] at ho
      exact ho.1.symm
  · simp only [if_true] at ho ⊢
    split at ho <;>
    · simp only [Except.ok.injEq, Prod.mk.injEq] at ho
      exact ho.1.symm

theorem fileStep_mismatch (specialmode : RunnerOutput) (g : Str) (file : InputFileData)
    (line out : Str) (h : field line 0 ≠ g) :
    fileStep specialmode false false g file line out
      = Except.error (MergeError.geneMismatch file.path g (field line 0), out) := by
  rw [fileStep_split, geneStep_data]
  simp [Ne.symm h]

theorem rowLoop_mismatch_rest (specialmode : RunnerOutput) (g : Str) (bad : Reader)
    (post : List Reader) (line : Str) (more : List Str) (hbad : bad.lines = line :: more)
    (hmis : field line 0 ≠ g) :
    ∀ (pre done : List Reader) (out : Str), (∀ r ∈ pre, r.lines ≠ []) →
      (∃ e o, rowLoop specialmode false false g (pre ++ bad :: post) done out
        = RowResult.abort e o) ∧
      (∀ pre1 out1, rowLoop specialmode false false g pre done out = RowResult.row pre1 out1 →
        rowLoop specialmode false false g (pre ++ bad :: post) done out
          = RowResult.abort (MergeError.geneMismatch bad.file.path g (field line 0)) out1) := by
  intro pre
  induction pre with
  | nil =>
    intro done out _
    have hstep : rowLoop specialmode false false g (bad :: post) done out
        = RowResult.abort (MergeError.geneMismatch bad.file.path g (field line 0)) out := by
      rw [rowLoop, hbad]
      simp only [fileStep_mismatch specialmode g bad.file line out hmis]
    refine ⟨⟨_, _, by simpa using hstep⟩, ?_⟩
    intro pre1 out1 h
    simp only [rowLoop, RowResult.row.injEq] at h
    rw [← h.2]
    simpa using hstep
  | cons r pre ih =>
    intro done out hl
    have hr := hl r (List.mem_cons_self _ _)
    have hpre : ∀ x ∈ pre, x.lines ≠ [] := fun x hx => hl x (List.mem_cons_of_mem _ hx)
    cases hlines : r.lines with
    | nil => exact absurd hlines hr
    | cons l m =>
      simp only [List.cons_append]
      rw [rowLoop, rowLoop, hlines]
      cases hs : fileStep specialmode false false g r.file l out with
      | error e =>
        obtain ⟨e1, o1⟩ := e
        simp [hs]
      | ok p =>
        obtain ⟨g1, o1⟩ := p
        have hg := fileStep_data_gene specialmode false g r.file l out g1 o1 hs
        simp only [Bool.false_eq_true, if_false] at hg
        subst hg
        simpa [hs] using ih (done ++ [Reader.mk r.file m]) o1 hpre

theorem rowLoop_mismatch (specialmode : RunnerOutput) (pre post : List Reader) (bad : Reader)
    (out : Str) (hpre : pre ≠ [])
    (hlines : ∀ r ∈ pre ++ bad :: post, r.lines ≠ [])
    (hmis : specGene [bad] 0 ≠ specGene pre 0) :
    (∃ e o, rowLoop specialmode false true [] (pre ++ bad :: post) [] out
      = RowResult.abort e o) ∧
    (∀ pre1 out1, rowLoop specialmode false true [] pre [] out = RowResult.row pre1 out1 →
      rowLoop specialmode false true [] (pre ++ bad :: post) [] out
        = RowResult.abort
            (MergeError.geneMismatch bad.file.path (specGene pre 0) (specGene [bad] 0)) out1) := by
  cases pre with
  | nil => exact absurd rfl hpre
  | cons r0 pre0 =>
    have h0 := hlines r0 (by simp)
    have hb := hlines bad (by simp)
    have hpre0 : ∀ x ∈ pre0, x.lines ≠ [] := fun x hx => hlines x (by simp [hx])
    cases hl0 : r0.lines with
    | nil => exact absurd hl0 h0
    | cons l0 m0 =>
      cases hlb : bad.lines with
      | nil => exact absurd hlb hb
      | cons line more =>
        have hm : field line 0 ≠ field l0 0 := by
          simpa [specGene, hl0, hlb] using hmis
        simp only [List.cons_append, specGene, hl0, hlb, List.getD_cons_zero]
        rw [rowLoop, rowLoop, hl0]
        cases hs : fileStep specialmode false true [] r0.file l0 out with
        | error e =>
          obtain ⟨e1, o1⟩ := e
          simp [hs]
        | ok p =>
          obtain ⟨g1, o1⟩ := p
          have hg := fileStep_data_gene specialmode true [] r0.file l0 out g1 o1 hs
          simp only [if_true] at hg
          subst hg
          simpa [hs] using rowLoop_mismatch_rest specialmode (field l0 0) bad post line more hlb hm
            pre0 ([] ++ [Reader.mk r0.file m0]) o1 hpre0

/-- C3 as stated fails. Both files supply a line in the data row, and field 0 of the second
file (g2) differs from field 0 of the first (g1), yet the failure is not the gene
mismatch: the row of the first file is too short for its last column and the merge stops
on the row-length guard of that file. -/
theorem gene_mismatch_counterexample :
    (batchReaders exFsCutRow "o".toList RunnerOutput.normal [exTab, exTab3]).map
        (fun r => r.lines.drop 1) = [["g1".toList], ["g2\t5".toList]] ∧
    field "g2\t5".toList 0 ≠ field "g1".toList 0 ∧
    _mergeFilesBatch exFsCutRow [exTab, exTab3] "o".toList FileType.Either RunnerOutput.normal
      = BatchResult.abort (MergeError.rowTooShort "d/a.rnatab".toList)
          "RNA-see TPM data file\tr1\tr2\tr3\ng1".toList := by
  decide

/-! ## The none mode against the normal mode -/

theorem geneStep_sim (header first : Bool) (g : Str) (file : InputFileData) (split : List Str)
    (oN oD : Str) :
    (∃ e, geneStep RunnerOutput.normal header first g file split oN = Except.error (e, oN) ∧
      geneStep RunnerOutput.none header first g file split oD = Except.error (e, oD)) ∨
    (∃ g1 o, geneStep RunnerOutput.normal header first g file split oN = Except.ok (g1, o) ∧
      geneStep RunnerOutput.none header first g file split oD = Except.ok (g1, oD)) := by
  unfold geneStep
  cases header
  · cases split[0]? with
    | none => simp
    | some g0 =>
      cases first
      · by_cases hg : g = g0 <;> simp [hg]
      · simp
  · simp

theorem tabCells_normal_cases (header : Bool) (split : List Str) :
    ∀ (cols : List DataColumn) (out : Str),
      (∃ o, tabCells RunnerOutput.normal header split cols out = Except.ok o) ∨
      (∃ o, tabCells RunnerOutput.normal header split cols out
        = Except.error (MergeError.outOfRange, o)) := by
  intro cols
  induction cols with
  | nil => intro out; simp [tabCells]
  | cons c cs ih =>
    intro out
    rw [tabCells]
    cases split[c.colnum]? with
    | none => simp
    | some cell => simpa using ih _

theorem copyCells_sim (header : Bool) (file : InputFileData) (split : List Str) (oN oD : Str) :
    (∃ o, copyCells RunnerOutput.normal header file split oN
      = Except.error (MergeError.outOfRange, o)) ∨
    (∃ e o, copyCells RunnerOutput.normal header file split oN = Except.error (e, o) ∧
      copyCells RunnerOutput.none header file split oD = Except.error (e, oD)) ∨
    (∃ o, copyCells RunnerOutput.normal header file split oN = Except.ok o ∧
      copyCells RunnerOutput.none header file split oD = Except.ok oD) := by
  unfold copyCells
  cases file.filetype
  · simp only [salmonCells]
    cases header
    · cases split[3]? <;> simp
    · simp
  · cases file.columns.getLast? with
    | none => simp
    | some last =>
      simp only
      by_cases hlt : split.length < last.colnum
      · simp [hlt]
      · simp only [hlt, if_false, tabCells_quiet RunnerOutput.none header split (Or.inr rfl)]
        rcases tabCells_normal_cases header split file.columns oN with ⟨o, ho⟩ | ⟨o, ho⟩
        · exact Or.inr (Or.inr ⟨o, by simpa using ho⟩)
        · exact Or.inl ⟨o, ho⟩
  · simp

theorem fileStep_sim (header first : Bool) (g : Str) (file : InputFileData) (line oN oD : Str) :
    (∃ o, fileStep RunnerOutput.normal header first g file line oN
      = Except.error (MergeError.outOfRange, o)) ∨
    (∃ e o o1, fileStep RunnerOutput.normal header first g file line oN = Except.error (e, o) ∧
      fileStep RunnerOutput.none header first g file line oD = Except.error (e, o1)) ∨
    (∃ g1 o o1, fileStep RunnerOutput.normal header first g file line oN = Except.ok (g1, o) ∧
      fileStep RunnerOutput.none header first g file line oD = Except.ok (g1, o1)) := by
  rw [fileStep_split, fileStep_split]
  rcases geneStep_sim header first g file (fields line) oN oD with ⟨e, h1, h2⟩ | ⟨g1, o, h1, h2⟩
  · rw [h1, h2]
    exact Or.inr (Or.inl ⟨e, oN, oD, rfl, rfl⟩)
  · rw [h1, h2]
    simp only
    rcases copyCells_sim header file (fields line) o oD with ⟨o2, h3⟩ | ⟨e, o2, h3, h4⟩ | ⟨o2, h3, h4⟩
    · rw [h3]
      exact Or.inl ⟨o2, rfl⟩
    · rw [h3, h4]
      exact Or.inr (Or.inl ⟨e, o2, oD, rfl, rfl⟩)
    · rw [h3, h4]
      exact Or.inr (Or.inr ⟨g1, o2, oD, rfl, rfl⟩)

theorem rowLoop_sim (header : Bool) :
    ∀ (rs : List Reader) (first : Bool) (g : Str) (done : List Reader) (oN oD : Str),
      (∃ o, rowLoop RunnerOutput.normal header first g rs done oN
        = RowResult.abort MergeError.outOfRange o) ∨
      (rowLoop RunnerOutput.normal header first g rs done oN).shape
        = (rowLoop RunnerOutput.none header first g rs done oD).shape := by
  intro rs
  induction rs with
  | nil => intro first g done oN oD; simp [rowLoop, RowResult.shape]
  | cons r rest ih =>
    intro first g done oN oD
    rw [rowLoop, rowLoop]
    cases hl : r.lines with
    | nil => cases first <;> simp [RowResult.shape]
    | cons l more =>
      simp only
      rcases fileStep_sim header first g r.file l oN oD with
        ⟨o, h1⟩ | ⟨e, o, o1, h1, h2⟩ | ⟨g1, o, o1, h1, h2⟩
      · rw [h1]
        exact Or.inl ⟨o, rfl⟩
      · rw [h1, h2]
        simp [RowResult.shape]
      · rw [h1, h2]
        exact ih false g1 _ o o1

theorem mergeLoop_sim :
    ∀ (fuel : Nat) (header : Bool) (rs : List Reader) (oN oD : Str),
      (∃ o, mergeLoop RunnerOutput.normal fuel header rs oN
        = Outcome.abort MergeError.outOfRange o) ∨
      (mergeLoop RunnerOutput.normal fuel header rs oN).shape
        = (mergeLoop RunnerOutput.none fuel header rs oD).shape := by
  intro fuel
  induction fuel with
  | zero => intro header rs oN oD; simp [mergeLoop, Outcome.shape]
  | succ f ih =>
    intro header rs oN oD
    rw [mergeLoop, mergeLoop]
    rcases rowLoop_sim header rs true [] [] oN oD with ⟨o, h⟩ | h
    · rw [h]
      exact Or.inl ⟨o, rfl⟩
    · cases hN : rowLoop RunnerOutput.normal header true [] rs [] oN with
      | eof o1 =>
        cases hD : rowLoop RunnerOutput.none header true [] rs [] oD <;>
          simp [hN, hD, RowResult.shape] at h
        simp [Outcome.shape]
      | abort e o1 =>
        cases hD : rowLoop RunnerOutput.none header true [] rs [] oD <;>
          simp [hN, hD, RowResult.shape] at h
        subst h
        simp [Outcome.shape]
      | row rs1 o1 =>
        cases hD : rowLoop RunnerOutput.none header true [] rs [] oD <;>
          simp [hN, hD, RowResult.shape] at h
        subst h
        simp only [or_true, if_true, reduceCtorEq, or_false]
        cases header
        · simpa using ih false rs1 (o1 ++ ['\n']) _
        · simpa using ih false rs1 (o1 ++ ['\n']) _

/-- When the none mode and the normal mode read the same lines from the files of a batch
(the normal mode truncates the output path before any input is read, the none mode does not
open it) and the output file can be opened: a run in the none mode that aborts has the
normal mode abort too, with the same failure or earlier on an out-of-range cell read; and
a run in the normal mode that aborts with any failure other than an out-of-range cell read
has the none mode abort with the same failure, having written nothing. -/
theorem dry_run_agrees (fs : FileSystem) (batch : List InputFileData) (outFilePath : Str)
    (filetype : FileType) (hw : outFilePath ∉ fs.unwritable)
    (hsame : batchReaders fs outFilePath RunnerOutput.normal batch
      = batchReaders fs outFilePath RunnerOutput.none batch) :
    (∀ e o, _mergeFilesBatch fs batch outFilePath filetype RunnerOutput.none
        = BatchResult.abort e o →
      ∃ o1, _mergeFilesBatch fs batch outFilePath filetype RunnerOutput.normal
          = BatchResult.abort e o1 ∨
        _mergeFilesBatch fs batch outFilePath filetype RunnerOutput.normal
          = BatchResult.abort MergeError.outOfRange o1) ∧
    (∀ e o, _mergeFilesBatch fs batch outFilePath filetype RunnerOutput.normal
        = BatchResult.abort e o → e ≠ MergeError.outOfRange →
      _mergeFilesBatch fs batch outFilePath filetype RunnerOutput.none
        = BatchResult.abort e []) := by
  unfold _mergeFilesBatch
  cases hfind : batch.find? (fun f => (fs.content f.path).isNone) with
  | some f =>
    simp only [BatchResult.abort.injEq]
    exact ⟨fun e o h => ⟨[], Or.inl ⟨h.1, rfl⟩⟩, fun e o h _ => ⟨h.1, trivial⟩⟩
  | none =>
    simp only [hw, and_false, if_false, ne_eq, not_true_eq_false, false_and, reduceCtorEq,
      if_true, not_false_eq_true]
    rw [hsame]
    have hsim := mergeLoop_sim (loopBound (batchReaders fs outFilePath RunnerOutput.none batch))
      true (batchReaders fs outFilePath RunnerOutput.none batch)
      "RNA-see TPM data file".toList []
    generalize mergeLoop RunnerOutput.normal _ true _ _ = rN at hsim ⊢
    generalize mergeLoop RunnerOutput.none _ true _ _ = rD at hsim ⊢
    cases rN <;> cases rD <;> simp [Outcome.shape, written] at hsim ⊢
    · exact hsim
    · rename_i e1 o1 e2 o2
      rcases hsim with h | h
      · exact ⟨⟨o1, Or.inr ⟨h, rfl⟩⟩, fun hne => absurd h hne⟩
      · exact ⟨⟨o1, Or.inl ⟨h, rfl⟩⟩, fun _ => h.symm⟩
    · exact hsim

/-- C8. On a Salmon file whose data row has three fields, the normal mode stops on the read
of field 3 and the none mode, which reads no cell and has no check of the length of a
Salmon row, completes.  The same on a Tab file whose data row is its gene name alone: the
row passes the row-length guard in both modes, the normal mode stops on the read of the
cell and the none mode completes. -/
theorem dry_run_misses_short_row :
    (_mergeFilesBatch exFsShortSalmon [exSalmon] "o".toList FileType.Either RunnerOutput.normal
        = BatchResult.abort MergeError.outOfRange "RNA-see TPM data file\t\"b\"\ng1\t".toList ∧
      _mergeFilesBatch exFsShortSalmon [exSalmon] "o".toList FileType.Either RunnerOutput.none
        = BatchResult.done [] exFsShortSalmon) ∧
    (_mergeFilesBatch exFsBareRow [exTab3] "o".toList FileType.Either RunnerOutput.normal
        = BatchResult.abort MergeError.outOfRange "RNA-see TPM data file\tr3\ng1\t".toList ∧
      _mergeFilesBatch exFsBareRow [exTab3] "o".toList FileType.Either RunnerOutput.none
        = BatchResult.done [] exFsBareRow) := by
  decide

/-! ## _removeRuns -/

theorem removalSet_mem (name : Str) :
    ∀ (removalvec removals : List Str),
      name ∈ removalSet removalvec removals ↔ name ∈ removalvec ∨ name ∈ removals := by
  intro removalvec
  induction removalvec with
  | nil => intro removals; simp [removalSet]
  | cons run rest ih =>
    intro removals
    rw [removalSet]
    split
    · rename_i hmem
      rw [ih]
      constructor
      · rintro (h | h)
        · exact Or.inl (List.mem_cons_of_mem _ h)
        · exact Or.inr h
      · rintro (h | h)
        · rcases List.mem_cons.mp h with h1 | h1
          · exact Or.inr (h1 ▸ hmem)
          · exact Or.inl h1
        · exact Or.inr h
    · rw [ih]
      simp only [List.mem_cons]
      tauto

theorem removeColumns_spec (removalvec : List Str) (removedups : Bool) :
    ∀ (cols : List DataColumn) (w : ColumnWalk) (earlier : List Str),
      (∀ name, name ∈ w.removals ↔ name ∈ removalvec ∨ (removedups = true ∧ name ∈ earlier)) →
      (removeColumns removedups cols w).newcolumns
          = w.newcolumns ++ specColumns removalvec removedups earlier cols ∧
        (∀ name, name ∈ (removeColumns removedups cols w).removals ↔
          name ∈ removalvec ∨
            (removedups = true ∧ name ∈ earlier ++ cols.map (fun c => c.runname))) := by
  intro cols
  induction cols with
  | nil => intro w earlier h; simpa [removeColumns, specColumns] using h
  | cons col rest ih =>
    intro w earlier h
    rw [removeColumns, specColumns]
    by_cases hmem : col.runname ∈ w.removals
    · have hk : specKeeps removalvec removedups earlier col = false := by
        rcases (h col.runname).mp hmem with h1 | ⟨h1, h2⟩
        · simp [specKeeps, h1]
        · simp [specKeeps, h1, h2]
      have hinv : ∀ name, name ∈ w.removals ↔
          name ∈ removalvec ∨ (removedups = true ∧ name ∈ earlier ++ [col.runname]) := by
        intro name
        rw [h name]
        constructor
        · rintro (h1 | ⟨h1, h2⟩)
          · exact Or.inl h1
          · exact Or.inr ⟨h1, List.mem_append_left _ h2⟩
        · rintro (h1 | ⟨h1, h2⟩)
          · exact Or.inl h1
          · rcases List.mem_append.mp h2 with h3 | h3
            · exact Or.inr ⟨h1, h3⟩
            · have : name = col.runname := by simpa using h3
              subst this
              exact (h col.runname).mp hmem
      have := ih w (earlier ++ [col.runname]) hinv
      simpa [hmem, hk, List.append_assoc] using this
    · have hk : specKeeps removalvec removedups earlier col = true := by
        have hnot := (h col.runname).not.mp hmem
        rw [not_or] at hnot
        obtain ⟨h1, h2⟩ := hnot
        cases hd : removedups
        · simp [specKeeps, h1]
        · have h3 : col.runname ∉ earlier := fun hin => h2 ⟨hd, hin⟩
          simp [specKeeps, h1, h3]
      have hinv : ∀ name,
          name ∈ (if removedups = true then col.runname :: w.removals else w.removals) ↔
          name ∈ removalvec ∨ (removedups = true ∧ name ∈ earlier ++ [col.runname]) := by
        intro name
        cases removedups
        · simpa using h name
        · simp only [if_true, List.mem_cons, h name, true_and, List.mem_append,
            List.mem_singleton]
          tauto
      have := ih (ColumnWalk.mk (if removedups = true then col.runname :: w.removals
        else w.removals) (w.newcolumns ++ [col]) (w.runsum + 1)) (earlier ++ [col.runname]) hinv
      simpa [hmem, hk, List.append_assoc] using this

theorem removeFiles_spec (removalvec : List Str) (removedups : Bool) :
    ∀ (files : List InputFileData) (w : FileWalk) (earlier : List Str),
      (∀ name, name ∈ w.removals ↔ name ∈ removalvec ∨ (removedups = true ∧ name ∈ earlier)) →
      (removeFiles removedups files w).newfiles
        = w.newfiles ++ specFiles removalvec removedups earlier files := by
  intro files
  induction files with
  | nil => intro w earlier _; simp [removeFiles, specFiles]
  | cons file rest ih =>
    intro w earlier h
    obtain ⟨hcols, hinv⟩ := removeColumns_spec removalvec removedups file.columns
      (ColumnWalk.mk w.removals [] w.runsum) earlier h
    simp only [List.nil_append] at hcols
    rw [removeFiles, specFiles]
    simp only [hcols, List.length_eq_zero, ne_eq]
    by_cases hnil : specColumns removalvec removedups earlier file.columns = []
    · simp only [hnil, not_true_eq_false, if_false, if_true]
      exact ih _ _ hinv
    · simp only [hnil, not_false_eq_true, if_true, if_false]
      rw [ih _ _ hinv]
      simp [List.append_assoc]

/-- C7. For every file list, removal list and dedup flag, _removeRuns keeps a column exactly
when its run name is not in the removal list and, if the dedup flag is set, no column
earlier in the walk has the same run name; the kept columns stay in their original order
inside each file and the files left stay in their original order.  So of two files that
each define only the run X, X not being removed, the first alone survives with dedup on
and both survive with dedup off. -/
theorem removeRuns_keeps (removalvec : List Str) :
    (∀ (files : List InputFileData) (removedups : Bool),
      (_removeRuns files removalvec removedups).1 = specFiles removalvec removedups [] files) ∧
    (∀ (f1 f2 : InputFileData) (name : Str) (i j : Nat),
      f1.columns = [DataColumn.mk name i] → f2.columns = [DataColumn.mk name j] →
      name ∉ removalvec →
      (_removeRuns [f1, f2] removalvec true).1 = [f1] ∧
        (_removeRuns [f1, f2] removalvec false).1 = [f1, f2]) := by
  have key : ∀ (files : List InputFileData) (removedups : Bool),
      (_removeRuns files removalvec removedups).1 = specFiles removalvec removedups [] files := by
    intro files removedups
    have := removeFiles_spec removalvec removedups files
      (FileWalk.mk (removalSet removalvec []) [] 0) []
      (by intro name; simp [removalSet_mem])
    simpa [_removeRuns] using this
  refine ⟨key, ?_⟩
  intro f1 f2 name i j h1 h2 hn
  rw [key, key]
  obtain ⟨p1, t1, c1⟩ := f1
  obtain ⟨p2, t2, c2⟩ := f2
  simp only at h1 h2
  subst h1 h2
  simp [specFiles, specColumns, specKeeps, hn]

/-- C7 at a file with the run X followed by a file with the runs Y and X: with dedup on,
the second X is dropped and Y stays. -/
theorem removeRuns_keeps_witness :
    (_removeRuns [exRunX1, exRunX2] [] true).1
        = [exRunX1, InputFileData.mk "d/x2.rnatab".toList FileType.Tab
            [DataColumn.mk "Y".toList 1]] ∧
    ((_removeRuns [exRunX1, exRunX1] [] true).1 = [exRunX1] ∧
      (_removeRuns [exRunX1, exRunX1] [] false).1 = [exRunX1, exRunX1]) :=
  ⟨((removeRuns_keeps []).1 [exRunX1, exRunX2] true).trans (by decide),
    (removeRuns_keeps []).2 exRunX1 exRunX1 "X".toList 1 1 rfl rfl (by decide)⟩

/-! ## Where the code departs from the specification -/

/-- C2. A file with two data rows merged with a file with three: when the shorter file
comes first the merge completes in every mode (in the normal mode with the two common
rows, the third row of the longer file being dropped without a word); only when the
shorter file comes second does the merge stop on its premature end. -/
theorem uneven_rows_first_file_short :
    _mergeFilesBatch exFsUneven [exTab, exTab3] "o".toList FileType.Either RunnerOutput.normal
      = BatchResult.done "RNA-see TPM data file\tr1\tr2\tr3\ng1\t1\t2\t5\ng2\t3\t4\t6\n".toList
          (exFsUneven.write "o".toList
            "RNA-see TPM data file\tr1\tr2\tr3\ng1\t1\t2\t5\ng2\t3\t4\t6\n".toList) ∧
    (∀ m : RunnerOutput,
      (_mergeFilesBatch exFsUneven [exTab, exTab3] "o".toList FileType.Either m).completed
        = true) ∧
    (∀ m : RunnerOutput,
      (_mergeFilesBatch exFsUneven [exTab3, exTab] "o".toList FileType.Either m).failure
        = some (MergeError.endedPrematurely "d/a.rnatab".toList)) := by
  refine ⟨by decide, ?_, ?_⟩ <;> intro m <;> cases m <;> decide

/-- C9. In the printruns mode a batch with two data rows is merged into its run names, one
per line, followed by one empty line per data row: the row terminator is written after
every data row in this mode too. -/
theorem printruns_blank_lines :
    _mergeFilesBatch exFs [exTab, exTab3] "o".toList FileType.Either RunnerOutput.printruns
      = BatchResult.done "r1\nr2\nr3\n\n\n".toList
          (exFs.write "o".toList "r1\nr2\nr3\n\n\n".toList) := by
  decide

/-- C5. With a ceiling of 2 and the three files a, b, c, the code counts two batches; the
first is b, c (a is left out, and the files are shifted by one), and filling the second
reads past the end of the list.  With four files the code counts three batches, not two. -/
theorem filebatch_shifted :
    batchCount 2 3 = 2 ∧
    filebatch 2 [exTab, exSalmon, exTab3] 2 0 = Except.ok [exSalmon, exTab3] ∧
    filebatch 2 [exTab, exSalmon, exTab3] 2 1 = Except.error MergeError.badIterator ∧
    batchCount 2 4 = 3 :=
  ⟨rfl, rfl, rfl, rfl⟩

/-- C6. With a ceiling of 2 and two files the code counts two batches, not one: it makes no
call of _mergeFilesBatch on the whole list, and stops while it fills the first batch,
reading past the end of the list. -/
theorem mergeFiles_full_ceiling (depth : Nat) :
    batchCount 2 2 = 2 ∧
    _mergeFiles 2 (depth + 1) exFs [exTab, exSalmon] "o".toList false FileType.Either
        RunnerOutput.normal
      = MergeRun.mk [] (MergeStatus.abort MergeError.badIterator) := by
  exact ⟨by decide, rfl⟩

/-- C4. The three files a, b, c merged with a ceiling of 4 (one batch) give the merged
table; merged with a ceiling of 2 they give nothing: the first batch is b, c, and the
recursive call on it stops while it fills its own first batch, before any call of
_mergeFilesBatch. -/
theorem mergeFiles_batched_differs (depth : Nat) :
    _mergeFiles 4 (depth + 1) exFs [exTab, exSalmon, exTab3] "o".toList false FileType.Either
        RunnerOutput.normal
      = MergeRun.mk [BatchCall.mk [exTab, exSalmon, exTab3] "o".toList RunnerOutput.normal]
          (MergeStatus.done (exFs.write "o".toList
            "RNA-see TPM data file\tr1\tr2\t\"b\"\tr3\ng1\t1\t2\t7.5\t5\ng2\t3\t4\t8.5\t6\n".toList)) ∧
    _mergeFiles 2 (depth + 2) exFs [exTab, exSalmon, exTab3] "o".toList false FileType.Either
        RunnerOutput.normal
      = MergeRun.mk [] (MergeStatus.abort MergeError.badIterator) := by
  exact ⟨rfl, rfl⟩


/-! ## The checks of one file -/

theorem tabColumnsLoop_eq (linesplit : List Str) :
    ∀ (fuel i : Nat) (columns : List DataColumn),
      i ≤ linesplit.length → linesplit.length - i < fuel →
      tabColumnsLoop linesplit linesplit.length fuel i columns
        = Except.ok (columns ++
            (List.range (linesplit.length - i)).map
              (fun k => DataColumn.mk (linesplit.getD (i + k) []) (i + k))) := by
  intro fuel
  induction fuel with
  | zero => intro i columns _ h; omega
  | succ f ih =>
    intro i columns hi hf
    rw [tabColumnsLoop]
    by_cases hlt : i < linesplit.length
    · have hget : linesplit[i]? = some (linesplit.getD i []) := by
        simp [List.getD, List.getElem?_eq_getElem hlt]
      rw [if_pos hlt]
      simp only [hget]
      rw [ih (i + 1) _ (by omega) (by omega)]
      have hsub : linesplit.length - i = (linesplit.length - (i + 1)) + 1 := by omega
      rw [hsub, List.range_succ_eq_map]
      simp [List.append_assoc, Function.comp_def, Nat.add_assoc, Nat.add_comm 1]
    · have : linesplit.length - i = 0 := by omega
      rw [if_neg hlt, this]
      simp


theorem checkSalmonFile_yes (fs : FileSystem) (file : InputFileData) (content h : Str)
    (rest : List Str) (hc : fs.content file.path = some content)
    (hl : getlines content = h :: rest)
    (hcond : (fields h).length = 5 ∧ field h 3 = "TPM".toList) :
    _checkSalmonFile fs file
      = Except.ok (1, InputFileData.mk file.path file.filetype
          [DataColumn.mk "TPM".toList 3]) := by
  obtain ⟨h5, h3⟩ := hcond
  have hget := fields_get_of_lt h 3 (by omega)
  unfold _checkSalmonFile
  rw [hc]
  simp only [hl, splitLineOnTabs_eq_fields, h5, ne_eq, not_true_eq_false, if_false, hget, h3]

theorem checkSalmonFile_no (fs : FileSystem) (file : InputFileData) (content h : Str)
    (rest : List Str) (hc : fs.content file.path = some content)
    (hl : getlines content = h :: rest)
    (hn : ¬((fields h).length = 5 ∧ field h 3 = "TPM".toList)) :
    _checkSalmonFile fs file = Except.ok (0, file) := by
  unfold _checkSalmonFile
  rw [hc]
  simp only [hl, splitLineOnTabs_eq_fields]
  by_cases h5 : (fields h).length = 5
  · have hget := fields_get_of_lt h 3 (by omega)
    have h3 : field h 3 ≠ "TPM".toList := fun h3 => hn ⟨h5, h3⟩
    simp only [h5, ne_eq, not_true_eq_false, if_false, hget, h3, not_false_eq_true, if_true]
  · simp only [ne_eq, h5, not_false_eq_true, if_true]

theorem checkTabFile_yes (fs : FileSystem) (file : InputFileData) (content h : Str)
    (rest : List Str) (hc : fs.content file.path = some content)
    (hl : getlines content = h :: rest)
    (hcond : 2 ≤ (fields h).length ∧ field h 0 = "RNA-see TPM data file".toList) :
    _checkTabFile fs file
      = Except.ok ((fields h).length - 1,
          InputFileData.mk file.path file.filetype (specTabColumns h)) := by
  obtain ⟨h2, h0⟩ := hcond
  have hloop := tabColumnsLoop_eq (fields h) (fields h).length 1 [] (by omega) (by omega)
  unfold _checkTabFile
  rw [hc]
  simp only [hl, splitLineOnTabs_eq_fields, fields_get_zero, h0, ne_eq, not_true_eq_false,
    if_false, hloop, List.nil_append, List.length_map, List.length_range]
  rw [if_neg (by omega)]
  simp [specTabColumns, field, Nat.add_comm 1]

theorem checkTabFile_no (fs : FileSystem) (file : InputFileData) (content h : Str)
    (rest : List Str) (hc : fs.content file.path = some content)
    (hl : getlines content = h :: rest)
    (hn : ¬(2 ≤ (fields h).length ∧ field h 0 = "RNA-see TPM data file".toList)) :
    _checkTabFile fs file = Except.ok (0, file) := by
  unfold _checkTabFile
  rw [hc]
  simp only [hl, splitLineOnTabs_eq_fields, fields_get_zero]
  by_cases h2 : (fields h).length < 2
  · simp only [h2, if_true]
  · have h0 : field h 0 ≠ "RNA-see TPM data file".toList := fun h0 => hn ⟨by omega, h0⟩
    simp only [h2, if_false, ne_eq, h0, not_false_eq_true, if_true]

/-- C13. For a readable file whose first line is `h`, _checkSalmonFile accepts the file
(returns a count that is not 0) exactly when `h` has exactly 5 tab-separated fields and
field 3 is "TPM"; on acceptance it returns 1 and the column list of the file is the
single column ("TPM", 3); on rejection it returns 0 and leaves the file as it was. -/
theorem checkSalmonFile_accepts (fs : FileSystem) (file : InputFileData) (content h : Str)
    (rest : List Str) (hc : fs.content file.path = some content)
    (hl : getlines content = h :: rest) :
    ((∃ n f, _checkSalmonFile fs file = Except.ok (n, f) ∧ n ≠ 0) ↔
      ((fields h).length = 5 ∧ field h 3 = "TPM".toList)) ∧
    (((fields h).length = 5 ∧ field h 3 = "TPM".toList) →
      _checkSalmonFile fs file
        = Except.ok (1, InputFileData.mk file.path file.filetype
            [DataColumn.mk "TPM".toList 3])) ∧
    (¬((fields h).length = 5 ∧ field h 3 = "TPM".toList) →
      _checkSalmonFile fs file = Except.ok (0, file)) := by
  refine ⟨⟨?_, ?_⟩, checkSalmonFile_yes fs file content h rest hc hl,
    checkSalmonFile_no fs file content h rest hc hl⟩
  · rintro ⟨n, f, hr, hn⟩
    by_contra hcond
    rw [checkSalmonFile_no fs file content h rest hc hl hcond] at hr
    simp only [Except.ok.injEq, Prod.mk.injEq] at hr
    exact hn hr.1.symm
  · intro hcond
    exact ⟨1, _, checkSalmonFile_yes fs file content h rest hc hl hcond, by decide⟩

/-- C13 at a Salmon file with the usual header. -/
theorem checkSalmonFile_accepts_witness :
    _checkSalmonFile exFsHeaders (InputFileData.mk "d/s.sf".toList FileType.Salmon [])
      = Except.ok (1, InputFileData.mk "d/s.sf".toList FileType.Salmon
          [DataColumn.mk "TPM".toList 3]) :=
  (checkSalmonFile_accepts exFsHeaders (InputFileData.mk "d/s.sf".toList FileType.Salmon [])
    "Name\tLength\tEffectiveLength\tTPM\tNumReads\ng1\t9\t8\t7.5\t6\n".toList
    "Name\tLength\tEffectiveLength\tTPM\tNumReads".toList ["g1\t9\t8\t7.5\t6".toList]
    (by decide) (by decide)).2.1 (by decide)

/-- C12. For a readable file whose first line is `h`, _checkTabFile accepts the file
(returns a count that is not 0) exactly when `h` has at least 2 tab-separated fields and
field 0 is "RNA-see TPM data file"; on acceptance the column list of the file is the
column (field i of `h`, i) for i from 1 to N-1, in increasing i, and the count returned
is N-1; otherwise it returns 0 and leaves the file as it was.  The header of the spec's
example gives the two columns (runs1, 1) and (runs2, 2). -/
theorem checkTabFile_accepts (fs : FileSystem) (file : InputFileData) (content h : Str)
    (rest : List Str) (hc : fs.content file.path = some content)
    (hl : getlines content = h :: rest) :
    ((∃ n f, _checkTabFile fs file = Except.ok (n, f) ∧ n ≠ 0) ↔
      (2 ≤ (fields h).length ∧ field h 0 = "RNA-see TPM data file".toList)) ∧
    ((2 ≤ (fields h).length ∧ field h 0 = "RNA-see TPM data file".toList) →
      _checkTabFile fs file
        = Except.ok ((fields h).length - 1,
            InputFileData.mk file.path file.filetype (specTabColumns h))) ∧
    (¬(2 ≤ (fields h).length ∧ field h 0 = "RNA-see TPM data file".toList) →
      _checkTabFile fs file = Except.ok (0, file)) ∧
    specTabColumns "RNA-see TPM data file\truns1\truns2".toList
      = [DataColumn.mk "runs1".toList 1, DataColumn.mk "runs2".toList 2] := by
  refine ⟨⟨?_, ?_⟩, checkTabFile_yes fs file content h rest hc hl,
    checkTabFile_no fs file content h rest hc hl, by decide⟩
  · rintro ⟨n, f, hr, hn⟩
    by_contra hcond
    rw [checkTabFile_no fs file content h rest hc hl hcond] at hr
    simp only [Except.ok.injEq, Prod.mk.injEq] at hr
    exact hn hr.1.symm
  · intro hcond
    exact ⟨_, _, checkTabFile_yes fs file content h rest hc hl hcond, by omega⟩

/-- C12 at the Tab file of the spec's example. -/
theorem checkTabFile_accepts_witness :
    _checkTabFile exFsHeaders (InputFileData.mk "d/t.rnatab".toList FileType.Salmon [])
      = Except.ok (2, InputFileData.mk "d/t.rnatab".toList FileType.Salmon
          [DataColumn.mk "runs1".toList 1, DataColumn.mk "runs2".toList 2]) :=
  ((checkTabFile_accepts exFsHeaders (InputFileData.mk "d/t.rnatab".toList FileType.Salmon [])
    "RNA-see TPM data file\truns1\truns2\ng1\t1\t2\n".toList
    "RNA-see TPM data file\truns1\truns2".toList ["g1\t1\t2".toList]
    (by decide) (by decide)).2.1 (by decide)).trans rfl

/-! ## _checkFiles -/

theorem specTabColumns_length (h : Str) : (specTabColumns h).length = (fields h).length - 1 := by
  simp [specTabColumns]

theorem checkSalmonFile_total (fs : FileSystem) (file : InputFileData) :
    (∃ h rest, (fs.content file.path).map getlines = some (h :: rest) ∧
      ((fields h).length = 5 ∧ field h 3 = "TPM".toList) ∧
      _checkSalmonFile fs file
        = Except.ok (1, InputFileData.mk file.path file.filetype
            [DataColumn.mk "TPM".toList 3])) ∨
    ((∀ h rest, (fs.content file.path).map getlines = some (h :: rest) →
        ¬((fields h).length = 5 ∧ field h 3 = "TPM".toList)) ∧
      _checkSalmonFile fs file = Except.ok (0, file)) := by
  cases hc : fs.content file.path with
  | none => exact Or.inr ⟨by simp, by simp [_checkSalmonFile, hc]⟩
  | some content =>
    cases hl : getlines content with
    | nil => exact Or.inr ⟨by simp [hl], by simp [_checkSalmonFile, hc, hl]⟩
    | cons h rest =>
      by_cases hcond : (fields h).length = 5 ∧ field h 3 = "TPM".toList
      · exact Or.inl ⟨h, rest, by simp [hl], hcond,
          checkSalmonFile_yes fs file content h rest hc hl hcond⟩
      · refine Or.inr ⟨?_, checkSalmonFile_no fs file content h rest hc hl hcond⟩
        intro h1 rest1 heq
        simp only [Option.map_some', hl, Option.some.injEq, List.cons.injEq] at heq
        rw [← heq.1]
        exact hcond

theorem checkTabFile_total (fs : FileSystem) (file : InputFileData) :
    (∃ h rest, (fs.content file.path).map getlines = some (h :: rest) ∧
      (2 ≤ (fields h).length ∧ field h 0 = "RNA-see TPM data file".toList) ∧
      _checkTabFile fs file
        = Except.ok ((fields h).length - 1,
            InputFileData.mk file.path file.filetype (specTabColumns h))) ∨
    ((∀ h rest, (fs.content file.path).map getlines = some (h :: rest) →
        ¬(2 ≤ (fields h).length ∧ field h 0 = "RNA-see TPM data file".toList)) ∧
      _checkTabFile fs file = Except.ok (0, file)) := by
  cases hc : fs.content file.path with
  | none => exact Or.inr ⟨by simp, by simp [_checkTabFile, hc]⟩
  | some content =>
    cases hl : getlines content with
    | nil => exact Or.inr ⟨by simp [hl], by simp [_checkTabFile, hc, hl]⟩
    | cons h rest =>
      by_cases hcond : 2 ≤ (fields h).length ∧ field h 0 = "RNA-see TPM data file".toList
      · exact Or.inl ⟨h, rest, by simp [hl], hcond,
          checkTabFile_yes fs file content h rest hc hl hcond⟩
      · refine Or.inr ⟨?_, checkTabFile_no fs file content h rest hc hl hcond⟩
        intro h1 rest1 heq
        simp only [Option.map_some', hl, Option.some.injEq, List.cons.injEq] at heq
        rw [← heq.1]
        exact hcond

theorem salmonBranch_skip (fs : FileSystem) (filetype : FileType) (file : Str) (st : CheckStep)
    (h : ¬((filetype = FileType.Salmon ∨ filetype = FileType.Either) ∧
      extension file = ".sf".toList)) :
    salmonBranch fs filetype file st = Except.ok st := by
  simp only [salmonBranch, h, if_false]

theorem tabBranch_skip (fs : FileSystem) (filetype : FileType) (file : Str) (st : CheckStep)
    (h : ¬((filetype = FileType.Tab ∨ filetype = FileType.Either) ∧
      extension file = ".rnatab".toList)) :
    tabBranch fs filetype file st = Except.ok st := by
  simp only [tabBranch, h, if_false]

/-- One pass of the loop of _checkFiles adds what the spec accepts, and counts its
columns. -/
theorem checkFiles_step (fs : FileSystem) (filetype : FileType) (file : Str)
    (invfiles : List InputFileData) :
    ∃ st1 st2,
      salmonBranch fs filetype file
          (CheckStep.mk 0 (InputFileData.mk file FileType.Salmon []) invfiles) = Except.ok st1 ∧
      tabBranch fs filetype file st1 = Except.ok st2 ∧
      st2.invfiles = invfiles ++ (specAccept fs filetype file).toList ∧
      st2.addedruns = totalColumns (specAccept fs filetype file).toList := by
  by_cases hs : (filetype = FileType.Salmon ∨ filetype = FileType.Either) ∧
      extension file = ".sf".toList
  · have hs1 : extension file = ".sf".toList ∧
        (filetype = FileType.Salmon ∨ filetype = FileType.Either) := ⟨hs.2, hs.1⟩
    have hnt : ¬((filetype = FileType.Tab ∨ filetype = FileType.Either) ∧
        extension file = ".rnatab".toList) := by
      rintro ⟨_, he⟩
      rw [hs.2] at he
      exact absurd he (by decide)
    rcases checkSalmonFile_total fs (InputFileData.mk file FileType.Salmon []) with
      ⟨h, rest, hl, hcond, hr⟩ | ⟨hall, hr⟩
    · have h1 : salmonBranch fs filetype file
          (CheckStep.mk 0 (InputFileData.mk file FileType.Salmon []) invfiles)
          = Except.ok (CheckStep.mk 1
              (InputFileData.mk file FileType.Salmon [DataColumn.mk "TPM".toList 3])
              (invfiles ++
                [InputFileData.mk file FileType.Salmon [DataColumn.mk "TPM".toList 3]])) := by
        simp only [salmonBranch, hs, and_self, if_true, hr]
        rfl
      refine ⟨_, _, h1, tabBranch_skip fs filetype file _ hnt, ?_, ?_⟩
      · simp only at hl
        simp [specAccept, hl, hs1, hcond]
      · simp only at hl
        simp [specAccept, hl, hs1, hcond, totalColumns]
    · have h1 : salmonBranch fs filetype file
          (CheckStep.mk 0 (InputFileData.mk file FileType.Salmon []) invfiles)
          = Except.ok (CheckStep.mk 0 (InputFileData.mk file FileType.Salmon []) invfiles) := by
        simp only [salmonBranch, hs, and_self, if_true, hr]
        rfl
      have hnone : specAccept fs filetype file = Option.none := by
        unfold specAccept
        cases hm : (fs.content file).map getlines with
        | none => rfl
        | some ls =>
          cases ls with
          | nil => rfl
          | cons h rest =>
            dsimp only
            rw [if_pos hs1, if_neg (hall h rest hm)]
      refine ⟨_, _, h1, tabBranch_skip fs filetype file _ hnt, ?_, ?_⟩
      · simp [hnone]
      · simp [hnone, totalColumns]
  · have hs1 : ¬(extension file = ".sf".toList ∧
        (filetype = FileType.Salmon ∨ filetype = FileType.Either)) := fun h => hs ⟨h.2, h.1⟩
    have h1 : salmonBranch fs filetype file
        (CheckStep.mk 0 (InputFileData.mk file FileType.Salmon []) invfiles)
        = Except.ok (CheckStep.mk 0 (InputFileData.mk file FileType.Salmon []) invfiles) := by
      simp only [salmonBranch, hs, if_false]
    by_cases ht : (filetype = FileType.Tab ∨ filetype = FileType.Either) ∧
        extension file = ".rnatab".toList
    · have ht1 : extension file = ".rnatab".toList ∧
          (filetype = FileType.Tab ∨ filetype = FileType.Either) := ⟨ht.2, ht.1⟩
      rcases checkTabFile_total fs (InputFileData.mk file FileType.Salmon []) with
        ⟨h, rest, hl, hcond, hr⟩ | ⟨hall, hr⟩
      · have hpos : (fields h).length - 1 ≠ 0 := by omega
        have h2 : tabBranch fs filetype file
            (CheckStep.mk 0 (InputFileData.mk file FileType.Salmon []) invfiles)
            = Except.ok (CheckStep.mk ((fields h).length - 1)
                (InputFileData.mk file FileType.Tab (specTabColumns h))
                (invfiles ++ [InputFileData.mk file FileType.Tab (specTabColumns h)])) := by
          simp only [tabBranch, ht, and_self, if_true, hr, ne_eq, hpos, not_false_eq_true]
        refine ⟨_, _, h1, h2, ?_, ?_⟩
        · simp only at hl
          simp [specAccept, hl, hs1, ht1, hcond]
        · simp only at hl
          simp [specAccept, hl, hs1, ht1, hcond, totalColumns, specTabColumns_length]
      · have h2 : tabBranch fs filetype file
            (CheckStep.mk 0 (InputFileData.mk file FileType.Salmon []) invfiles)
            = Except.ok (CheckStep.mk 0 (InputFileData.mk file FileType.Salmon []) invfiles) := by
          simp only [tabBranch, ht, and_self, if_true, hr]
          rfl
        have hnone : specAccept fs filetype file = Option.none := by
          unfold specAccept
          cases hm : (fs.content file).map getlines with
          | none => rfl
          | some ls =>
            cases ls with
            | nil => rfl
            | cons h rest =>
              dsimp only
              rw [if_neg hs1, if_pos ht1, if_neg (hall h rest hm)]
        refine ⟨_, _, h1, h2, ?_, ?_⟩
        · simp [hnone]
        · simp [hnone, totalColumns]
    · have ht1 : ¬(extension file = ".rnatab".toList ∧
          (filetype = FileType.Tab ∨ filetype = FileType.Either)) := fun h => ht ⟨h.2, h.1⟩
      have hnone : specAccept fs filetype file = Option.none := by
        unfold specAccept
        cases hm : (fs.content file).map getlines with
        | none => rfl
        | some ls =>
          cases ls with
          | nil => rfl
          | cons h rest =>
            dsimp only
            rw [if_neg hs1, if_neg ht1]
      refine ⟨_, _, h1, tabBranch_skip fs filetype file _ ht, ?_, ?_⟩
      · simp [hnone]
      · simp [hnone, totalColumns]

theorem checkFilesLoop_spec (fs : FileSystem) (filetype : FileType) :
    ∀ (files : List Str) (runsum : Nat) (invfiles : List InputFileData),
      checkFilesLoop fs filetype files runsum invfiles
        = Except.ok (runsum + totalColumns (files.filterMap (specAccept fs filetype)),
            invfiles ++ files.filterMap (specAccept fs filetype)) := by
  intro files
  induction files with
  | nil => intro runsum invfiles; simp [checkFilesLoop, totalColumns]
  | cons file rest ih =>
    intro runsum invfiles
    obtain ⟨st1, st2, h1, h2, h3, h4⟩ := checkFiles_step fs filetype file invfiles
    rw [checkFilesLoop, h1]
    simp only [h2]
    rw [ih, h3, h4]
    cases hsa : specAccept fs filetype file with
    | none => simp [List.filterMap_cons, hsa, totalColumns]
    | some f => simp [List.filterMap_cons, hsa, totalColumns, Nat.add_assoc]

/-- C14. For every list of candidate paths and every dialect restriction, _checkFiles adds
to the validated list exactly the files the spec accepts, in candidate order: a path
with the extension ".sf" (restriction Salmon or Either) whose header passes the Salmon
check, as a Salmon file, or a path with the extension ".rnatab" (restriction Tab or
Either) whose header passes the Tab check, as a Tab file.  A path with any other
extension adds nothing to the list and nothing to the run count returned, which is the
number of columns of the accepted files; so a well-formed Salmon header under the
extension ".txt" is not accepted. -/
theorem checkFiles_accepts (fs : FileSystem) (filetype : FileType) :
    (∀ (files : List Str) (invfiles : List InputFileData),
      _checkFiles fs files invfiles filetype
        = Except.ok (totalColumns (files.filterMap (specAccept fs filetype)),
            invfiles ++ files.filterMap (specAccept fs filetype))) ∧
    (∀ p : Str, extension p ≠ ".sf".toList → extension p ≠ ".rnatab".toList →
      specAccept fs filetype p = Option.none) ∧
    _checkFiles exFsHeaders ["d/s.txt".toList, "d/t.rnatab".toList, "d/s.sf".toList] []
        FileType.Either
      = Except.ok (3,
          [InputFileData.mk "d/t.rnatab".toList FileType.Tab
            [DataColumn.mk "runs1".toList 1, DataColumn.mk "runs2".toList 2],
           InputFileData.mk "d/s.sf".toList FileType.Salmon [DataColumn.mk "TPM".toList 3]]) := by
  refine ⟨?_, ?_, rfl⟩
  · intro files invfiles
    rw [_checkFiles, checkFilesLoop_spec]
    simp
  · intro p h1 h2
    unfold specAccept
    cases (fs.content p).map getlines with
    | none => rfl
    | some ls =>
      cases ls with
      | nil => rfl
      | cons h rest =>
        dsimp only
        rw [if_neg (fun hc => h1 hc.1), if_neg (fun hc => h2 hc.1)]

/-- C14 at a path with the extension ".txt" and the content of a Salmon file. -/
theorem checkFiles_accepts_witness :
    specAccept exFsHeaders FileType.Either "d/s.txt".toList = Option.none :=
  (checkFiles_accepts exFsHeaders FileType.Either).2.1 "d/s.txt".toList (by decide) (by decide)

/-! ## The columns left by the checks and by _removeRuns -/

theorem removeRuns_eq_specFiles (files : List InputFileData) (removalvec : List Str)
    (removedups : Bool) :
    (_removeRuns files removalvec removedups).1 = specFiles removalvec removedups [] files := by
  have := removeFiles_spec removalvec removedups files
    (FileWalk.mk (removalSet removalvec []) [] 0) []
    (by intro name; simp [removalSet_mem])
  simpa [_removeRuns] using this

theorem specFiles_eq_filter (removalvec : List Str) (removedups : Bool) :
    ∀ (files : List InputFileData) (earlier : List Str),
      specFiles removalvec removedups earlier files
        = (specNarrow removalvec removedups earlier files).filter
            (fun f => decide (f.columns ≠ [])) := by
  intro files
  induction files with
  | nil => intro earlier; simp [specFiles, specNarrow]
  | cons file rest ih =>
    intro earlier
    rw [specFiles, specNarrow]
    by_cases hnil : specColumns removalvec removedups earlier file.columns = []
    · simp [hnil, ih]
    · simp [hnil, ih]

/-- C17. A file accepted by _checkSalmonFile or by _checkTabFile (the count returned is not
0) has a column list that is not empty.  Every file of the list left by _removeRuns has
a column list that is not empty, and that list is made of the files of the walk that
keep at least one column: a file all of whose columns are removed is dropped, and a file
that keeps a column is not. -/
theorem validated_columns_nonempty :
    (∀ (fs : FileSystem) (file : InputFileData) (n : Nat) (f : InputFileData),
      _checkSalmonFile fs file = Except.ok (n, f) → n ≠ 0 → f.columns ≠ []) ∧
    (∀ (fs : FileSystem) (file : InputFileData) (n : Nat) (f : InputFileData),
      _checkTabFile fs file = Except.ok (n, f) → n ≠ 0 → f.columns ≠ []) ∧
    (∀ (files : List InputFileData) (removalvec : List Str) (removedups : Bool),
      (∀ f ∈ (_removeRuns files removalvec removedups).1, f.columns ≠ []) ∧
      (_removeRuns files removalvec removedups).1
        = (specNarrow removalvec removedups [] files).filter
            (fun f => decide (f.columns ≠ []))) := by
  refine ⟨?_, ?_, ?_⟩
  · intro fs file n f hr hn
    rcases checkSalmonFile_total fs file with ⟨h, rest, _, _, hyes⟩ | ⟨_, hno⟩
    · rw [hyes] at hr
      simp only [Except.ok.injEq, Prod.mk.injEq] at hr
      rw [← hr.2]
      simp
    · rw [hno] at hr
      simp only [Except.ok.injEq, Prod.mk.injEq] at hr
      exact absurd hr.1.symm hn
  · intro fs file n f hr hn
    rcases checkTabFile_total fs file with ⟨h, rest, _, hcond, hyes⟩ | ⟨_, hno⟩
    · rw [hyes] at hr
      simp only [Except.ok.injEq, Prod.mk.injEq] at hr
      rw [← hr.2]
      intro hnil
      have hlen := specTabColumns_length h
      simp only at hnil
      rw [hnil] at hlen
      simp only [List.length_nil] at hlen
      omega
    · rw [hno] at hr
      simp only [Except.ok.injEq, Prod.mk.injEq] at hr
      exact absurd hr.1.symm hn
  · intro files removalvec removedups
    have heq : (_removeRuns files removalvec removedups).1
        = (specNarrow removalvec removedups [] files).filter
            (fun f => decide (f.columns ≠ [])) := by
      rw [removeRuns_eq_specFiles, specFiles_eq_filter]
    refine ⟨?_, heq⟩
    intro f hf
    rw [heq] at hf
    simpa using (List.mem_filter.mp hf).2

/-- C17 at the Tab file of the spec's example, and at a run filter that removes the only
run of the first of two files. -/
theorem validated_columns_nonempty_witness :
    (InputFileData.mk "d/t.rnatab".toList FileType.Salmon
        [DataColumn.mk "runs1".toList 1, DataColumn.mk "runs2".toList 2]).columns ≠ [] ∧
    (_removeRuns [exRunX1, exRunX2] ["X".toList] false).1
      = [InputFileData.mk "d/x2.rnatab".toList FileType.Tab [DataColumn.mk "Y".toList 1]] :=
  ⟨validated_columns_nonempty.2.1 exFsHeaders
      (InputFileData.mk "d/t.rnatab".toList FileType.Salmon []) 2 _ rfl (by decide),
    ((validated_columns_nonempty.2.2 [exRunX1, exRunX2] ["X".toList] false).2).trans
      (by decide)⟩

theorem removeColumns_runsum (removedups : Bool) :
    ∀ (cols : List DataColumn) (w : ColumnWalk),
      (removeColumns removedups cols w).runsum + w.newcolumns.length
        = w.runsum + (removeColumns removedups cols w).newcolumns.length := by
  intro cols
  induction cols with
  | nil => intro w; simp [removeColumns, Nat.add_comm]
  | cons col rest ih =>
    intro w
    rw [removeColumns]
    split
    · have := ih (ColumnWalk.mk (if removedups = true then col.runname :: w.removals
        else w.removals) (w.newcolumns ++ [col]) (w.runsum + 1))
      simp only [List.length_append, List.length_singleton] at this
      omega
    · exact ih w

theorem removeFiles_runsum (removedups : Bool) :
    ∀ (files : List InputFileData) (w : FileWalk),
      (removeFiles removedups files w).runsum + totalColumns w.newfiles
        = w.runsum + totalColumns (removeFiles removedups files w).newfiles := by
  intro files
  induction files with
  | nil => intro w; simp [removeFiles, Nat.add_comm]
  | cons file rest ih =>
    intro w
    have hc := removeColumns_runsum removedups file.columns
      (ColumnWalk.mk w.removals [] w.runsum)
    simp only [List.length_nil, Nat.add_zero] at hc
    rw [removeFiles]
    split
    · have := ih (FileWalk.mk
        (removeColumns removedups file.columns (ColumnWalk.mk w.removals [] w.runsum)).removals
        (w.newfiles ++ [InputFileData.mk file.path file.filetype
          (removeColumns removedups file.columns
            (ColumnWalk.mk w.removals [] w.runsum)).newcolumns])
        (removeColumns removedups file.columns (ColumnWalk.mk w.removals [] w.runsum)).runsum)
      simp only [totalColumns, List.map_append, List.sum_append, List.map_cons, List.map_nil,
        List.sum_cons, List.sum_nil, Nat.add_zero] at this ⊢
      omega
    · rename_i hz
      have hz0 : (removeColumns removedups file.columns
          (ColumnWalk.mk w.removals [] w.runsum)).newcolumns.length = 0 := by
        simpa using hz
      have := ih (FileWalk.mk
        (removeColumns removedups file.columns (ColumnWalk.mk w.removals [] w.runsum)).removals
        w.newfiles
        (removeColumns removedups file.columns (ColumnWalk.mk w.removals [] w.runsum)).runsum)
      simp only at this ⊢
      omega

theorem specColumns_dropped (removalvec : List Str) (removedups : Bool) :
    ∀ (cols : List DataColumn) (earlier : List Str),
      (specColumns removalvec removedups earlier cols).length
          + specDroppedIn removalvec removedups earlier cols = cols.length := by
  intro cols
  induction cols with
  | nil => intro earlier; simp [specColumns, specDroppedIn]
  | cons col rest ih =>
    intro earlier
    rw [specColumns, specDroppedIn]
    have := ih (earlier ++ [col.runname])
    split <;> simp only [List.length_cons] <;> omega

theorem specNarrow_dropped (removalvec : List Str) (removedups : Bool) :
    ∀ (files : List InputFileData) (earlier : List Str),
      totalColumns (specNarrow removalvec removedups earlier files)
          + specDropped removalvec removedups earlier files = totalColumns files := by
  intro files
  induction files with
  | nil => intro earlier; simp [specNarrow, specDropped, totalColumns]
  | cons file rest ih =>
    intro earlier
    have h1 := specColumns_dropped removalvec removedups file.columns earlier
    have h2 := ih (earlier ++ file.columns.map (fun c => c.runname))
    simp only [specNarrow, specDropped, totalColumns, List.map_cons, List.sum_cons] at h2 ⊢
    omega

theorem totalColumns_filter (files : List InputFileData) :
    totalColumns (files.filter (fun f => decide (f.columns ≠ []))) = totalColumns files := by
  induction files with
  | nil => rfl
  | cons f rest ih =>
    by_cases hnil : f.columns = []
    · rw [List.filter_cons, if_neg (by simp [hnil])]
      simp only [totalColumns, List.map_cons, List.sum_cons] at ih ⊢
      rw [ih, hnil]
      simp
    · rw [List.filter_cons, if_pos (by simp [hnil])]
      simp only [totalColumns, List.map_cons, List.sum_cons] at ih ⊢
      rw [ih]

/-- C18. For every file list, removal list and dedup flag, the number returned by
_removeRuns is the sum of the lengths of the column lists of the files it leaves in the
list, which is the original total number of columns minus the number of columns
dropped. -/
theorem removeRuns_count (files : List InputFileData) (removalvec : List Str)
    (removedups : Bool) :
    (_removeRuns files removalvec removedups).2
        = totalColumns (_removeRuns files removalvec removedups).1 ∧
    (_removeRuns files removalvec removedups).2
        = totalColumns files - specDropped removalvec removedups [] files ∧
    specDropped removalvec removedups [] files ≤ totalColumns files := by
  have h1 : (_removeRuns files removalvec removedups).2
      = totalColumns (_removeRuns files removalvec removedups).1 := by
    have := removeFiles_runsum removedups files (FileWalk.mk (removalSet removalvec []) [] 0)
    simp only [totalColumns, List.map_nil, List.sum_nil, Nat.add_zero, Nat.zero_add] at this
    simpa [_removeRuns, totalColumns] using this
  have h2 : totalColumns (_removeRuns files removalvec removedups).1
      = totalColumns (specNarrow removalvec removedups [] files) := by
    rw [removeRuns_eq_specFiles, specFiles_eq_filter, totalColumns_filter]
  have h3 := specNarrow_dropped removalvec removedups files []
  refine ⟨h1, ?_, ?_⟩
  · rw [h1, h2]
    omega
  · omega

/-! ## The batches of _mergeFiles -/

theorem fillBatch_past_end (infiles : List InputFileData) (e : Nat)
    (hlen : infiles.length ≤ e + 1) :
    ∀ (fuel s : Nat) (fb : List InputFileData), s ≤ e →
      fillBatch infiles (e : Int) fuel s fb = Except.error MergeError.badIterator := by
  intro fuel
  induction fuel with
  | zero => intro s fb _; rfl
  | succ f ih =>
    intro s fb hs
    rw [fillBatch, if_pos (by exact_mod_cast hs)]
    cases hget : infiles[s + 1]? with
    | none => rfl
    | some file =>
      have hlt : s + 1 < infiles.length := (List.getElem?_eq_some_iff.mp hget).1
      exact ih (s + 1) _ (by omega)

theorem fillBatch_inside (infiles : List InputFileData) (e : Nat)
    (hlen : e + 1 < infiles.length) :
    ∀ (fuel s : Nat) (fb : List InputFileData), s ≤ e + 1 → e + 1 - s < fuel →
      fillBatch infiles (e : Int) fuel s fb
        = Except.ok (fb ++ (infiles.drop (s + 1)).take (e + 1 - s)) := by
  intro fuel
  induction fuel with
  | zero => intro s fb _ h; omega
  | succ f ih =>
    intro s fb hs hf
    rw [fillBatch]
    by_cases hle : s ≤ e
    · have hlt : s + 1 < infiles.length := by omega
      rw [if_pos (by exact_mod_cast hle)]
      simp only [List.getElem?_eq_getElem hlt]
      rw [ih (s + 1) _ (by omega) (by omega)]
      have hsub : e + 1 - s = (e + 1 - (s + 1)) + 1 := by omega
      rw [hsub, List.drop_eq_getElem_cons hlt, List.take_succ_cons]
      simp [List.append_assoc]
    · have hz : e + 1 - s = 0 := by omega
      rw [if_neg (by exact_mod_cast hle), hz]
      simp

theorem filebatch_first_past_end (maxOpen : Nat) (infiles : List InputFileData) (batches : Nat)
    (hC : 1 ≤ maxOpen) (hb : 2 ≤ batches) (hN : infiles.length ≤ maxOpen) :
    filebatch maxOpen infiles batches 0 = Except.error MergeError.badIterator := by
  have hlt : ((0 : Nat) : Int) < (batches : Int) - 1 := by omega
  have hend : (((0 + 1) * maxOpen : Nat) : Int) - 1 = ((maxOpen - 1 : Nat) : Int) := by
    simp only [Nat.zero_add, Nat.one_mul]
    omega
  unfold filebatch
  simp only [hlt, if_true, hend, Nat.zero_mul]
  exact fillBatch_past_end infiles (maxOpen - 1) (by omega) _ 0 [] (by omega)

theorem filebatch_first_inside (maxOpen : Nat) (infiles : List InputFileData) (batches : Nat)
    (hC : 1 ≤ maxOpen) (hb : 2 ≤ batches) (hN : maxOpen < infiles.length) :
    filebatch maxOpen infiles batches 0 = Except.ok ((infiles.drop 1).take maxOpen) := by
  have hlt : ((0 : Nat) : Int) < (batches : Int) - 1 := by omega
  have hend : (((0 + 1) * maxOpen : Nat) : Int) - 1 = ((maxOpen - 1 : Nat) : Int) := by
    simp only [Nat.zero_add, Nat.one_mul]
    omega
  unfold filebatch
  simp only [hlt, if_true, hend, Nat.zero_mul]
  rw [fillBatch_inside infiles (maxOpen - 1) (by omega) _ 0 [] (by omega) (by omega)]
  have : maxOpen - 1 + 1 - 0 = maxOpen := by omega
  simp [this]

theorem batchCount_gt_one (maxOpen numfiles : Nat) (hC : 1 ≤ maxOpen) :
    batchCount maxOpen numfiles > 1 ↔ maxOpen ≤ numfiles := by
  unfold batchCount
  constructor
  · intro h
    by_contra hlt
    have : numfiles / maxOpen = 0 := Nat.div_eq_of_lt (by omega)
    omega
  · intro h
    have : 0 < numfiles / maxOpen := Nat.div_pos h (by omega)
    omega

theorem mergeFiles_succ (maxOpen depth : Nat) (fs : FileSystem) (infiles : List InputFileData)
    (outfile : Str) (overwrite : Bool) (filetype : FileType) (specialmode : RunnerOutput) :
    _mergeFiles maxOpen (depth + 1) fs infiles outfile overwrite filetype specialmode
      = match premergeFailure maxOpen fs infiles outfile overwrite with
        | some e => MergeRun.mk [] (MergeStatus.abort e)
        | Option.none =>
          batching maxOpen depth fs infiles outfile overwrite filetype specialmode := by
  rw [_mergeFiles]
  unfold premergeFailure batching
  simp only
  split
  · rfl
  · split
    · rfl
    · split
      · rfl
      · split
        · rfl
        · rfl

theorem batchLoop_first_past_end (recurse : FileSystem → List InputFileData → Str → MergeRun)
    (maxOpen : Nat) (infiles : List InputFileData) (outfile : Str) (batches : Nat)
    (st : BatchLoopState) (hC : 1 ≤ maxOpen) (hb : 2 ≤ batches)
    (hN : infiles.length ≤ maxOpen) :
    batchLoop recurse maxOpen infiles outfile batches batches 0 st
      = Except.error (MergeRun.mk st.calls (MergeStatus.abort MergeError.badIterator)) := by
  have hf := filebatch_first_past_end maxOpen infiles batches hC hb hN
  cases batches with
  | zero => omega
  | succ k =>
    rw [batchLoop]
    simp only [hf]

theorem batchLoop_first_stops (recurse : FileSystem → List InputFileData → Str → MergeRun)
    (maxOpen : Nat) (infiles : List InputFileData) (outfile : Str) (batches : Nat)
    (st : BatchLoopState) (s : MergeStatus) (hC : 1 ≤ maxOpen) (hb : 2 ≤ batches)
    (hN : maxOpen < infiles.length)
    (hrun : recurse st.fs ((infiles.drop 1).take maxOpen) (batchfile outfile 0)
      = MergeRun.mk [] s)
    (hs : ∀ fs1, s ≠ MergeStatus.done fs1) :
    batchLoop recurse maxOpen infiles outfile batches batches 0 st
      = Except.error (MergeRun.mk st.calls s) := by
  have hf := filebatch_first_inside maxOpen infiles batches hC hb hN
  cases batches with
  | zero => omega
  | succ k =>
    rw [batchLoop]
    simp only [hf, hrun]
    cases s with
    | done fs1 => exact absurd rfl (hs fs1)
    | abort e => simp
    | diverges => simp
    | outOfFuel => simp

/-- A list of exactly as many files as the ceiling is split again, and the split stops
the program. -/
theorem mergeFiles_exact (maxOpen depth : Nat) (fs : FileSystem) (fb : List InputFileData)
    (outfile : Str) (overwrite : Bool) (filetype : FileType) (specialmode : RunnerOutput)
    (hC : 1 ≤ maxOpen) (hlen : fb.length = maxOpen) :
    ∃ e, _mergeFiles maxOpen (depth + 1) fs fb outfile overwrite filetype specialmode
        = MergeRun.mk [] (MergeStatus.abort e) := by
  rw [mergeFiles_succ]
  cases premergeFailure maxOpen fs fb outfile overwrite with
  | some e => exact ⟨e, rfl⟩
  | none =>
    have hgt : batchCount maxOpen fb.length > 1 :=
      (batchCount_gt_one maxOpen fb.length hC).mpr (by omega)
    simp only [batching, hgt, if_true]
    rw [batchLoop_first_past_end _ maxOpen fb outfile _ _ hC hgt (by omega)]
    exact ⟨MergeError.badIterator, rfl⟩

/-- With at least as many files as the ceiling, _mergeFiles makes no call of
_mergeFilesBatch and does not complete; with a bound of 2 or more on the depth of the
recursion it stops on a failure. -/
theorem mergeFiles_multi (maxOpen depth : Nat) (fs : FileSystem) (infiles : List InputFileData)
    (outfile : Str) (overwrite : Bool) (filetype : FileType) (specialmode : RunnerOutput)
    (hC : 1 ≤ maxOpen) (hN : maxOpen ≤ infiles.length) :
    ∃ s, _mergeFiles maxOpen depth fs infiles outfile overwrite filetype specialmode
        = MergeRun.mk [] s ∧
      (∀ fs1, s ≠ MergeStatus.done fs1) ∧ (2 ≤ depth → ∃ e, s = MergeStatus.abort e) := by
  cases depth with
  | zero => exact ⟨MergeStatus.outOfFuel, rfl, by simp, by omega⟩
  | succ d =>
    rw [mergeFiles_succ]
    cases premergeFailure maxOpen fs infiles outfile overwrite with
    | some e => exact ⟨MergeStatus.abort e, rfl, by simp, fun _ => ⟨e, rfl⟩⟩
    | none =>
      have hgt : batchCount maxOpen infiles.length > 1 :=
        (batchCount_gt_one maxOpen infiles.length hC).mpr hN
      simp only [batching, hgt, if_true]
      by_cases heq : infiles.length ≤ maxOpen
      · rw [batchLoop_first_past_end _ maxOpen infiles outfile _ _ hC hgt heq]
        exact ⟨_, rfl, by simp, fun _ => ⟨_, rfl⟩⟩
      · have hlen : ((infiles.drop 1).take maxOpen).length = maxOpen := by
          simp only [List.length_take, List.length_drop]
          omega
        cases d with
        | zero =>
          rw [batchLoop_first_stops _ maxOpen infiles outfile _ _ MergeStatus.outOfFuel hC hgt
            (by omega) rfl (by simp)]
          exact ⟨_, rfl, by simp, by omega⟩
        | succ d1 =>
          obtain ⟨e, he⟩ := mergeFiles_exact maxOpen d1 fs ((infiles.drop 1).take maxOpen)
            (batchfile outfile 0) overwrite filetype specialmode hC hlen
          rw [batchLoop_first_stops _ maxOpen infiles outfile _ _ (MergeStatus.abort e) hC hgt
            (by omega) he (by simp)]
          exact ⟨_, rfl, by simp, fun _ => ⟨e, rfl⟩⟩

theorem premergeFailure_none_pos (maxOpen : Nat) (fs : FileSystem)
    (infiles : List InputFileData) (outfile : Str) (overwrite : Bool)
    (h : premergeFailure maxOpen fs infiles outfile overwrite = Option.none) :
    1 ≤ maxOpen ∧ 1 ≤ infiles.length := by
  unfold premergeFailure at h
  split at h
  · simp at h
  · split at h
    · simp at h
    · rename_i h1 h2
      refine ⟨?_, by omega⟩
      by_contra hC
      have : maxOpen = 0 := by omega
      subst this
      have h3 : ¬ infiles.length > 0 := by simpa using h2
      omega

/-- The calls of _mergeFilesBatch made by a run of _mergeFiles: none, or one call on the
whole list, with the real output path and the requested mode, when the list has fewer
files than the ceiling. -/
theorem mergeFiles_calls (maxOpen depth : Nat) (fs : FileSystem) (infiles : List InputFileData)
    (outfile : Str) (overwrite : Bool) (filetype : FileType) (specialmode : RunnerOutput) :
    (_mergeFiles maxOpen depth fs infiles outfile overwrite filetype specialmode).calls = [] ∨
    ((_mergeFiles maxOpen depth fs infiles outfile overwrite filetype specialmode).calls
        = [BatchCall.mk infiles outfile specialmode] ∧
      infiles.length < maxOpen) := by
  cases depth with
  | zero => exact Or.inl rfl
  | succ d =>
    cases hp : premergeFailure maxOpen fs infiles outfile overwrite with
    | some e =>
      rw [mergeFiles_succ, hp]
      exact Or.inl rfl
    | none =>
      obtain ⟨hC, _⟩ := premergeFailure_none_pos maxOpen fs infiles outfile overwrite hp
      by_cases hN : maxOpen ≤ infiles.length
      · obtain ⟨s, hs, _⟩ := mergeFiles_multi maxOpen (d + 1) fs infiles outfile overwrite
          filetype specialmode hC hN
        rw [hs]
        exact Or.inl rfl
      · have hgt : ¬ batchCount maxOpen infiles.length > 1 :=
          fun h => hN ((batchCount_gt_one maxOpen infiles.length hC).mp h)
        rw [mergeFiles_succ, hp]
        simp only [batching, hgt, if_false, batchRun, List.nil_append]
        exact Or.inr ⟨trivial, by omega⟩

/-! ## The pre-merge checks and the calls of _mergeFilesBatch -/

/-- C11. The header line of a batch made of the Salmon file d/b.sf: the stem of the path is
b, and the cell written for the file is that stem between double quotes, not the stem
alone. -/
theorem header_salmon_cell_quoted :
    stem "d/b.sf".toList = "b".toList ∧
    _mergeFilesBatch exFs [exSalmon] "o".toList FileType.Either RunnerOutput.normal
      = BatchResult.done "RNA-see TPM data file\t\"b\"\ng1\t7.5\ng2\t8.5\n".toList
          (exFs.write "o".toList "RNA-see TPM data file\t\"b\"\ng1\t7.5\ng2\t8.5\n".toList) := by
  decide

/-- C15. With a ceiling of 2 and the three files a, b, c, whatever the requested mode, no
batch is merged into a temporary file, in the normal mode or in any other: the run
makes no call of _mergeFilesBatch and stops while the recursive call on the first batch
fills a batch of its own. -/
theorem batches_not_merged (depth : Nat) (specialmode : RunnerOutput) :
    _mergeFiles 2 (depth + 2) exFs [exTab, exSalmon, exTab3] "o".toList false FileType.Either
        specialmode
      = MergeRun.mk [] (MergeStatus.abort MergeError.badIterator) := by
  cases specialmode <;> rfl

/-- C20. With a ceiling of 2 and the three files a, b, c, the first batch is b, c; the
recursive call on it counts two batches for these two files, so that it does not take
the single-batch branch: it makes no call of _mergeFilesBatch and stops while it fills
its first batch. -/
theorem recursion_splits_full_batch (depth : Nat) :
    filebatch 2 [exTab, exSalmon, exTab3] (batchCount 2 3) 0 = Except.ok [exSalmon, exTab3] ∧
    batchCount 2 [exSalmon, exTab3].length = 2 ∧
    _mergeFiles 2 (depth + 1) exFs [exSalmon, exTab3] (batchfile "o".toList 0) false
        FileType.Either RunnerOutput.normal
      = MergeRun.mk [] (MergeStatus.abort MergeError.badIterator) :=
  ⟨rfl, rfl, rfl⟩

/-! ## The pieces of a split line -/

theorem splitLoop_cons (d c : Char) (rest cur : Str) (tokens : List Str) :
    splitLoop d (c :: rest) cur tokens
      = if c = d then splitLoop d rest [] (tokens ++ [cur])
        else splitLoop d rest (cur ++ [c]) tokens := by
  rw [splitLoop]

theorem splitLoop_append (d : Char) (s cur : Str) (tokens : List Str) :
    splitLoop d s cur tokens = tokens ++ splitLoop d s cur [] := by
  induction s generalizing cur tokens with
  | nil => simp [splitLoop]
  | cons c rest ih =>
    unfold splitLoop
    split
    · rw [ih [] (tokens ++ [cur]), ih [] ([] ++ [cur])]
      simp
    · exact ih _ _

theorem splitLoop_free (d : Char) (t cur : Str) (h : d ∉ t) :
    splitLoop d t cur [] = [cur ++ t] := by
  induction t generalizing cur with
  | nil => simp [splitLoop]
  | cons c rest ih =>
    have hc : c ≠ d := fun e => h (by simp [e])
    have hr : d ∉ rest := fun e => h (List.mem_cons_of_mem _ e)
    unfold splitLoop
    rw [if_neg hc, ih (cur ++ [c]) hr]
    simp

theorem splitLoop_piece (d : Char) (t r cur : Str) (h : d ∉ t) :
    splitLoop d (t ++ d :: r) cur [] = (cur ++ t) :: splitLoop d r [] [] := by
  induction t generalizing cur with
  | nil =>
    simp only [List.nil_append, List.append_nil]
    rw [splitLoop_cons, if_pos rfl, splitLoop_append]
    simp
  | cons c rest ih =>
    have hc : c ≠ d := fun e => h (by simp [e])
    have hr : d ∉ rest := fun e => h (List.mem_cons_of_mem _ e)
    rw [List.cons_append, splitLoop_cons, if_neg hc, ih (cur ++ [c]) hr]
    simp

theorem intercalate_cons_cons (d : Char) (x y : Str) (ys : List Str) :
    List.intercalate [d] (x :: y :: ys) = x ++ d :: List.intercalate [d] (y :: ys) := by
  simp [List.intercalate, List.intersperse]

theorem splitLoop_join (d : Char) (s cur : Str) :
    List.intercalate [d] (splitLoop d s cur []) = cur ++ s := by
  induction s generalizing cur with
  | nil => simp [splitLoop, List.intercalate, List.intersperse]
  | cons c rest ih =>
    unfold splitLoop
    split
    · rename_i hc
      rw [splitLoop_append]
      cases hX : splitLoop d rest [] [] with
      | nil => exact absurd hX (splitLoop_ne_nil d rest [] [])
      | cons y ys =>
        have h := ih []
        rw [hX] at h
        simp only [List.nil_append, List.singleton_append]
        rw [intercalate_cons_cons, h, hc]
        simp
    · rw [ih (cur ++ [c])]
      simp

theorem splitLoop_tokens_free (d : Char) (s cur : Str) (hcur : d ∉ cur) :
    ∀ t ∈ splitLoop d s cur [], d ∉ t := by
  induction s generalizing cur with
  | nil =>
    intro t ht
    simp [splitLoop] at ht
    rw [ht]
    exact hcur
  | cons c rest ih =>
    unfold splitLoop
    split
    · intro t ht
      rw [splitLoop_append] at ht
      simp only [List.nil_append, List.singleton_append, List.mem_cons] at ht
      rcases ht with ht | ht
      · rw [ht]
        exact hcur
      · exact ih [] (by simp) t ht
    · rename_i hc
      apply ih
      intro hm
      rcases List.mem_append.mp hm with hm | hm
      · exact hcur hm
      · simp at hm
        exact hc hm.symm

theorem splitLoop_length (d : Char) (s cur : Str) :
    (splitLoop d s cur []).length = s.count d + 1 := by
  induction s generalizing cur with
  | nil => simp [splitLoop]
  | cons c rest ih =>
    unfold splitLoop
    split
    · rename_i hc
      rw [splitLoop_append, List.length_append, ih [], hc]
      simp
      omega
    · rename_i hc
      rw [ih (cur ++ [c]), List.count_cons_of_ne (Ne.symm hc)]

theorem splitLoop_unique (d : Char) :
    ∀ (ts : List Str) (s : Str), ts ≠ [] → (∀ t ∈ ts, d ∉ t) →
      List.intercalate [d] ts = s → ts = splitLoop d s [] [] := by
  intro ts
  induction ts with
  | nil => intro s h; exact absurd rfl h
  | cons t rest ih =>
    intro s _ hfree hjoin
    have ht : d ∉ t := hfree t (List.mem_cons_self _ _)
    cases rest with
    | nil =>
      have hs : s = t := by
        rw [← hjoin]
        simp [List.intercalate, List.intersperse]
      rw [hs, splitLoop_free d t [] ht]
      simp
    | cons y ys =>
      rw [intercalate_cons_cons] at hjoin
      have hrest := ih (List.intercalate [d] (y :: ys)) (by simp)
        (fun u hu => hfree u (List.mem_cons_of_mem _ hu)) rfl
      rw [← hjoin, splitLoop_piece d t _ [] ht, ← hrest]
      simp

/-- C22. For every string, delimiter, prior content of the token vector and size hint,
splitLineOnChar leaves exactly the maximal delimiter-free pieces of the string: the tokens
joined with the delimiter give back the string, no token contains the delimiter, the
number of tokens is one more than the number of delimiters in the string, the result is
never empty, the empty string gives one empty token, and any non-empty list of
delimiter-free strings whose join is the string is the result. -/
theorem splitLineOnChar_pieces (s : Str) (d : Char) (tokens : List Str) (sizehint : Nat) :
    List.intercalate [d] (splitLineOnChar s d tokens sizehint) = s ∧
    (∀ t ∈ splitLineOnChar s d tokens sizehint, d ∉ t) ∧
    (splitLineOnChar s d tokens sizehint).length = s.count d + 1 ∧
    splitLineOnChar s d tokens sizehint ≠ [] ∧
    splitLineOnChar [] d tokens sizehint = [[]] ∧
    (∀ ts : List Str, ts ≠ [] → (∀ t ∈ ts, d ∉ t) → List.intercalate [d] ts = s →
      ts = splitLineOnChar s d tokens sizehint) := by
  have hdef : ∀ u : Str, splitLineOnChar u d tokens sizehint = splitLoop d u [] [] := by
    intro u
    simp [splitLineOnChar]
  rw [hdef s, hdef []]
  refine ⟨?_, ?_, ?_, ?_, ?_, ?_⟩
  · simpa using splitLoop_join d s []
  · exact splitLoop_tokens_free d s [] (by simp)
  · exact splitLoop_length d s []
  · exact splitLoop_ne_nil d s [] []
  · simp [splitLoop]
  · intro ts hne hfree hjoin
    exact splitLoop_unique d ts s hne hfree hjoin

/-- C22 at the line "a", tab, tab, "b" and a token vector that held one string before:
the tokens are "a", the empty string and "b", and "a" holds no tab. -/
theorem splitLineOnChar_pieces_witness :
    ["a".toList, [], "b".toList] = splitLineOnChar "a\t\tb".toList '\t' ["junk".toList] 3 ∧
    '\t' ∉ "a".toList ∧
    (splitLineOnChar "a\t\tb".toList '\t' ["junk".toList] 3).length = 3 :=
  ⟨(splitLineOnChar_pieces "a\t\tb".toList '\t' ["junk".toList] 3).2.2.2.2.2
      ["a".toList, [], "b".toList] (by decide) (by decide) (by decide),
    (splitLineOnChar_pieces "a\t\tb".toList '\t' ["junk".toList] 3).2.1 "a".toList (by decide),
    (splitLineOnChar_pieces "a\t\tb".toList '\t' ["junk".toList] 3).2.2.1⟩

/-! ## The row-length guard of a Tab file -/

theorem tabCells_normal_missing (header : Bool) (split : List Str) :
    ∀ (cols : List DataColumn) (out : Str),
      (∃ c ∈ cols, split[c.colnum]? = Option.none) →
      ∃ o, tabCells RunnerOutput.normal header split cols out
        = Except.error (MergeError.outOfRange, o) := by
  intro cols
  induction cols with
  | nil => intro out h; obtain ⟨c, hc, _⟩ := h; simp at hc
  | cons c cs ih =>
    intro out h
    rw [tabCells]
    simp only [ne_eq, reduceCtorEq, not_false_eq_true, and_self, if_true, if_false]
    cases hget : split[c.colnum]? with
    | none => exact ⟨_, rfl⟩
    | some cell =>
      simp only
      apply ih
      obtain ⟨x, hx, hnone⟩ := h
      rcases List.mem_cons.mp hx with hx | hx
      · rw [hx, hget] at hnone
        cases hnone
      · exact ⟨x, hx, hnone⟩

/-- C21. For every Tab file with a last retained column, and every line split into exactly
as many fields as the colnum of that column: the row-length guard lets the line through
(the number of fields is not less than the colnum), the colnum of the last column is not
an index of the split line, and in the normal mode the copy of the cells stops on the
out-of-range access. -/
theorem guard_admits_short_row (file : InputFileData) (last : DataColumn) (split : List Str)
    (header : Bool) (out : Str) (hT : file.filetype = FileType.Tab)
    (hlast : file.columns.getLast? = some last) (hlen : split.length = last.colnum) :
    ¬ (split.length < last.colnum) ∧
    split[last.colnum]? = Option.none ∧
    ∃ o, copyCells RunnerOutput.normal header file split out
      = Except.error (MergeError.outOfRange, o) := by
  have hnone : split[last.colnum]? = Option.none :=
    List.getElem?_eq_none (Nat.le_of_eq hlen)
  refine ⟨by omega, hnone, ?_⟩
  unfold copyCells
  rw [hT]
  simp only [hlast]
  rw [if_neg (by omega)]
  have hne : file.columns ≠ [] := by
    intro hnil
    rw [hnil] at hlast
    simp at hlast
  obtain ⟨x, hx, hmem⟩ := getLast?_mem_of_ne_nil file.columns hne
  rw [hlast] at hx
  cases hx
  exact tabCells_normal_missing header split file.columns out ⟨last, hmem, hnone⟩

/-- C21 at the file d/c.rnatab with the header "RNA-see TPM data file", "r3" and the data
row "g1": _checkFiles accepts the file with the column r3 at index 1, _removeRuns with
nothing to remove keeps it, the row "g1" has one field and passes the guard, and the
merge in normal mode stops on the out-of-range access after the tab of the cell. -/
theorem guard_admits_short_row_witness :
    _checkFiles exFsBareRow ["d/c.rnatab".toList] [] FileType.Either
      = Except.ok (1, [exTab3]) ∧
    _removeRuns [exTab3] [] false = ([exTab3], 1) ∧
    (¬ ((splitLineOnTabs "g1".toList [] 1).length < 1) ∧
      (splitLineOnTabs "g1".toList [] 1)[1]? = Option.none ∧
      ∃ o, copyCells RunnerOutput.normal false exTab3 (splitLineOnTabs "g1".toList [] 1)
          "RNA-see TPM data file\tr3\ng1".toList
        = Except.error (MergeError.outOfRange, o)) ∧
    _mergeFilesBatch exFsBareRow [exTab3] "o".toList FileType.Either RunnerOutput.normal
      = BatchResult.abort MergeError.outOfRange "RNA-see TPM data file\tr3\ng1\t".toList :=
  ⟨rfl, by decide,
    guard_admits_short_row exTab3 (DataColumn.mk "r3".toList 1)
      (splitLineOnTabs "g1".toList [] 1) false "RNA-see TPM data file\tr3\ng1".toList
      rfl rfl rfl,
    by decide⟩

/-! ## A gene mismatch, from the start of the merge -/

theorem SameLine.refl (out : Str) : SameLine out out :=
  ⟨[], by simp, by simp⟩

theorem SameLine.trans {a b c : Str} (h1 : SameLine a b) (h2 : SameLine b c) : SameLine a c := by
  obtain ⟨w1, rfl, hw1⟩ := h1
  obtain ⟨w2, rfl, hw2⟩ := h2
  refine ⟨w1 ++ w2, by simp, ?_⟩
  intro hm
  rcases List.mem_append.mp hm with hm | hm
  · exact hw1 hm
  · exact hw2 hm

theorem SameLine.add (out w : Str) (hw : '\n' ∉ w) : SameLine out (out ++ w) :=
  ⟨w, rfl, hw⟩

theorem splitLoop_chars (d : Char) (s cur : Str) :
    ∀ t ∈ splitLoop d s cur [], ∀ c ∈ t, c ∈ cur ∨ c ∈ s := by
  induction s generalizing cur with
  | nil =>
    intro t ht c hc
    simp [splitLoop] at ht
    subst ht
    exact Or.inl hc
  | cons x rest ih =>
    intro t ht c hc
    rw [splitLoop_cons] at ht
    split at ht
    · rw [splitLoop_append] at ht
      simp only [List.nil_append, List.singleton_append, List.mem_cons] at ht
      rcases ht with ht | ht
      · subst ht
        exact Or.inl hc
      · rcases ih [] t ht c hc with h | h
        · simp at h
        · exact Or.inr (List.mem_cons_of_mem _ h)
    · rcases ih (cur ++ [x]) t ht c hc with h | h
      · rcases List.mem_append.mp h with h | h
        · exact Or.inl h
        · simp at h
          subst h
          exact Or.inr (List.mem_cons_self _ _)
      · exact Or.inr (List.mem_cons_of_mem _ h)

theorem fields_clean (line : Str) (h : '\n' ∉ line) : ∀ t ∈ fields line, '\n' ∉ t := by
  intro t ht hc
  have ht1 : t ∈ splitLoop '\t' line [] [] := by
    simpa [fields, splitLineOnTabs, splitLineOnChar] using ht
  rcases splitLoop_chars '\t' line [] t ht1 '\n' hc with h1 | h1
  · simp at h1
  · exact h h1

theorem getlinesLoop_clean (s cur : Str) (hcur : '\n' ∉ cur) :
    ∀ l ∈ getlinesLoop s cur, '\n' ∉ l := by
  induction s generalizing cur with
  | nil =>
    intro l hl
    rw [getlinesLoop] at hl
    split at hl
    · simp at hl
    · simp at hl
      subst hl
      exact hcur
  | cons c rest ih =>
    intro l hl
    rw [getlinesLoop] at hl
    split at hl
    · rcases List.mem_cons.mp hl with hl | hl
      · subst hl
        exact hcur
      · exact ih [] (by simp) l hl
    · rename_i hc
      apply ih (cur ++ [c]) _ l hl
      intro hm
      rcases List.mem_append.mp hm with hm | hm
      · exact hcur hm
      · simp at hm
        exact hc hm.symm

theorem batchReaders_clean (fs : FileSystem) (outFilePath : Str) (specialmode : RunnerOutput)
    (batch : List InputFileData) :
    ∀ r ∈ batchReaders fs outFilePath specialmode batch, ∀ l ∈ r.lines, '\n' ∉ l := by
  intro r hr
  obtain ⟨f, _, rfl⟩ := List.mem_map.mp hr
  exact getlinesLoop_clean _ [] (by simp)

theorem geneStep_sameLine (specialmode : RunnerOutput) (first : Bool) (g : Str)
    (file : InputFileData) (split : List Str) (out : Str) (hs : ∀ t ∈ split, '\n' ∉ t) :
    (∀ g1 o1, geneStep specialmode false first g file split out = Except.ok (g1, o1) →
      SameLine out o1) ∧
    (∀ e o1, geneStep specialmode false first g file split out = Except.error (e, o1) →
      SameLine out o1) := by
  unfold geneStep
  simp only [Bool.false_eq_true, if_false]
  cases h0 : split[0]? with
  | none =>
    refine ⟨fun g1 o1 h => by simp at h, fun e o1 h => ?_⟩
    simp only [Except.error.injEq, Prod.mk.injEq] at h
    rw [← h.2]
    exact SameLine.refl out
  | some g0 =>
    have hg0 : '\n' ∉ g0 := hs g0 (List.getElem?_mem h0)
    simp only
    refine ⟨fun g1 o1 h => ?_, fun e o1 h => ?_⟩
    · split at h
      · split at h
        · simp only [Except.ok.injEq, Prod.mk.injEq] at h
          rw [← h.2]
          exact SameLine.add out g0 hg0
        · simp only [Except.ok.injEq, Prod.mk.injEq] at h
          rw [← h.2]
          exact SameLine.refl out
      · split at h
        · simp at h
        · simp only [Except.ok.injEq, Prod.mk.injEq] at h
          rw [← h.2]
          exact SameLine.refl out
    · split at h
      · split at h <;> simp at h
      · split at h
        · simp only [Except.error.injEq, Prod.mk.injEq] at h
          rw [← h.2]
          exact SameLine.refl out
        · simp at h

theorem tabCells_sameLine (specialmode : RunnerOutput) (split : List Str)
    (hs : ∀ t ∈ split, '\n' ∉ t) :
    ∀ (cols : List DataColumn) (out : Str),
      (∀ o1, tabCells specialmode false split cols out = Except.ok o1 → SameLine out o1) ∧
      (∀ e o1, tabCells specialmode false split cols out = Except.error (e, o1) →
        SameLine out o1) := by
  intro cols
  induction cols with
  | nil =>
    intro out
    refine ⟨fun o1 h => ?_, fun e o1 h => by simp [tabCells] at h⟩
    simp only [tabCells, Except.ok.injEq] at h
    rw [← h]
    exact SameLine.refl out
  | cons c cs ih =>
    intro out
    rw [tabCells]
    simp only [Bool.false_eq_true, if_false]
    split
    · split
      · exact ih out
      · cases hget : split[c.colnum]? with
        | none =>
          refine ⟨fun o1 h => by simp at h, fun e o1 h => ?_⟩
          simp only [Except.error.injEq, Prod.mk.injEq] at h
          rw [← h.2]
          exact SameLine.add out ['\t'] (by decide)
        | some cell =>
          have hcell : '\n' ∉ cell := hs cell (List.getElem?_mem hget)
          have hstep : SameLine out (out ++ ['\t'] ++ cell) := by
            rw [List.append_assoc]
            apply SameLine.add
            intro hm
            rcases List.mem_append.mp hm with hm | hm
            · simp at hm
            · exact hcell hm
          simp only
          exact ⟨fun o1 h => hstep.trans ((ih _).1 o1 h),
            fun e o1 h => hstep.trans ((ih _).2 e o1 h)⟩
    · exact ih out

theorem salmonCells_sameLine (specialmode : RunnerOutput) (file : InputFileData)
    (split : List Str) (out : Str) (hs : ∀ t ∈ split, '\n' ∉ t) :
    (∀ o1, salmonCells specialmode false file split out = Except.ok o1 → SameLine out o1) ∧
    (∀ e o1, salmonCells specialmode false file split out = Except.error (e, o1) →
      SameLine out o1) := by
  unfold salmonCells
  simp only [Bool.false_eq_true, if_false]
  split
  · split
    · cases hget : split[3]? with
      | none =>
        refine ⟨fun o1 h => by simp at h, fun e o1 h => ?_⟩
        simp only [Except.error.injEq, Prod.mk.injEq] at h
        rw [← h.2]
        exact SameLine.add out ['\t'] (by decide)
      | some cell =>
        have hcell : '\n' ∉ cell := hs cell (List.getElem?_mem hget)
        refine ⟨fun o1 h => ?_, fun e o1 h => by simp at h⟩
        simp only [Except.ok.injEq] at h
        rw [← h, List.append_assoc]
        apply SameLine.add
        intro hm
        rcases List.mem_append.mp hm with hm | hm
        · simp at hm
        · exact hcell hm
    · refine ⟨fun o1 h => ?_, fun e o1 h => by simp at h⟩
      simp only [Except.ok.injEq] at h
      rw [← h]
      exact SameLine.refl out
  · refine ⟨fun o1 h => ?_, fun e o1 h => by simp at h⟩
    simp only [Except.ok.injEq] at h
    rw [← h]
    exact SameLine.refl out

theorem copyCells_sameLine (specialmode : RunnerOutput) (file : InputFileData)
    (split : List Str) (out : Str) (hs : ∀ t ∈ split, '\n' ∉ t) :
    (∀ o1, copyCells specialmode false file split out = Except.ok o1 → SameLine out o1) ∧
    (∀ e o1, copyCells specialmode false file split out = Except.error (e, o1) →
      SameLine out o1) := by
  unfold copyCells
  cases file.filetype with
  | Salmon => exact salmonCells_sameLine specialmode file split out hs
  | Tab =>
    simp only
    cases file.columns.getLast? with
    | none =>
      refine ⟨fun o1 h => by simp at h, fun e o1 h => ?_⟩
      simp only [Except.error.injEq, Prod.mk.injEq] at h
      rw [← h.2]
      exact SameLine.refl out
    | some last =>
      simp only
      split
      · refine ⟨fun o1 h => by simp at h, fun e o1 h => ?_⟩
        simp only [Except.error.injEq, Prod.mk.injEq] at h
        rw [← h.2]
        exact SameLine.refl out
      · exact tabCells_sameLine specialmode split hs file.columns out
  | Either =>
    refine ⟨fun o1 h => ?_, fun e o1 h => by simp at h⟩
    simp only [Except.ok.injEq] at h
    rw [← h]
    exact SameLine.refl out

theorem fileStep_sameLine (specialmode : RunnerOutput) (first : Bool) (g : Str)
    (file : InputFileData) (line out : Str) (hl : '\n' ∉ line) :
    (∀ g1 o1, fileStep specialmode false first g file line out = Except.ok (g1, o1) →
      SameLine out o1) ∧
    (∀ e o1, fileStep specialmode false first g file line out = Except.error (e, o1) →
      SameLine out o1) := by
  have hs := fields_clean line hl
  have hg := geneStep_sameLine specialmode first g file (fields line) out hs
  rw [fileStep_split]
  cases hgs : geneStep specialmode false first g file (fields line) out with
  | error p =>
    obtain ⟨e0, o0⟩ := p
    refine ⟨fun g1 o1 h => by simp at h, fun e o1 h => ?_⟩
    simp only [Except.error.injEq, Prod.mk.injEq] at h
    rw [← h.2]
    exact hg.2 e0 o0 hgs
  | ok p =>
    obtain ⟨g2, o2⟩ := p
    have h2 := hg.1 g2 o2 hgs
    have hc := copyCells_sameLine specialmode file (fields line) o2 hs
    simp only
    cases hcs : copyCells specialmode false file (fields line) o2 with
    | error q =>
      obtain ⟨e0, o0⟩ := q
      refine ⟨fun g1 o1 h => by simp at h, fun e o1 h => ?_⟩
      simp only [Except.error.injEq, Prod.mk.injEq] at h
      rw [← h.2]
      exact h2.trans (hc.2 e0 o0 hcs)
    | ok o3 =>
      refine ⟨fun g1 o1 h => ?_, fun e o1 h => by simp at h⟩
      simp only [Except.ok.injEq, Prod.mk.injEq] at h
      rw [← h.2]
      exact h2.trans (hc.1 o3 hcs)

theorem rowLoop_sameLine (specialmode : RunnerOutput) :
    ∀ (rs : List Reader) (first : Bool) (g : Str) (done : List Reader) (out : Str),
      (∀ r ∈ rs, ∀ l ∈ r.lines, '\n' ∉ l) →
      (∀ rs1 o1, rowLoop specialmode false first g rs done out = RowResult.row rs1 o1 →
        SameLine out o1) ∧
      (∀ e o1, rowLoop specialmode false first g rs done out = RowResult.abort e o1 →
        SameLine out o1) := by
  intro rs
  induction rs with
  | nil =>
    intro first g done out _
    refine ⟨fun rs1 o1 h => ?_, fun e o1 h => by simp [rowLoop] at h⟩
    simp only [rowLoop, RowResult.row.injEq] at h
    rw [← h.2]
    exact SameLine.refl out
  | cons r rest ih =>
    intro first g done out hclean
    have hrest : ∀ x ∈ rest, ∀ l ∈ x.lines, '\n' ∉ l :=
      fun x hx => hclean x (List.mem_cons_of_mem _ hx)
    rw [rowLoop]
    cases hl : r.lines with
    | nil =>
      simp only
      refine ⟨fun rs1 o1 h => ?_, fun e o1 h => ?_⟩
      · split at h <;> simp at h
      · split at h
        · simp only [RowResult.abort.injEq] at h
          rw [← h.2]
          exact SameLine.refl out
        · simp at h
    | cons line more =>
      have hline : '\n' ∉ line := hclean r (List.mem_cons_self _ _) line (by simp [hl])
      have hf := fileStep_sameLine specialmode first g r.file line out hline
      simp only
      cases hs : fileStep specialmode false first g r.file line out with
      | error p =>
        obtain ⟨e0, o0⟩ := p
        refine ⟨fun rs1 o1 h => by simp at h, fun e o1 h => ?_⟩
        simp only [RowResult.abort.injEq] at h
        rw [← h.2]
        exact hf.2 e0 o0 hs
      | ok p =>
        obtain ⟨g1, o0⟩ := p
        have h0 := hf.1 g1 o0 hs
        have hi := ih false g1 (done ++ [Reader.mk r.file more]) o0 hrest
        simp only
        exact ⟨fun rs1 o1 h => h0.trans (hi.1 rs1 o1 h), fun e o1 h => h0.trans (hi.2 e o1 h)⟩

theorem rowLoop_abort_append (specialmode : RunnerOutput) (header : Bool) (post : List Reader) :
    ∀ (pre : List Reader) (first : Bool) (g : Str) (done : List Reader) (out : Str)
      (e : MergeError) (o : Str),
      rowLoop specialmode header first g pre done out = RowResult.abort e o →
      rowLoop specialmode header first g (pre ++ post) done out = RowResult.abort e o := by
  intro pre
  induction pre with
  | nil => intro first g done out e o h; simp [rowLoop] at h
  | cons r rest ih =>
    intro first g done out e o h
    rw [List.cons_append, rowLoop]
    rw [rowLoop] at h
    cases hl : r.lines with
    | nil =>
      rw [hl] at h
      exact h
    | cons line more =>
      rw [hl] at h
      simp only at h ⊢
      cases hs : fileStep specialmode header first g r.file line out with
      | error p =>
        obtain ⟨e0, o0⟩ := p
        rw [hs] at h
        exact h
      | ok p =>
        obtain ⟨g1, o0⟩ := p
        rw [hs] at h
        exact ih false g1 _ o0 e o h

theorem rowLoop_no_eof (specialmode : RunnerOutput) (header : Bool) :
    ∀ (rs : List Reader) (first : Bool) (g : Str) (done : List Reader) (out o : Str),
      (∀ r ∈ rs, r.lines ≠ []) →
      rowLoop specialmode header first g rs done out ≠ RowResult.eof o := by
  intro rs
  induction rs with
  | nil => intro first g done out o _; simp [rowLoop]
  | cons r rest ih =>
    intro first g done out o hl
    have hr := hl r (List.mem_cons_self _ _)
    rw [rowLoop]
    cases hlines : r.lines with
    | nil => exact absurd hlines hr
    | cons line more =>
      simp only
      cases hs : fileStep specialmode header first g r.file line out with
      | error p =>
        obtain ⟨e0, o0⟩ := p
        simp
      | ok p =>
        obtain ⟨g1, o0⟩ := p
        exact ih false g1 _ o0 o (fun x hx => hl x (List.mem_cons_of_mem _ hx))

theorem rowsDone_succ (specialmode : RunnerOutput) (k : Nat) (header : Bool)
    (rs : List Reader) (out : Str) (rs2 : List Reader) (o2 : Str)
    (h : rowsDone specialmode (k + 1) header rs out = some (rs2, o2)) :
    ∃ rs1 o1 o, rowLoop specialmode header true [] rs [] out = RowResult.row rs1 o1 ∧
      rowsDone specialmode k false rs1 o = some (rs2, o2) ∧
      ∀ fuel, mergeLoop specialmode (fuel + 1) header rs out
        = mergeLoop specialmode fuel false rs1 o := by
  rw [rowsDone] at h
  cases hr : rowLoop specialmode header true [] rs [] out with
  | eof o => simp [hr] at h
  | abort e o => simp [hr] at h
  | row rs1 o1 =>
    simp only [hr] at h
    by_cases hc : (!header) = true ∨ specialmode = RunnerOutput.normal
    · rw [if_pos hc] at h
      refine ⟨rs1, o1, o1 ++ ['\n'], rfl, h, fun fuel => ?_⟩
      rw [mergeLoop, hr]
      simp only
      rw [if_pos hc]
    · rw [if_neg hc] at h
      refine ⟨rs1, o1, o1, rfl, h, fun fuel => ?_⟩
      rw [mergeLoop, hr]
      simp only
      rw [if_neg hc]

theorem rowsDone_clean (specialmode : RunnerOutput) :
    ∀ (k : Nat) (header : Bool) (rs : List Reader) (out : Str) (rs2 : List Reader) (o2 : Str),
      (∀ r ∈ rs, ∀ l ∈ r.lines, '\n' ∉ l) →
      rowsDone specialmode k header rs out = some (rs2, o2) →
      ∀ r ∈ rs2, ∀ l ∈ r.lines, '\n' ∉ l := by
  intro k
  induction k with
  | zero =>
    intro header rs out rs2 o2 hc h
    simp only [rowsDone, Option.some.injEq, Prod.mk.injEq] at h
    rw [← h.1]
    exact hc
  | succ k ih =>
    intro header rs out rs2 o2 hc h
    obtain ⟨rs1, o1, o, hrow, hrest, _⟩ := rowsDone_succ specialmode k header rs out rs2 o2 h
    obtain ⟨h1, _⟩ := rowLoop_row specialmode header rs true [] [] out rs1 o1 hrow
    simp only [List.nil_append] at h1
    apply ih false rs1 o rs2 o2 _ hrest
    intro r hr l hl
    rw [h1] at hr
    obtain ⟨x, hx, rfl⟩ := List.mem_map.mp hr
    exact hc x hx l (List.mem_of_mem_tail hl)

theorem rowsDone_bound (specialmode : RunnerOutput) :
    ∀ (k : Nat) (header : Bool) (rs : List Reader) (out : Str) (rs2 : List Reader) (o2 : Str),
      rowsDone specialmode k header rs out = some (rs2, o2) →
      rs2.length = rs.length ∧ (rs ≠ [] → loopBound rs = loopBound rs2 + k) := by
  intro k
  induction k with
  | zero =>
    intro header rs out rs2 o2 h
    simp only [rowsDone, Option.some.injEq, Prod.mk.injEq] at h
    rw [← h.1]
    exact ⟨rfl, fun _ => rfl⟩
  | succ k ih =>
    intro header rs out rs2 o2 h
    obtain ⟨rs1, o1, o, hrow, hrest, _⟩ := rowsDone_succ specialmode k header rs out rs2 o2 h
    obtain ⟨h1, h2⟩ := rowLoop_row specialmode header rs true [] [] out rs1 o1 hrow
    simp only [List.nil_append] at h1
    obtain ⟨hlen, hb⟩ := ih false rs1 o rs2 o2 hrest
    refine ⟨by rw [hlen, h1, List.length_map], fun hne => ?_⟩
    have hne1 : rs1 ≠ [] := by
      rw [h1]
      simpa using hne
    rw [← Nat.add_assoc, ← hb hne1, h1]
    cases rs with
    | nil => exact absurd rfl hne
    | cons r rest =>
      have hpos : 0 < r.lines.length := List.length_pos.mpr (h2 r (List.mem_cons_self _ _))
      simp only [loopBound, List.map_cons, advance, List.length_tail]
      omega

theorem mergeLoop_rowsDone (specialmode : RunnerOutput) (fuel : Nat) :
    ∀ (k : Nat) (header : Bool) (rs : List Reader) (out : Str) (rs2 : List Reader) (o2 : Str),
      rowsDone specialmode (k + 1) header rs out = some (rs2, o2) →
      mergeLoop specialmode (fuel + (k + 1)) header rs out
        = mergeLoop specialmode fuel false rs2 o2 := by
  intro k
  induction k with
  | zero =>
    intro header rs out rs2 o2 h
    obtain ⟨rs1, o1, o, _, hrest, hm⟩ := rowsDone_succ specialmode 0 header rs out rs2 o2 h
    simp only [rowsDone, Option.some.injEq, Prod.mk.injEq] at hrest
    rw [hm fuel, hrest.1, hrest.2]
  | succ k ih =>
    intro header rs out rs2 o2 h
    obtain ⟨rs1, o1, o, _, hrest, hm⟩ :=
      rowsDone_succ specialmode (k + 1) header rs out rs2 o2 h
    rw [← Nat.add_assoc, hm (fuel + (k + 1)), ih false rs1 o rs2 o2 hrest]

/-- The data row in which a file other than the first has another gene name than the
first file: the row stops the program, and the failure and the output are those of the
row over the files before that file when it stops there, and the gene mismatch after what
those files wrote otherwise.  Nothing written in the row holds a newline. -/
theorem rowLoop_mismatch_row (specialmode : RunnerOutput) (pre post : List Reader)
    (bad : Reader) (out : Str) (hpre : pre ≠ [])
    (hlines : ∀ r ∈ pre ++ bad :: post, r.lines ≠ [])
    (hclean : ∀ r ∈ pre ++ bad :: post, ∀ l ∈ r.lines, '\n' ∉ l)
    (hmis : specGene [bad] 0 ≠ specGene pre 0) :
    ∃ e o, rowLoop specialmode false true [] (pre ++ bad :: post) [] out
        = RowResult.abort e o ∧
      SameLine out o ∧
      ((∃ pre1, rowLoop specialmode false true [] pre [] out = RowResult.row pre1 o ∧
          e = MergeError.geneMismatch bad.file.path (specGene pre 0) (specGene [bad] 0)) ∨
        rowLoop specialmode false true [] pre [] out = RowResult.abort e o) := by
  obtain ⟨_, h2⟩ := rowLoop_mismatch specialmode pre post bad out hpre hlines hmis
  have hsame := rowLoop_sameLine specialmode (pre ++ bad :: post) true [] [] out hclean
  cases hp : rowLoop specialmode false true [] pre [] out with
  | eof o =>
    exact absurd hp (rowLoop_no_eof specialmode false pre true [] [] out o
      (fun r hr => hlines r (List.mem_append_left _ hr)))
  | row pre1 out1 =>
    have h := h2 pre1 out1 hp
    exact ⟨_, out1, h, hsame.2 _ _ h, Or.inl ⟨pre1, rfl, rfl⟩⟩
  | abort e o =>
    have h := rowLoop_abort_append specialmode false (bad :: post) pre true [] [] out e o hp
    exact ⟨e, o, h, hsame.2 _ _ h, Or.inr rfl⟩

/-- C3, amended. For every batch whose files and output can be opened and every output mode,
when the merge has read and written the header row and `k` data rows in full, and in the
next row every file supplies a line and a file other than the first has a field 0
different from that of the first file, _mergeFilesBatch stops in that row.  What it wrote
is the output of the rows before followed by text that holds no newline: no row
terminator and no later row is written.  The files of the row are checked in batch
order: when the files before that file pass the checks of the row, the failure is the gene
mismatch naming that file, the gene expected (field 0 of the first file) and the gene read,
after what those files wrote; when one of them fails a check first, the failure and the
output are those of that earlier check. -/
theorem gene_mismatch_aborts (fs : FileSystem) (batch : List InputFileData) (outFilePath : Str)
    (filetype : FileType) (specialmode : RunnerOutput) (k : Nat) (pre post : List Reader)
    (bad : Reader) (out : Str)
    (hopen : ∀ f ∈ batch, (fs.content f.path).isSome)
    (hw : outFilePath ∉ fs.unwritable)
    (hreach : rowsDone specialmode (k + 1) true (batchReaders fs outFilePath specialmode batch)
        (if specialmode = RunnerOutput.normal then "RNA-see TPM data file".toList else [])
      = some (pre ++ bad :: post, out))
    (hpre : pre ≠ [])
    (hlines : ∀ r ∈ pre ++ bad :: post, r.lines ≠ [])
    (hmis : specGene [bad] 0 ≠ specGene pre 0) :
    ∃ e o, _mergeFilesBatch fs batch outFilePath filetype specialmode
        = BatchResult.abort e (written specialmode o) ∧
      SameLine out o ∧
      ((∃ pre1, rowLoop specialmode false true [] pre [] out = RowResult.row pre1 o ∧
          e = MergeError.geneMismatch bad.file.path (specGene pre 0) (specGene [bad] 0)) ∨
        rowLoop specialmode false true [] pre [] out = RowResult.abort e o) := by
  have hclean := rowsDone_clean specialmode (k + 1) true _ _ _ _
    (batchReaders_clean fs outFilePath specialmode batch) hreach
  obtain ⟨e, o, hrow, hsame, hcase⟩ :=
    rowLoop_mismatch_row specialmode pre post bad out hpre hlines hclean hmis
  obtain ⟨hlen, hb⟩ := rowsDone_bound specialmode (k + 1) true _ _ _ _ hreach
  have hne : batchReaders fs outFilePath specialmode batch ≠ [] := by
    intro hnil
    rw [hnil] at hlen
    simp at hlen
  have hbound := hb hne
  have hpos : ∃ m, loopBound (pre ++ bad :: post) = m + 1 := by
    cases pre with
    | nil => exact absurd rfl hpre
    | cons r rest => exact ⟨r.lines.length, rfl⟩
  obtain ⟨m, hm⟩ := hpos
  refine ⟨e, o, ?_, hsame, hcase⟩
  unfold _mergeFilesBatch
  rw [find_unopened_none fs batch hopen]
  simp only [hw, and_false, if_false]
  rw [hbound, mergeLoop_rowsDone specialmode _ k true _ _ _ _ hreach, hm, mergeLoop, hrow]

/-- C3, amended, at two Tab files whose first data rows are complete and are for the genes g1
and g2: after the header row the merge stops on the gene mismatch naming the second file,
having written the header line and the cells of the first file, with no newline after
them. -/
theorem gene_mismatch_aborts_witness :
    _mergeFilesBatch exFsMismatch [exTab, exTab3] "o".toList FileType.Either RunnerOutput.normal
      = BatchResult.abort
          (MergeError.geneMismatch "d/c.rnatab".toList "g1".toList "g2".toList)
          "RNA-see TPM data file\tr1\tr2\tr3\ng1\t1\t2".toList := by
  obtain ⟨e, o, h, _, hcase⟩ :=
    gene_mismatch_aborts exFsMismatch [exTab, exTab3] "o".toList FileType.Either
      RunnerOutput.normal 0 [Reader.mk exTab ["g1\t1\t2".toList]] []
      (Reader.mk exTab3 ["g2\t5".toList]) "RNA-see TPM data file\tr1\tr2\tr3\n".toList
      (by decide) (by decide) (by decide) (by decide) (by decide) (by decide)
  have hev : rowLoop RunnerOutput.normal false true [] [Reader.mk exTab ["g1\t1\t2".toList]] []
      "RNA-see TPM data file\tr1\tr2\tr3\n".toList
      = RowResult.row [Reader.mk exTab []] "RNA-see TPM data file\tr1\tr2\tr3\ng1\t1\t2".toList := by
    decide
  rcases hcase with ⟨pre1, hr, he⟩ | hab
  · rw [hev] at hr
    simp only [RowResult.row.injEq] at hr
    rw [h, he, ← hr.2]
    decide
  · rw [hev] at hab
    simp at hab

end RunnerGunner
